import Mathlib

/-!
# Sparrow: array records and their construction functions

A shallow embedding of the construction functions of
`include/sparrow/array/array_data_factory.hpp` and of the record
`array_data` they fill, and of the arrays that read such a record:
`array_crtp_base` (`include/sparrow_v01/layout/array_base.hpp`),
`list_array_impl` (`include/sparrow_v01/layout/list_layout/list_array.hpp`),
`variable_size_binary_array`
(`include/sparrow/layout/variable_size_binary_array.hpp`), `struct_array`
(`include/sparrow/layout/struct_layout/struct_array.hpp`) and
`run_end_encoded_array`
(`include/sparrow/layout/run_end_encoded_layout/run_end_encoded_array.hpp`),
of `typed_array_impl` (`include/sparrow/array/typed_array.hpp`), of the
type traits `arrow_traits` (`include/sparrow/array/data_traits.hpp`) and of
`functor_index_iterator`
(`include/sparrow_v01/utils/functor_index_iterator.hpp`),
together with the properties of the built records and of the arrays.

Conventions of the embedding.

* A range is a `List`; `std::ranges::size` is `List.length`.
* `std::size_t` values are natural numbers and `std::int64_t` values are
  integers.  The sizes that occur are element and byte counts of ranges and
  buffers held in memory, so none of the additions below wraps; the one
  conversion that can wrap, `static_cast<size_type>` of a signed value, is
  `to_size_type`.
* `SPARROW_ASSERT_TRUE` is compiled out of release builds; what the
  assertions of a function demand of its arguments appears as a hypothesis
  of the theorems that need it.  The functions named `_checked` are those of
  a debug build, where a failed assertion is an error value.
* A buffer is described by what the typed pointer `data<T>()`, through
  which the code fills it, sees; its size in bytes is derived from that.
* The iteration order of `std::unordered_map` is unspecified: it is a
  parameter (`unordered_map_order`), and the theorems hold for every order.
* Unsigned integers of a fixed width hold values below `2 ^ width`;
  differences of them wrap as in the code (`list_size`, `get_run_length`),
  and so does the index of `functor_index_iterator`.
  Where the code moves a byte pointer, the bytes of a buffer of integers are
  its little-endian image (`buffer_type.data`).
-/

namespace sparrow

/-! ## Data model -/

/-- The type tags of `data_type` that the embedded sources mention. -/
inductive data_type where
  | NA
  | UINT64
  | STRING
  | BINARY
  | LARGE_STRING
  | LARGE_BINARY
  | LIST
  | LARGE_LIST
  | RUN_ENCODED
  | TIMESTAMP
  | OTHER (tag : Nat)
  deriving DecidableEq, Repr

/-- The `array_data::bitmap_type`: one validity bit for each position. -/
abbrev bitmap_type := List Bool

/-- The contents of an `array_data::buffer_type`, as seen through the typed
pointer with which the construction functions fill it. `elems w xs` is a
buffer of elements of `w` bytes each (`w = 1` for the bytes of a data
buffer, `w = sizeof(T)` for the slots of a fixed-size layout), `int64 xs` a
buffer of `std::int64_t` and `uint bits xs` one of unsigned integers of
`bits` bits (`std::size_t` is `uint 64`). -/
inductive buffer_type (α : Type) where
  | elems (width : Nat) (data : List α)
  | int64 (data : List Int)
  | uint (bits : Nat) (data : List Nat)
  deriving DecidableEq, Repr

/-- The size of a buffer in bytes (`buffer::size()`). -/
def buffer_type.size {α : Type} : buffer_type α → Nat
  | .elems w xs => w * xs.length
  | .int64 xs => 8 * xs.length
  | .uint bits xs => bits / 8 * xs.length

/-- The view `data<std::int64_t>()` of a buffer. -/
def buffer_type.as_int64 {α : Type} : buffer_type α → List Int
  | .int64 xs => xs
  | _ => []

/-- The view of a buffer of unsigned integers (`data<std::size_t>()` for
64 bits). -/
def buffer_type.as_uint {α : Type} : buffer_type α → List Nat
  | .uint _ xs => xs
  | _ => []

/-- The view `data<T>()` of a buffer of elements. -/
def buffer_type.as_elems {α : Type} : buffer_type α → List α
  | .elems _ xs => xs
  | _ => []

/-- The record `array_data` that every layout interprets. -/
inductive array_data (α : Type) where
  | mk (type : data_type) (length : Int) (offset : Int) (bitmap : bitmap_type)
      (buffers : List (buffer_type α)) (child_data : List (array_data α))
      (dictionary : Option (array_data α))

namespace array_data

variable {α : Type}

def type : array_data α → data_type
  | mk t _ _ _ _ _ _ => t

def length : array_data α → Int
  | mk _ l _ _ _ _ _ => l

def offset : array_data α → Int
  | mk _ _ o _ _ _ _ => o

def bitmap : array_data α → bitmap_type
  | mk _ _ _ b _ _ _ => b

def buffers : array_data α → List (buffer_type α)
  | mk _ _ _ _ bs _ _ => bs

def child_data : array_data α → List (array_data α)
  | mk _ _ _ _ _ cs _ => cs

def dictionary : array_data α → Option (array_data α)
  | mk _ _ _ _ _ _ d => d

end array_data

/-! ## Bitmap construction -/

/-- A `bool_convertible_range` argument: either an `array_data::bitmap_type`
already, or any other range whose elements convert to `bool`. The two cases
select the two overloads of `detail::make_array_data_bitmap`. -/
inductive bool_range (β : Type) where
  | bitmap (bits : bitmap_type)
  | range (truthy : β → Bool) (xs : List β)

/-- The result of `std::ranges::size` on a bitmap argument. -/
def bool_range.size {β : Type} : bool_range β → Nat
  | .bitmap bits => bits.length
  | .range _ xs => xs.length

/-- The booleans that iterating the argument and converting every element to
`bool` yields (`*bitmap_iter` in the loops of the construction functions). -/
def bool_range.bools {β : Type} : bool_range β → List Bool
  | .bitmap bits => bits
  | .range truthy xs => xs.map truthy

/-- The loop of `make_array_data_bitmap`: `i` is the running index and
`bitmap` the bitmap filled so far. -/
def make_array_data_bitmap_loop {β : Type} (truthy : β → Bool) :
    List β → Nat → bitmap_type → bitmap_type
  | [], _, bitmap => bitmap
  | value :: rest, i, bitmap =>
      make_array_data_bitmap_loop truthy rest (i + 1)
        (if !truthy value then bitmap.set i false else bitmap)

/-- The function `detail::make_array_data_bitmap`: the first overload starts
from `bitmap(size(range), true)` and clears the bit of every falsy element;
the overload for an argument that is a bitmap already forwards it. -/
def make_array_data_bitmap {β : Type} : bool_range β → bitmap_type
  | .range truthy xs =>
      make_array_data_bitmap_loop truthy xs 0 (List.replicate xs.length true)
  | .bitmap bits => bits

/-! ## Fixed-size layout -/

/-- The copy loop of `make_array_data_for_fixed_size_layout`: `i` is the slot
that the pointer `data` has reached; a value is stored only under a set
bit. -/
def fixed_size_loop {α : Type} : List α → List Bool → Nat → List α → List α
  | value :: values, bit :: bits, i, buffer =>
      fixed_size_loop values bits (i + 1) (if bit then buffer.set i value else buffer)
  | _, _, _, buffer => buffer

/-- The function `make_array_data_for_fixed_size_layout(values, bitmap, offset)`.
`type_id` is `arrow_type_id<U>()` and `sizeofT` is `sizeof(T)` for the value
type `T`; `fresh i` is what slot `i` of the newly constructed buffer holds
before the loop stores anything. -/
def make_array_data_for_fixed_size_layout {α β : Type} (type_id : data_type) (sizeofT : Nat)
    (fresh : Nat → α) (values : List α) (bitmap : bool_range β) (offset : Int) :
    array_data α :=
  let size := values.length
  let buffer_size := size * sizeofT / 1
  let buffer := (List.range (buffer_size / sizeofT)).map fresh
  let buffer := fixed_size_loop values bitmap.bools 0 buffer
  .mk type_id (size : Int) offset (make_array_data_bitmap bitmap)
    [.elems sizeofT buffer] [] none

/-! ## Variable-size binary layout -/

/-- The first loop of `make_array_data_for_variable_size_binary_layout`, which
adds up the sizes of the values under a set bit. -/
def acc_size_loop {α : Type} : List (List α) → List Bool → Nat → Nat
  | value :: values, bit :: bits, acc_size =>
      acc_size_loop values bits (if bit then acc_size + value.length else acc_size)
  | _, _, acc_size => acc_size

/-- The call `std::ranges::copy(value, iter)` for an iterator at position
`iter` of `buffer`: the elements of `value` are stored one after the other
from position `iter` on. The buffer keeps the size it was given: a store
cannot make it longer, and a store past its end (undefined in the code) stores
nothing here. -/
def copy_at {α : Type} : List α → List α → Nat → List α
  | [], buffer, _ => buffer
  | x :: value, buffer, iter => copy_at value (buffer.set iter x) (iter + 1)

/-- The second loop of `make_array_data_for_variable_size_binary_layout`:
position `i`, the offsets and data buffers written so far, and the position
`iter` of the output iterator in the data buffer. -/
def fill_loop {α : Type} :
    List (List α) → List Bool → Nat → List Int → List α → Nat → List Int × List α
  | value :: values, bit :: bits, i, offsets, data, iter =>
      if bit then
        fill_loop values bits (i + 1)
          (offsets.set (i + 1) (offsets.getD i 0 + (value.length : Int)))
          (copy_at value data iter) (iter + value.length)
      else
        fill_loop values bits (i + 1) (offsets.set (i + 1) (offsets.getD i 0)) data iter
  | _, _, _, offsets, data, _ => (offsets, data)

/-- The function
`make_array_data_for_variable_size_binary_layout(values, bitmap, offset)`.
`type_id` is `arrow_type_id<U>()` for the value type; `resize` fills both
buffers with zeros (`default`) before the loops run. -/
def make_array_data_for_variable_size_binary_layout {α β : Type} [Inhabited α]
    (type_id : data_type) (values : List (List α)) (bitmap : bool_range β) (offset : Int) :
    array_data α :=
  let values_size := values.length
  let offsets : List Int := List.replicate (8 * (values_size + 1) / 8) 0
  let acc_size := acc_size_loop values bitmap.bools 0
  let data : List α := List.replicate acc_size default
  let offsets := offsets.set 0 0
  let filled := fill_loop values bitmap.bools 0 offsets data 0
  .mk type_id (values.length : Int) offset (make_array_data_bitmap bitmap)
    [.int64 filled.1, .elems 1 filled.2] [] none

/-! ## Dictionary-encoded layout -/

/-- The part of `std::unordered_map` that the standard leaves open: where a
new entry lands in the iteration order (all entries may move, as on a
rehash). Between insertions the iteration order is stable, so a map is
the list of its entries in iteration order. -/
structure unordered_map_order (K : Type) where
  place : List (K × Nat) → K × Nat → List (K × Nat)
  place_perm : ∀ m e, (place m e).Perm (e :: m)

/-- The member `emplace` of `unordered_map`: nothing happens when the key is
present. Keys are compared through `reference_wrapper_equal`, by value. -/
def unordered_map_emplace {K : Type} [DecidableEq K] (ord : unordered_map_order K)
    (m : List (K × Nat)) (key : K) (value : Nat) : List (K × Nat) :=
  if key ∈ m.map Prod.fst then m else ord.place m (key, value)

/-- The member `operator[]` of `unordered_map`: the value stored under the
key, which is inserted with value `0` when absent. -/
def unordered_map_subscript {K : Type} [DecidableEq K] (ord : unordered_map_order K)
    (m : List (K × Nat)) (key : K) : List (K × Nat) × Nat :=
  match m.find? (fun e => decide (e.1 = key)) with
  | some e => (m, e.2)
  | none => (ord.place m (key, 0), 0)

/-- The first loop of `ranges_to_vec_and_indexes`: every value is emplaced
with index `0`. -/
def emplace_loop {K : Type} [DecidableEq K] (ord : unordered_map_order K) :
    List K → List (K × Nat) → List (K × Nat)
  | [], set_index => set_index
  | value :: range, set_index =>
      emplace_loop ord range (unordered_map_emplace ord set_index value 0)

/-- The second loop of `ranges_to_vec_and_indexes`: the entries are numbered
in iteration order, starting from `i`. -/
def number_loop {K : Type} : List (K × Nat) → Nat → List (K × Nat)
  | [], _ => []
  | (key, _) :: set_index, i => (key, i) :: number_loop set_index (i + 1)

/-- The first `std::ranges::transform` of `ranges_to_vec_and_indexes`: each
value is looked up with `set_index[...]` and its index appended. -/
def index_loop {K : Type} [DecidableEq K] (ord : unordered_map_order K) :
    List K → List (K × Nat) → List Nat → List (K × Nat) × List Nat
  | [], set_index, indexes => (set_index, indexes)
  | value :: range, set_index, indexes =>
      let r := unordered_map_subscript ord set_index value
      index_loop ord range r.1 (indexes ++ [r.2])

/-- The struct `values_and_indexes`. -/
structure values_and_indexes (V : Type) where
  values : List V
  indexes : List Nat

/-- The function `ranges_to_vec_and_indexes`, called on empty outputs by the
constructor of `values_and_indexes`. -/
def ranges_to_vec_and_indexes {V : Type} [DecidableEq V] (ord : unordered_map_order V)
    (range : List V) : values_and_indexes V :=
  let set_index := emplace_loop ord range []
  let set_index := number_loop set_index 0
  let looked_up := index_loop ord range set_index []
  { values := looked_up.1.map Prod.fst, indexes := looked_up.2 }

/-- The function
`make_array_data_for_dictionary_encoded_layout(values, bitmap, offset)`.
`type_id` is the tag `arrow_type_id<U>()` of the value type, which the
dictionary record carries. -/
def make_array_data_for_dictionary_encoded_layout {α β : Type} [Inhabited α] [DecidableEq α]
    (ord : unordered_map_order (List α)) (type_id : data_type) (values : List (List α))
    (bitmap : bool_range β) (offset : Int) : array_data α :=
  let vec_and_indexes := ranges_to_vec_and_indexes ord values
  let indexes := vec_and_indexes.indexes
  let buffer_size := indexes.length * 8 / 1
  let b : List Nat := copy_at indexes (List.replicate (buffer_size / 8) 0) 0
  .mk .UINT64 (indexes.length : Int) offset (make_array_data_bitmap bitmap)
    [.uint 64 b] []
    (some (make_array_data_for_variable_size_binary_layout type_id vec_and_indexes.values
      (bool_range.bitmap (List.replicate vec_and_indexes.values.length true) : bool_range β) 0))

/-- An iteration order that puts every new entry first. -/
def front_order (K : Type) : unordered_map_order K where
  place m e := e :: m
  place_perm _ _ := List.Perm.refl _

/-! ## Reading a record -/

/-- The conversion `static_cast<size_type>` of a signed 64-bit integer: a
negative value wraps around `2 ^ 64`. -/
def to_size_type (z : Int) : Nat := if 0 ≤ z then z.toNat else (z + 2 ^ 64).toNat

/-- The member `array_crtp_base::size`, on the record that the array is
bound to. -/
def array_crtp_base.size {α : Type} (storage : array_data α) : Nat :=
  to_size_type (storage.length - storage.offset)

/-- The member `variable_size_binary_array::offset(i)`, dereferenced:
`offsets` is the offsets buffer seen as `OT` integers and `proxy_offset`
the slice offset of the record. -/
def variable_size_binary_array.offset (offsets : List Int) (proxy_offset : Int) (i : Nat) :
    Int :=
  offsets.getD (to_size_type proxy_offset + i) 0

/-- The member `variable_size_binary_array::value(i)`: the view from
`data(offset_begin)` up to `data(offset_end)` of the data buffer. -/
def variable_size_binary_array.value {α : Type} (offsets : List Int) (data : List α)
    (proxy_offset : Int) (i : Nat) : List α :=
  let offset_begin := variable_size_binary_array.offset offsets proxy_offset i
  let offset_end := variable_size_binary_array.offset offsets proxy_offset (i + 1)
  let pointer_begin := to_size_type offset_begin
  let pointer_end := to_size_type offset_end
  (data.drop pointer_begin).take (pointer_end - pointer_begin)

/-- The value at position `i` of a variable-size binary record, read as
`variable_size_binary_array::value(i)` reads it from the offsets buffer and
the data buffer (buffers 0 and 1 of an `array_data`). -/
def variable_size_binary_value {α : Type} (storage : array_data α) (i : Nat) : List α :=
  variable_size_binary_array.value ((storage.buffers[0]?.map buffer_type.as_int64).getD [])
    ((storage.buffers[1]?.map buffer_type.as_elems).getD []) storage.offset i

/-- All values of a variable-size binary record, positions `0` to
`size() - 1`. -/
def variable_size_binary_values {α : Type} (storage : array_data α) : List (List α) :=
  (List.range (array_crtp_base.size storage)).map (variable_size_binary_value storage)

/-- The entries of the dictionary of a record, read through the
variable-size binary layout; none when the record has no dictionary. -/
def dictionary_values {α : Type} (storage : array_data α) : List (List α) :=
  match storage.dictionary with
  | some dictionary => variable_size_binary_values dictionary
  | none => []

/-! ## Builder -/

/-- The offsets of a list layout, derived from the length of each inner
range, starting from `acc`. -/
def list_offsets {α : Type} : List (List α) → Nat → List Nat
  | [], acc => [acc]
  | inner :: rest, acc => acc :: list_offsets rest (acc + inner.length)

/-- Modelled from the spec: `sparrow::build` of `sparrow/builder/builder.hpp`,
which is not among the sources, on a range of ranges of scalars (§4.8 with
§4.4 and §3): a list record whose length is the number of inner ranges, with
slice offset 0 and every position valid; buffer 0 holds the `length + 1`
offsets derived from the lengths of the inner ranges, narrow or wide after
the large-list flag `big`; child 0 is the fixed-size record built from the
concatenation of all inner ranges. -/
def build {α : Type} (big : Bool) (type_id : data_type) (sizeofT : Nat) (fresh : Nat → α)
    (v : List (List α)) : array_data α :=
  .mk (if big then .LARGE_LIST else .LIST) (v.length : Int) 0 (List.replicate v.length true)
    [.uint (if big then 64 else 32) (list_offsets v 0)]
    [make_array_data_for_fixed_size_layout type_id sizeofT fresh v.flatten
      (bool_range.bitmap (List.replicate v.flatten.length true) : bool_range Bool) 0]
    none

/-! ## Specification-side notions -/

/-- The values at the positions whose bit is set, in input order. -/
def valid_values {α : Type} : List α → List Bool → List α
  | value :: values, bit :: bits =>
      if bit then value :: valid_values values bits else valid_values values bits
  | _, _ => []

/-- The slots of a buffer after a guarded store: slot `i` holds `values[i]`
under a set bit and keeps its earlier content otherwise. -/
def stored_slots {α : Type} : List α → List Bool → List α → List α
  | value :: values, bit :: bits, slot :: buffer =>
      (if bit then value else slot) :: stored_slots values bits buffer
  | _, _, buffer => buffer

/-- The offsets that the variable-size binary layout prescribes, from
`start` on: each next offset adds the length of the value under a set bit
and repeats the offset under a cleared bit. -/
def offsets_from {α : Type} : Int → List (List α) → List Bool → List Int
  | start, value :: values, bit :: bits =>
      start :: offsets_from (if bit then start + (value.length : Int) else start) values bits
  | start, _, _ => [start]

/-! ## Arrays bound to a record (`sparrow_v01/layout/array_base.hpp`)

The `arrow_proxy` that an array stores is read as the record it wraps: its
`buffers()[0]` is the validity buffer (the `bitmap` of `array_data`) and its
`buffers()[j + 1]` is buffer `j` of the record. -/

/-- The member `array_crtp_base::make_bitmap`: a view of `length` bits over
the validity buffer. -/
def array_crtp_base.make_bitmap {α : Type} (storage : array_data α) : bitmap_type :=
  storage.bitmap.take (to_size_type storage.length)

/-- The member `array_crtp_base::has_value(i)`, read as a boolean. -/
def array_crtp_base.has_value {α : Type} (storage : array_data α) (i : Nat) : Bool :=
  (array_crtp_base.make_bitmap storage).getD (i + to_size_type storage.offset) false

/-- The member `array_crtp_base::bitmap_begin`, as a position in `m_bitmap`:
`sparrow::next(m_bitmap.cbegin(), storage().offset())`. -/
def array_crtp_base.bitmap_begin {α : Type} (storage : array_data α) : Int :=
  0 + storage.offset

/-- The member `array_crtp_base::bitmap_end`, as a position in `m_bitmap`:
`sparrow::next(bitmap_begin(), size())`. -/
def array_crtp_base.bitmap_end {α : Type} (storage : array_data α) : Int :=
  array_crtp_base.bitmap_begin storage + (array_crtp_base.size storage : Int)

/-- The elements of `std::ranges::subrange(first, last)` for two positions
in a sequence. -/
def subrange {γ : Type} (xs : List γ) (first last : Int) : List γ :=
  (xs.drop first.toNat).take (last - first).toNat

/-- The member `array_crtp_base::bitmap()`: the bits from `bitmap_begin()` up
to `bitmap_end()`. -/
def array_crtp_base.bitmap {α : Type} (storage : array_data α) : List Bool :=
  subrange (array_crtp_base.make_bitmap storage) (array_crtp_base.bitmap_begin storage)
    (array_crtp_base.bitmap_end storage)

/-- Modelled from the spec: `nullable` of `sparrow/utils/nullable.hpp`, which
is not among the sources (§3): a value paired with a validity flag. -/
structure nullable (T : Type) where
  value : T
  has_value : Bool
  deriving DecidableEq, Repr

/-! ## List arrays (`sparrow_v01/layout/list_layout/list_array.hpp`) -/

/-- The `width` bytes of an unsigned integer in memory, least significant
byte first. -/
def le_bytes : Nat → Nat → List Nat
  | 0, _ => []
  | width + 1, x => x % 256 :: le_bytes width (x / 256)

/-- The unsigned integer that a run of bytes holds, least significant byte
first. -/
def le_value : List Nat → Nat
  | [] => 0
  | byte :: bytes => byte + 256 * le_value bytes

/-- The bytes that `buffer::data()` points to, for a buffer of integers; the
object representation of the elements of an `elems` buffer is not modelled
and such a buffer shows no bytes. -/
def buffer_type.data {α : Type} : buffer_type α → List Nat
  | .uint bits xs => xs.flatMap (le_bytes (bits / 8))
  | .int64 xs => xs.flatMap (fun x => le_bytes 8 (to_size_type x))
  | .elems _ _ => []

/-- The size in bytes of `flat_array_offset_type`: `std::uint64_t` for a big
list and `std::uint32_t` otherwise. -/
def flat_array_offset_size (BIG : Bool) : Nat := if BIG then 8 else 4

/-- The element `p_list_offsets[i]`. The constructor of `list_array_impl`
sets `p_list_offsets` to
`reinterpret_cast<flat_array_offset_type*>(buffers()[1].data() + offset())`:
the slice offset is added to the byte pointer `data()` before the cast, so
element `i` is read at byte `offset() + i * sizeof(flat_array_offset_type)`
of the offsets buffer. -/
def list_array_impl.p_list_offsets {α : Type} (BIG : Bool) (storage : array_data α)
    (i : Nat) : Nat :=
  let bytes := (storage.buffers[0]?.map buffer_type.data).getD []
  let address := storage.offset.toNat + i * flat_array_offset_size BIG
  le_value ((bytes.drop address).take (flat_array_offset_size BIG))

/-- The member `list_array_impl::offset_begin`. -/
def list_array_impl.offset_begin {α : Type} (BIG : Bool) (storage : array_data α)
    (i : Nat) : Nat :=
  list_array_impl.p_list_offsets BIG storage i

/-- The member `list_array_impl::offset_end`. -/
def list_array_impl.offset_end {α : Type} (BIG : Bool) (storage : array_data α)
    (i : Nat) : Nat :=
  list_array_impl.p_list_offsets BIG storage (i + 1)

/-- The member `list_array_impl::list_size`: a difference of unsigned
integers of the offset type, which wraps. -/
def list_array_impl.list_size {α : Type} (BIG : Bool) (storage : array_data α)
    (i : Nat) : Nat :=
  (list_array_impl.offset_end BIG storage i + 2 ^ (8 * flat_array_offset_size BIG)
      - list_array_impl.offset_begin BIG storage i) % 2 ^ (8 * flat_array_offset_size BIG)

/-- The member `p_flat_array` of `list_array_impl`: `array_factory` applied to
child 0 of the record; `array_factory`, declared in
`sparrow_v01/array_factory.hpp` and defined outside the sources, is a
parameter. -/
def list_array_impl.p_flat_array {α A : Type} (array_factory : array_data α → A)
    (storage : array_data α) : Option A :=
  storage.child_data[0]?.map array_factory

/-- Modelled from the spec: `list_value2` of
`sparrow_v01/layout/list_layout/list_value.hpp`, which is not among the
sources (§4.4): a view made of the pointer to the flattened child and the
two offsets that bound the element. -/
structure list_value2 (A : Type) where
  p_flat_array : Option A
  flat_begin : Nat
  flat_end : Nat

/-- Modelled from the spec: `list_value2::size`, the number of elements
between the two offsets. -/
def list_value2.size {A : Type} (v : list_value2 A) : Nat := v.flat_end - v.flat_begin

/-- Modelled from the spec: `list_value2::operator[]`, element
`flat_begin + j` of the flattened child; `array_element` is the element
access of the child array. -/
def list_value2.get {A E : Type} (array_element : A → Nat → Option E) (v : list_value2 A)
    (j : Nat) : Option E :=
  v.p_flat_array.bind (fun flat => array_element flat (v.flat_begin + j))

/-- The member `list_array_impl::value(i)`. -/
def list_array_impl.value {α A : Type} (BIG : Bool) (array_factory : array_data α → A)
    (storage : array_data α) (i : Nat) : list_value2 A :=
  { p_flat_array := list_array_impl.p_flat_array array_factory storage
    flat_begin := list_array_impl.offset_begin BIG storage i
    flat_end := list_array_impl.offset_end BIG storage i }

/-- Modelled from the spec: `operator[]` of the array that `build` returns
for a range of ranges, which is not among the sources (§4.9, §3): the value
view at position `i` paired with the validity of position `i`. -/
def list_array_get {α A : Type} (BIG : Bool) (array_factory : array_data α → A)
    (storage : array_data α) (i : Nat) : nullable (list_value2 A) :=
  { value := list_array_impl.value BIG array_factory storage i
    has_value := array_crtp_base.has_value storage i }

/-- Modelled from the spec: element `j` of a fixed-size array, whose class
is not among the sources (§4.1): the content of slot `j` of buffer 0, counted
from the slice offset, paired with the validity of position `j`. -/
def fixed_size_array_element {α : Type} (storage : array_data α) (j : Nat) :
    Option (nullable α) :=
  ((storage.buffers[0]?.map buffer_type.as_elems).getD [])[j + to_size_type storage.offset]?.map
    (fun x => { value := x, has_value := array_crtp_base.has_value storage j })

/-! ## Struct arrays (`sparrow/layout/struct_layout/struct_array.hpp`) -/

/-- The loop of `struct_array::make_children`: `i` is the running index, the
first argument the child records from `i` on, and `children` the vector
filled so far. -/
def struct_array.make_children_loop {α A : Type} (array_factory : array_data α → A) :
    List (array_data α) → Nat → List (Option A) → List (Option A)
  | [], _, children => children
  | child :: rest, i, children =>
      struct_array.make_children_loop array_factory rest (i + 1)
        (children.set i (some (array_factory child)))

/-- The member `struct_array::make_children`: a vector of as many null
pointers as the record has children, filled by the loop. `array_factory`
(`sparrow/array_factory.hpp`, not among the sources) is a parameter. -/
def struct_array.make_children {α A : Type} (array_factory : array_data α → A)
    (storage : array_data α) : List (Option A) :=
  struct_array.make_children_loop array_factory storage.child_data 0
    (List.replicate storage.child_data.length none)

/-- The member `struct_array::raw_child(i)`: `m_children[i].get()`. -/
def struct_array.raw_child {A : Type} (m_children : List (Option A)) (i : Nat) : Option A :=
  (m_children[i]?).join

/-- Modelled from the spec: `struct_value` of
`sparrow/layout/nested_value_types.hpp`, which is not among the sources
(§4.5): the children of the struct array paired with the index of the
element. -/
structure struct_value (A : Type) where
  children : List (Option A)
  index : Nat

/-- Modelled from the spec: field `j` of a struct element (§4.5), read from
field-child `j` at the index of the element; `array_element` is the element
access of the child arrays. -/
def struct_value.field {A E : Type} (array_element : A → Nat → E) (v : struct_value A)
    (j : Nat) : Option E :=
  (struct_array.raw_child v.children j).map (fun child => array_element child v.index)

/-- The member `struct_array::value(i)`: `struct_value{m_children, i}`. -/
def struct_array.value {A : Type} (m_children : List (Option A)) (i : Nat) : struct_value A :=
  { children := m_children, index := i }

/-- A record with child `j` replaced. -/
def array_data.set_child {α : Type} (storage : array_data α) (j : Nat)
    (child : array_data α) : array_data α :=
  .mk storage.type storage.length storage.offset storage.bitmap storage.buffers
    (storage.child_data.set j child) storage.dictionary

/-- A record with the validity bit of position `i` set to `bit`; the bit
lies at `i` plus the slice offset, where `has_value(i)` reads it. -/
def array_data.set_validity {α : Type} (storage : array_data α) (i : Nat) (bit : Bool) :
    array_data α :=
  .mk storage.type storage.length storage.offset
    (storage.bitmap.set (i + to_size_type storage.offset) bit) storage.buffers
    storage.child_data storage.dictionary

/-! ## Run-end encoded arrays
(`sparrow/layout/run_end_encoded_layout/run_end_encoded_array.hpp`) -/

/-- The alternatives of `acc_length_ptr_variant_type`: the width of the
accumulated lengths. -/
inductive acc_length_width where
  | uint16
  | uint32
  | uint64
  deriving DecidableEq, Repr

/-- The number of bits of an accumulated length. -/
def acc_length_width.bits : acc_length_width → Nat
  | .uint16 => 16
  | .uint32 => 32
  | .uint64 => 64

/-- The conversion of an integer to an unsigned type of `bits` bits. -/
def wrap_unsigned (bits : Nat) (z : Int) : Nat := (z % 2 ^ bits).toNat

/-- The member `run_end_encoded_array::get_run_length`. The difference of two
`std::uint16_t` is taken in `int` after integral promotion and then
converted to `std::uint64_t`; the difference of two `std::uint32_t` or
`std::uint64_t` wraps in its own type. -/
def run_end_encoded_array.get_run_length (width : acc_length_width) (acc_lengths : List Nat)
    (run_index : Nat) : Nat :=
  if run_index = 0 then
    wrap_unsigned 64 (acc_lengths.getD run_index 0 : Nat)
  else
    let difference : Int :=
      (acc_lengths.getD run_index 0 : Int) - (acc_lengths.getD (run_index - 1) 0 : Int)
    match width with
    | .uint16 => wrap_unsigned 64 difference
    | .uint32 => wrap_unsigned 64 (wrap_unsigned 32 difference : Nat)
    | .uint64 => wrap_unsigned 64 (wrap_unsigned 64 difference : Nat)

/-- Modelled from the spec: `std::upper_bound`, the binary search that the
const `run_end_encoded_array::operator[]` (declared in the header, defined
outside the sources) runs over the accumulated lengths (§4.6). `first` and
`count` are the variables of the standard loop; `fuel` bounds the number of
iterations, and a fuel of `count` is enough. -/
def upper_bound_loop (xs : List Nat) (value : Nat) : Nat → Nat → Nat → Nat
  | 0, first, _ => first
  | fuel + 1, first, count =>
      if count = 0 then first
      else
        let step := count / 2
        let it := first + step
        if ¬ value < xs.getD it 0 then
          upper_bound_loop xs value fuel (it + 1) (count - (step + 1))
        else upper_bound_loop xs value fuel first step

/-- Modelled from the spec: `std::upper_bound(xs, xs + size, value)`, as an
index into `xs`. -/
def upper_bound (xs : List Nat) (value : Nat) : Nat :=
  upper_bound_loop xs value xs.length 0 xs.length

/-- The member `run_end_encoded_array::size`: `m_proxy.length()` as a
`size_type`. -/
def run_end_encoded_array.size {α : Type} (m_proxy : array_data α) : Nat :=
  to_size_type m_proxy.length

/-- Modelled from the spec: the const `run_end_encoded_array::operator[]`,
declared in the header and defined outside the sources (§4.6): the element
of the encoded values at the index of the first accumulated length above
`i`. `array_element` is the element access of the child array. -/
def run_end_encoded_array.subscript_const {A E : Type} (array_element : A → Nat → E)
    (acc_lengths : List Nat) (p_encoded_values_array : A) (i : Nat) : E :=
  array_element p_encoded_values_array (upper_bound acc_lengths i)

/-- The non-const `run_end_encoded_array::operator[]`, which calls the const
one on `this`. -/
def run_end_encoded_array.subscript {A E : Type} (array_element : A → Nat → E)
    (acc_lengths : List Nat) (p_encoded_values_array : A) (i : Nat) : E :=
  run_end_encoded_array.subscript_const array_element acc_lengths p_encoded_values_array i

/-! ## Empty records and layout dispatch (`sparrow/array/array_data_factory.hpp`) -/

/-- The function `make_array_data_for_null_layout(size)`. -/
def make_array_data_for_null_layout {α : Type} (size : Nat) : array_data α :=
  .mk .NA (size : Int) 0 [] [] [] none

/-- The buffer `array_data::buffer_type(n, 0)`: `n` bytes of value zero. -/
def zero_buffer {α : Type} (n : Nat) : buffer_type α := .uint 8 (List.replicate n 0)

/-- The function `make_array_data_for_variable_size_binary_layout<T>()`
without arguments: the buffers are `{{}, buffer_type(sizeof(std::int64_t), 0)}`,
an empty buffer followed by a buffer of eight zero bytes. -/
def make_array_data_for_variable_size_binary_layout_empty {α : Type} (type_id : data_type) :
    array_data α :=
  .mk type_id 0 0 [] [zero_buffer 0, zero_buffer 8] [] none

/-- The function `make_array_data_for_list_layout<LAYOUT>()`; `offset_bits` is
the width of `LAYOUT::offset_type`. -/
def make_array_data_for_list_layout {α : Type} (offset_bits : Nat) : array_data α :=
  .mk (if offset_bits = 32 then .LIST else .LARGE_LIST) 0 0 [] [zero_buffer 8] [] none

/-- The layouts of the concept `arrow_layout`, each with what its
instantiation fixes at compile time: the type tag of the value type, the size
of a fixed-size value and the content of a new buffer, the iteration order
of the dictionary map, the width of the offsets of a list. -/
inductive arrow_layout (α : Type) where
  | null_layout
  | fixed_size_layout (type_id : data_type) (sizeofT : Nat) (fresh : Nat → α)
  | variable_size_binary_layout (type_id : data_type)
  | dictionary_encoded_layout (ord : unordered_map_order (List α)) (type_id : data_type)
  | list_layout (offset_bits : Nat)

/-- The type `Layout::inner_value_type` of the values a layout stores: a
scalar for the fixed-size layout, a sequence of bytes or scalars
otherwise. -/
def arrow_layout.inner_value_type {α : Type} : arrow_layout α → Type
  | .fixed_size_layout _ _ _ => α
  | _ => List α

/-- The function `make_default_array_data<Layout>(values, bitmap, offset)`:
the `if constexpr` chain over the layout; the instantiation for the null
layout meets the `static_assert` and does not compile, which is `none`. -/
def make_default_array_data {α β : Type} [Inhabited α] [DecidableEq α] :
    (Layout : arrow_layout α) → List Layout.inner_value_type → bool_range β → Int →
      Option (array_data α)
  | .fixed_size_layout type_id sizeofT fresh, values, bitmap, offset =>
      some (make_array_data_for_fixed_size_layout type_id sizeofT fresh values bitmap offset)
  | .variable_size_binary_layout type_id, values, bitmap, offset =>
      some (make_array_data_for_variable_size_binary_layout type_id values bitmap offset)
  | .dictionary_encoded_layout ord type_id, values, bitmap, offset =>
      some (make_array_data_for_dictionary_encoded_layout ord type_id values bitmap offset)
  | .list_layout _, values, _, _ => some (make_array_data_for_null_layout values.length)
  | .null_layout, _, _, _ => none

/-- Modelled from the spec: the accessor `nullable::value()` of
`sparrow/utils/nullable.hpp`, which is not among the sources (§3): the value
of a valid nullable; taking the value of a null one is a contract violation,
which is `none`. -/
def nullable.checked_value {T : Type} (x : nullable T) : Option T :=
  if x.has_value then some x.value else none

/-- The copy loop of `make_array_data_for_fixed_size_layout` over a view of
values. -/
def fixed_size_loop_view {α : Type} :
    List (Option α) → List Bool → Nat → List α → Option (List α)
  | value_iter :: values, bit :: bits, i, buffer =>
      if bit then
        match value_iter with
        | some value => fixed_size_loop_view values bits (i + 1) (buffer.set i value)
        | none => none
      else fixed_size_loop_view values bits (i + 1) buffer
  | _, _, _, buffer => some buffer

/-- The function `make_array_data_for_fixed_size_layout` over a view of
values. -/
def make_array_data_for_fixed_size_layout_view {α β : Type} (type_id : data_type)
    (sizeofT : Nat) (fresh : Nat → α) (values : List (Option α)) (bitmap : bool_range β)
    (offset : Int) : Option (array_data α) :=
  let size := values.length
  let buffer_size := size * sizeofT / 1
  let buffer := (List.range (buffer_size / sizeofT)).map fresh
  match fixed_size_loop_view values bitmap.bools 0 buffer with
  | none => none
  | some buffer =>
      some (.mk type_id (size : Int) offset (make_array_data_bitmap bitmap)
        [.elems sizeofT buffer] [] none)

/-- The first loop of `make_array_data_for_variable_size_binary_layout` over a
view of values. -/
def acc_size_loop_view {α : Type} : List (Option (List α)) → List Bool → Nat → Option Nat
  | value_iter :: values, bit :: bits, acc_size =>
      if bit then
        match value_iter with
        | some value => acc_size_loop_view values bits (acc_size + value.length)
        | none => none
      else acc_size_loop_view values bits acc_size
  | _, _, acc_size => some acc_size

/-- The second loop of `make_array_data_for_variable_size_binary_layout` over
a view of values. -/
def fill_loop_view {α : Type} :
    List (Option (List α)) → List Bool → Nat → List Int → List α → Nat →
      Option (List Int × List α)
  | value_iter :: values, bit :: bits, i, offsets, data, iter =>
      if bit then
        match value_iter with
        | some value =>
            fill_loop_view values bits (i + 1)
              (offsets.set (i + 1) (offsets.getD i 0 + (value.length : Int)))
              (copy_at value data iter) (iter + value.length)
        | none => none
      else
        fill_loop_view values bits (i + 1) (offsets.set (i + 1) (offsets.getD i 0)) data iter
  | _, _, _, offsets, data, _ => some (offsets, data)

/-- The function `make_array_data_for_variable_size_binary_layout` over a view
of values. -/
def make_array_data_for_variable_size_binary_layout_view {α β : Type} [Inhabited α]
    (type_id : data_type) (values : List (Option (List α))) (bitmap : bool_range β)
    (offset : Int) : Option (array_data α) :=
  let values_size := values.length
  let offsets : List Int := List.replicate (8 * (values_size + 1) / 8) 0
  match acc_size_loop_view values bitmap.bools 0 with
  | none => none
  | some acc_size =>
      let data : List α := List.replicate acc_size default
      let offsets := offsets.set 0 0
      match fill_loop_view values bitmap.bools 0 offsets data 0 with
      | none => none
      | some filled =>
          some (.mk type_id (values.length : Int) offset (make_array_data_bitmap bitmap)
            [.int64 filled.1, .elems 1 filled.2] [] none)

/-- The function `make_default_array_data<Layout>(values, bitmap, offset)` over
a view of values. The construction function of the dictionary-encoded layout
does not copy the values while it runs: `values_and_indexes`, whose
constructor is constrained to a `mpl::constant_range`, keeps a reference
(`std::cref`) to every element of the range it is given and reads the values
through these references afterwards. The elements of a view are temporaries
that are gone by then, so for a view this instantiation produces no record,
which is `none`. -/
def make_default_array_data_view {α β : Type} [Inhabited α] [DecidableEq α] :
    (Layout : arrow_layout α) → List (Option Layout.inner_value_type) → bool_range β → Int →
      Option (array_data α)
  | .fixed_size_layout type_id sizeofT fresh, values, bitmap, offset =>
      make_array_data_for_fixed_size_layout_view type_id sizeofT fresh values bitmap offset
  | .variable_size_binary_layout type_id, values, bitmap, offset =>
      make_array_data_for_variable_size_binary_layout_view type_id values bitmap offset
  | .dictionary_encoded_layout _ _, _, _, _ => none
  | .list_layout _, values, _, _ => some (make_array_data_for_null_layout values.length)
  | .null_layout, _, _, _ => none

/-- The overload `make_default_array_data<Layout>(values)` for a range of
nullables: the view of the values and the view of the validity flags are
passed to the overload for values and bitmap, with offset `0`. -/
def make_default_array_data_nullables {α : Type} [Inhabited α] [DecidableEq α]
    (Layout : arrow_layout α) (values : List (nullable Layout.inner_value_type)) :
    Option (array_data α) :=
  let values_range := values.map nullable.checked_value
  let bitmap_range := bool_range.range nullable.has_value values
  let offset : Int := 0
  make_default_array_data_view Layout values_range bitmap_range offset

/-- What the assertions of `make_array_data_for_fixed_size_layout` and of
`make_array_data_for_variable_size_binary_layout` demand of the arguments:
`size == std::ranges::size(bitmap)` and `std::cmp_greater_equal(size, offset)`. -/
def factory_precondition {β : Type} (size : Nat) (bitmap : bool_range β) (offset : Int) :
    Prop :=
  size = bitmap.size ∧ (size : Int) ≥ offset

/-! ## Typed arrays (`sparrow/array/typed_array.hpp`) -/

/-- The members of a layout class that `typed_array_impl` calls; the layout
classes are not among the sources, so the layout is a parameter. The layout
is bound to the record of its array, which the members receive. -/
structure layout_type (α E : Type) where
  size : array_data α → Nat
  subscript : array_data α → Nat → E

/-- The class `typed_array_impl`: the record `m_data`; the member `m_layout`
is the layout bound to `m_data`. -/
structure typed_array_impl (α : Type) where
  m_data : array_data α

/-- The exception `std::out_of_range` with its message. -/
inductive exception where
  | out_of_range (what : String)
  deriving DecidableEq, Repr

/-- The member `typed_array_impl::size`. -/
def typed_array_impl.size {α E : Type} (L : layout_type α E) (a : typed_array_impl α) : Nat :=
  L.size a.m_data

/-- The member `typed_array_impl::operator[]`. -/
def typed_array_impl.subscript {α E : Type} (L : layout_type α E) (a : typed_array_impl α)
    (i : Nat) : E :=
  L.subscript a.m_data i

/-- The member `typed_array_impl::at`. -/
def typed_array_impl.at {α E : Type} (L : layout_type α E) (a : typed_array_impl α)
    (i : Nat) : Except exception E :=
  if i ≥ typed_array_impl.size L a then
    .error (.out_of_range
      ("typed_array_impl::at: index out of range for array of size "
        ++ toString (typed_array_impl.size L a) ++ " at index " ++ toString i))
  else .ok (L.subscript a.m_data i)

/-- The elements that the iterators from `cbegin()` to `cend()` visit: the
elements of the layout at the positions below `size()`. -/
def typed_array_impl.elements {α E : Type} (L : layout_type α E) (a : typed_array_impl α) :
    List E :=
  (List.range (typed_array_impl.size L a)).map (typed_array_impl.subscript L a)

/-- The loop of `operator==` for an old libc++: `first1` runs to `last1` and
`first2` along with it. -/
def equal_loop {E : Type} [BEq E] : List E → List E → Bool
  | [], _ => true
  | x :: first1, y :: first2 => if !(x == y) then false else equal_loop first1 first2
  | _ :: _, [] => false

/-- The algorithm `std::equal(first1, last1, first2, last2)`. -/
def std_equal {E : Type} [BEq E] : List E → List E → Bool
  | [], [] => true
  | x :: first1, y :: first2 => if x == y then std_equal first1 first2 else false
  | _, _ => false

/-- The function `operator==` on two typed arrays; `old_libcpp` selects the
branch of the preprocessor condition on `_LIBCPP_VERSION`. -/
def typed_array_impl.eq {α E : Type} [BEq E] (old_libcpp : Bool) (L : layout_type α E)
    (ta1 ta2 : typed_array_impl α) : Bool :=
  if old_libcpp then
    if typed_array_impl.size L ta1 ≠ typed_array_impl.size L ta2 then false
    else equal_loop (typed_array_impl.elements L ta1) (typed_array_impl.elements L ta2)
  else std_equal (typed_array_impl.elements L ta1) (typed_array_impl.elements L ta2)

/-- The value types for which `arrow_traits` is specialised in
`data_traits.hpp`; for an arithmetic type, `type_id` is what
`data_type_from_size<T>()`, which is not among the sources, returns. -/
inductive arrow_value_type where
  | null_type
  | arithmetic (type_id : data_type)
  | string
  | byte_vector
  | timestamp
  deriving DecidableEq, Repr

/-- The layout templates that `arrow_traits` name as `default_layout`. -/
inductive default_layout_kind where
  | null_layout
  | fixed_size_layout
  | variable_size_binary_layout
  deriving DecidableEq, Repr

/-- The constant `arrow_traits<T>::type_id`. -/
def arrow_traits.type_id : arrow_value_type → data_type
  | .null_type => .NA
  | .arithmetic type_id => type_id
  | .string => .STRING
  | .byte_vector => .STRING
  | .timestamp => .TIMESTAMP

/-- The template `arrow_traits<T>::default_layout`. -/
def arrow_traits.default_layout : arrow_value_type → default_layout_kind
  | .null_type => .null_layout
  | .arithmetic _ => .fixed_size_layout
  | .string => .variable_size_binary_layout
  | .byte_vector => .variable_size_binary_layout
  | .timestamp => .fixed_size_layout

/-! ## Record invariants -/

/-- The function `check_all_elements_have_same_size`; `size` is the member
`size()` of an element of the range. -/
def check_all_elements_have_same_size {V : Type} (size : V → Nat) (values : List V) : Bool :=
  match values with
  | front :: _ =>
      let expected_size := size front
      values.all (fun value => size value == expected_size)
  | [] => true

/-! ## Typed arrays in memory (`sparrow/array/typed_array.hpp`)

A typed array owns its record `m_data` and a layout `m_layout` that refers
to a record. To tell a copy from an alias, typed arrays are objects at
addresses, and the reference that the layout holds is the address of the
typed array whose `m_data` it is bound to. -/

/-- The members of a `typed_array_impl` object: the record `m_data`, held by
value, and the layout `m_layout`, given by the address of the typed array
whose `m_data` the layout is bound to. -/
structure typed_array_object (α : Type) where
  m_data : array_data α
  m_layout : Nat

/-- The typed arrays of a program, by address. -/
abbrev object_memory (α : Type) := Nat → Option (typed_array_object α)

/-- The memory with the object at `address` replaced. -/
def object_memory.store {α : Type} (memory : object_memory α) (address : Nat)
    (object : typed_array_object α) : object_memory α :=
  fun p => if p = address then some object else memory p

/-- The copy constructor `typed_array_impl(const typed_array_impl& rhs)`, run
for the object at `this`: `m_data(rhs.m_data)`, `m_layout(m_data)`.
Modelled from the spec: the copy constructor of the record, whose class is
not among the sources, copies the record by value (§3: a deep copy of the
owned buffers and children). -/
def typed_array_impl.copy_constructor {α : Type} (memory : object_memory α)
    (this rhs : Nat) : object_memory α :=
  match memory rhs with
  | some r => memory.store this { m_data := r.m_data, m_layout := this }
  | none => memory

/-- The copy assignment `operator=(const typed_array_impl& rhs)`, run for the
object at `this`: `m_data = rhs.m_data`, then `m_layout.rebind_data(m_data)`.
Modelled from the spec: the assignment of the record copies it by value, and
`rebind_data`, a member of the layout classes, which are not among the
sources, points the layout at the record it receives (§3). -/
def typed_array_impl.copy_assignment {α : Type} (memory : object_memory α)
    (this rhs : Nat) : object_memory α :=
  match memory this, memory rhs with
  | some l, some r =>
      let memory := memory.store this { m_data := r.m_data, m_layout := l.m_layout }
      memory.store this { m_data := r.m_data, m_layout := this }
  | _, _ => memory

/-- The record that the layout of the typed array at `address` reads: the
`m_data` of the typed array that the layout is bound to. -/
def typed_array_impl.bound_record {α : Type} (memory : object_memory α) (address : Nat) :
    Option (array_data α) :=
  (memory address).bind (fun a => (memory a.m_layout).map (fun owner => owner.m_data))

/-- The member `operator[]` of the typed array at `address`: `m_layout[i]`;
`none` when there is no object to read. -/
def typed_array_impl.read {α E : Type} (L : layout_type α E) (memory : object_memory α)
    (address : Nat) (i : Nat) : Option E :=
  (typed_array_impl.bound_record memory address).map (fun data => L.subscript data i)

/-- The member `size()` of the typed array at `address`: `m_layout.size()`. -/
def typed_array_impl.read_size {α E : Type} (L : layout_type α E) (memory : object_memory α)
    (address : Nat) : Option Nat :=
  (typed_array_impl.bound_record memory address).map L.size

/-- A change of the record that the typed array at `address` owns (its
buffers, its bitmap or any other part): `m_data` becomes `data`. -/
def typed_array_impl.set_data {α : Type} (memory : object_memory α) (address : Nat)
    (data : array_data α) : object_memory α :=
  match memory address with
  | some a => memory.store address { a with m_data := data }
  | none => memory

/-! ## Assertions of the variable-size binary array
(`sparrow/layout/variable_size_binary_array.hpp`) -/

/-- A failed `SPARROW_ASSERT_TRUE` or `SPARROW_ASSERT_FALSE` of a debug
build, named by the asserted expression. -/
inductive assertion_failure where
  | failed (expression : String)
  deriving DecidableEq, Repr

/-- The member `variable_size_binary_array::offset(i)` of a debug build,
dereferenced: the assertion `i < size() + get_arrow_proxy().offset()` comes
first. -/
def variable_size_binary_array.offset_checked {α : Type} (storage : array_data α) (i : Nat) :
    Except assertion_failure Int :=
  if i < array_crtp_base.size storage + to_size_type storage.offset then
    .ok (variable_size_binary_array.offset
      ((storage.buffers[0]?.map buffer_type.as_int64).getD []) storage.offset i)
  else .error (.failed "i < size() + get_arrow_proxy().offset()")

/-- The member `variable_size_binary_array::data(i)` of a debug build, as a
position in the data buffer (`buffers()[DATA_BUFFER_INDEX]` of the proxy,
buffer 1 of the record): the assertion that the data buffer is not empty
comes first. -/
def variable_size_binary_array.data_checked {α : Type} (storage : array_data α) (i : Nat) :
    Except assertion_failure Nat :=
  if (storage.buffers[1]?.map buffer_type.size).getD 0 = 0 then
    .error (.failed "get_arrow_proxy().buffers()[DATA_BUFFER_INDEX].size() == 0u")
  else .ok i

/-- The member `variable_size_binary_array::value(i)` of a debug build: every
assertion of `value`, `offset` and `data` is checked in the order of the
source. -/
def variable_size_binary_array.value_checked {α : Type} (storage : array_data α) (i : Nat) :
    Except assertion_failure (List α) :=
  if i < array_crtp_base.size storage then
    (variable_size_binary_array.offset_checked storage i).bind fun offset_begin =>
    if offset_begin ≥ 0 then
      (variable_size_binary_array.offset_checked storage (i + 1)).bind fun offset_end =>
      if offset_end ≥ 0 then
        (variable_size_binary_array.data_checked storage (to_size_type offset_begin)).bind
          fun pointer_begin =>
        (variable_size_binary_array.data_checked storage (to_size_type offset_end)).bind
          fun pointer_end =>
        .ok ((((storage.buffers[1]?.map buffer_type.as_elems).getD []).drop
          pointer_begin).take (pointer_end - pointer_begin))
      else .error (.failed "offset_end >= 0")
    else .error (.failed "offset_begin >= 0")
  else .error (.failed "i < size()")

/-! ## The value iterators of a list array
(`sparrow_v01/layout/list_layout/list_array.hpp`)

The iterator of this header keeps the last value in a member `m_value`. The
functions below thread a log of the positions of `p_list_offsets` that have
been read. -/

/-- The positions of `p_list_offsets` that `list_array_impl::value(i)` reads:
`offset_begin(i)` reads `p_list_offsets[i]` and `offset_end(i)` reads
`p_list_offsets[i + 1]`. -/
def list_array_impl.value_reads (i : Nat) : List Nat := [i, i + 1]

/-- The members `m_index` and `m_value` of `detail::functor_index_iterator`;
the member `m_functor` is the `functor` argument of the functions below. -/
structure detail.functor_index_iterator (R : Type) where
  m_index : Nat
  m_value : R

/-- The constructor `functor_index_iterator(functor, index)` of
`detail::functor_index_iterator`: `m_index(index)`, `m_value(functor(index))`.
`reads i` are the positions that `functor(i)` reads and `log` the positions
read so far. -/
def detail.functor_index_iterator.construct {R : Type} (functor : Nat → R)
    (reads : Nat → List Nat) (index : Nat) (log : List Nat) :
    detail.functor_index_iterator R × List Nat :=
  ({ m_index := index, m_value := functor index }, log ++ reads index)

/-- The member `dereference` of `detail::functor_index_iterator`:
`m_value = m_functor(m_index)`, and `m_value` is returned. -/
def detail.functor_index_iterator.dereference {R : Type} (functor : Nat → R)
    (reads : Nat → List Nat) (it : detail.functor_index_iterator R) (log : List Nat) :
    detail.functor_index_iterator R × List Nat :=
  ({ it with m_value := functor it.m_index }, log ++ reads it.m_index)

/-- The member `equal` of `detail::functor_index_iterator`. -/
def detail.functor_index_iterator.equal {R : Type} (it rhs : detail.functor_index_iterator R) :
    Bool :=
  it.m_index == rhs.m_index

/-- The member `increment` of `detail::functor_index_iterator`. -/
def detail.functor_index_iterator.increment {R : Type} (it : detail.functor_index_iterator R) :
    detail.functor_index_iterator R :=
  { it with m_index := it.m_index + 1 }

/-- The loop `for (; it != last; ++it)` that dereferences `it` in its body:
the values visited and the log of positions read. `fuel` bounds the number
of iterations. -/
def detail.functor_index_iterator.traverse {R : Type} (functor : Nat → R)
    (reads : Nat → List Nat) :
    Nat → detail.functor_index_iterator R → detail.functor_index_iterator R → List Nat →
      List R × List Nat
  | 0, _, _, log => ([], log)
  | fuel + 1, it, last, log =>
      if it.equal last then ([], log)
      else
        let r := detail.functor_index_iterator.dereference functor reads it log
        let rest := detail.functor_index_iterator.traverse functor reads fuel
          r.1.increment last r.2
        (r.1.m_value :: rest.1, rest.2)

/-- The member `list_array_impl::value_begin` (and `value_cbegin`): an
iterator constructed at index `0` over the functor that calls `value(i)`. -/
def list_array_impl.value_begin {α A : Type} (BIG : Bool) (array_factory : array_data α → A)
    (storage : array_data α) (log : List Nat) :
    detail.functor_index_iterator (list_value2 A) × List Nat :=
  detail.functor_index_iterator.construct (list_array_impl.value BIG array_factory storage)
    list_array_impl.value_reads 0 log

/-- The member `list_array_impl::value_end` (and `value_cend`): an iterator
constructed at index `size()`. -/
def list_array_impl.value_end {α A : Type} (BIG : Bool) (array_factory : array_data α → A)
    (storage : array_data α) (log : List Nat) :
    detail.functor_index_iterator (list_value2 A) × List Nat :=
  detail.functor_index_iterator.construct (list_array_impl.value BIG array_factory storage)
    list_array_impl.value_reads (array_crtp_base.size storage) log

/-- The values visited and the positions of `p_list_offsets` read by
constructing `value_begin()` and `value_end()` and running from the one to
the other. -/
def list_array_impl.value_traversal {α A : Type} (BIG : Bool)
    (array_factory : array_data α → A) (storage : array_data α) :
    List (list_value2 A) × List Nat :=
  let first := list_array_impl.value_begin BIG array_factory storage []
  let last := list_array_impl.value_end BIG array_factory storage first.2
  detail.functor_index_iterator.traverse (list_array_impl.value BIG array_factory storage)
    list_array_impl.value_reads (array_crtp_base.size storage) first.1 last.1 last.2

/-! ## The iterator over a functor
(`sparrow_v01/utils/functor_index_iterator.hpp`) -/

/-- The members of `functor_index_iterator`: the functor and the index, a
`std::uint64_t`. -/
structure functor_index_iterator (R : Type) where
  m_functor : Nat → R
  m_index : Nat

/-- The conversion `static_cast<difference_type>` of a `std::uint64_t`: a
value from `2 ^ 63` on becomes negative. -/
def to_difference_type (x : Nat) : Int :=
  if x % 2 ^ 64 < 2 ^ 63 then ((x % 2 ^ 64 : Nat) : Int) else ((x % 2 ^ 64 : Nat) : Int) - 2 ^ 64

namespace functor_index_iterator

variable {R : Type}

/-- The constructor `functor_index_iterator(functor, index)`: the index, a
`std::size_t`, is stored in the `std::uint64_t` member `m_index`. -/
def construct (functor : Nat → R) (index : Nat) : functor_index_iterator R :=
  { m_functor := functor, m_index := index % 2 ^ 64 }

/-- The member `distance_to`; the difference of the two signed values is
taken as an integer. -/
def distance_to (it rhs : functor_index_iterator R) : Int :=
  to_difference_type rhs.m_index - to_difference_type it.m_index

/-- The member `dereference`. -/
def dereference (it : functor_index_iterator R) : R := it.m_functor it.m_index

/-- The member `equal`. -/
def equal (it rhs : functor_index_iterator R) : Bool := it.m_index == rhs.m_index

/-- The member `increment`: `++m_index` on a `std::uint64_t`. -/
def increment (it : functor_index_iterator R) : functor_index_iterator R :=
  { it with m_index := (it.m_index + 1) % 2 ^ 64 }

/-- The member `decrement`: `--m_index` on a `std::uint64_t`. -/
def decrement (it : functor_index_iterator R) : functor_index_iterator R :=
  { it with m_index := wrap_unsigned 64 ((it.m_index : Int) - 1) }

/-- The member `advance`: `m_index += n`, where the signed `n` is converted
to `std::uint64_t` and the sum wraps. -/
def advance (it : functor_index_iterator R) (n : Int) : functor_index_iterator R :=
  { it with m_index := (it.m_index + wrap_unsigned 64 n) % 2 ^ 64 }

/-- The member `less_than`. -/
def less_than (it rhs : functor_index_iterator R) : Bool := it.m_index < rhs.m_index

/-- The loop `for (; it != last; ++it)` that dereferences `it` in its body:
the values visited. `fuel` bounds the number of iterations. -/
def traverse : Nat → functor_index_iterator R → functor_index_iterator R → List R
  | 0, _, _ => []
  | fuel + 1, it, last =>
      if it.equal last then [] else it.dereference :: traverse fuel it.increment last

end functor_index_iterator

/-- The member `struct_array::value_cbegin` (and `value_begin`): an iterator
at index `0` over the functor that calls `value(i)`. -/
def struct_array.value_cbegin {A : Type} (m_children : List (Option A)) :
    functor_index_iterator (struct_value A) :=
  functor_index_iterator.construct (struct_array.value m_children) 0

/-- The member `struct_array::value_cend` (and `value_end`): an iterator at
index `size()`; `size` is the size of the array, a member of a base class
that is not among the sources. -/
def struct_array.value_cend {A : Type} (m_children : List (Option A)) (size : Nat) :
    functor_index_iterator (struct_value A) :=
  functor_index_iterator.construct (struct_array.value m_children) size

/-! ## Example records -/

/-- The fixed-size record of the values `1` to `5`, all valid. -/
def flat_example : array_data Nat :=
  .mk (.OTHER 0) 5 0 [true, true, true, true, true] [.elems 4 [1, 2, 3, 4, 5]] [] none

/-- The list record of `[1, 2, 3]`, `[4, 5]` with 32-bit offsets. -/
def list_example : array_data Nat :=
  .mk .LIST 2 0 [true, true] [.uint 32 [0, 3, 5]] [flat_example] none

/-- A list record with slice offset 1 and length 2 over the 32-bit offsets
`0, 3, 5, 6` and a flattened child of six values; logical element 1 of the
unsliced record spans the offsets `3` and `5`. -/
def sliced_list_example : array_data Nat :=
  .mk .LIST 2 1 [true, true, true] [.uint 32 [0, 3, 5, 6]]
    [.mk (.OTHER 0) 6 0 [true, true, true, true, true, true]
      [.elems 4 [1, 2, 3, 4, 5, 6]] [] none] none

/-- The fixed-size record of the values `15`, `35`, both valid. -/
def field0_example : array_data Nat :=
  .mk (.OTHER 0) 2 0 [true, true] [.elems 4 [15, 35]] [] none

/-- The fixed-size record of the values `2`, `4`, both valid. -/
def field1_example : array_data Nat :=
  .mk (.OTHER 1) 2 0 [true, true] [.elems 4 [2, 4]] [] none

/-- The struct record of the elements `(15, 2)`, `(35, 4)`. -/
def struct_example : array_data Nat :=
  .mk (.OTHER 2) 2 0 [true, true] [] [field0_example, field1_example] none

/-- A memory with two typed arrays: the one at address 1 owns `flat_example`
and the one at address 2 owns `list_example`; the layout of each is bound to
its own record. -/
def example_memory : object_memory Nat :=
  fun p =>
    if p = 1 then some { m_data := flat_example, m_layout := 1 }
    else if p = 2 then some { m_data := list_example, m_layout := 2 }
    else none

/-- A layout for the examples: the size of `array_crtp_base` and the element
access of a fixed-size array. -/
def example_layout : layout_type Nat (Option (nullable Nat)) where
  size := array_crtp_base.size
  subscript := fixed_size_array_element

/-! # Theorems -/

section bitmap

variable {β : Type}

theorem set_append_length {γ : Type} (pre : List γ) (x y : γ) (rest : List γ) :
    (pre ++ x :: rest).set pre.length y = pre ++ y :: rest := by
  induction pre with
  | nil => rfl
  | cons p pre ih => simp [ih]

theorem getD_append_length {γ : Type} (pre : List γ) (x d : γ) (rest : List γ) :
    (pre ++ x :: rest).getD pre.length d = x := by
  induction pre with
  | nil => rfl
  | cons p pre ih => simpa using ih

theorem make_array_data_bitmap_loop_eq (truthy : β → Bool) (xs : List β) (pre : List Bool) :
    make_array_data_bitmap_loop truthy xs pre.length (pre ++ List.replicate xs.length true)
      = pre ++ xs.map truthy := by
  induction xs generalizing pre with
  | nil => simp [make_array_data_bitmap_loop]
  | cons x xs ih =>
    have step := ih (pre ++ [truthy x])
    simp only [List.length_append, List.length_singleton, List.append_assoc,
      List.singleton_append] at step
    simp only [make_array_data_bitmap_loop, List.length_cons, List.replicate_succ,
      set_append_length, List.map_cons]
    cases hx : truthy x
    · simpa [hx] using step
    · simpa [hx] using step

theorem make_array_data_bitmap_eq (r : bool_range β) : make_array_data_bitmap r = r.bools := by
  cases r with
  | bitmap bits => rfl
  | range truthy xs =>
    simpa using make_array_data_bitmap_loop_eq truthy xs []

end bitmap

section fixed_size

variable {α β : Type}

theorem bool_range_bools_length (r : bool_range β) : r.bools.length = r.size := by
  cases r <;> simp [bool_range.bools, bool_range.size]

theorem fixed_size_loop_eq (values : List α) (bits : List Bool) (pre buffer : List α)
    (hbuf : values.length ≤ buffer.length) :
    fixed_size_loop values bits pre.length (pre ++ buffer)
      = pre ++ stored_slots values bits buffer := by
  induction values generalizing bits pre buffer with
  | nil => simp [fixed_size_loop, stored_slots]
  | cons v values ih =>
    cases bits with
    | nil => simp [fixed_size_loop, stored_slots]
    | cons b bits =>
      cases buffer with
      | nil => simp at hbuf
      | cons x buffer =>
        have step := ih bits (pre ++ [if b then v else x]) buffer
          (by simpa using hbuf)
        simp only [List.length_append, List.length_singleton, List.append_assoc,
          List.singleton_append] at step
        cases b <;> simpa [fixed_size_loop, stored_slots, set_append_length] using step

theorem stored_slots_length (values : List α) (bits : List Bool) (buffer : List α) :
    (stored_slots values bits buffer).length = buffer.length := by
  induction values generalizing bits buffer with
  | nil => simp [stored_slots]
  | cons v values ih =>
    cases bits with
    | nil => simp [stored_slots]
    | cons b bits =>
      cases buffer with
      | nil => simp [stored_slots]
      | cons x buffer => simp [stored_slots, ih]

theorem stored_slots_getElem? (values : List α) (bits : List Bool) (buffer : List α)
    (hbits : values.length = bits.length) (i : Nat) (hi : i < values.length) :
    (stored_slots values bits buffer)[i]?
      = if bits.getD i false then (if i < buffer.length then values[i]? else none)
        else buffer[i]? := by
  induction values generalizing bits buffer i with
  | nil => simp at hi
  | cons v values ih =>
    cases bits with
    | nil => simp at hbits
    | cons b bits =>
      cases buffer with
      | nil => simp [stored_slots]
      | cons x buffer =>
        cases i with
        | zero => cases b <;> simp [stored_slots]
        | succ i =>
          have step := ih bits buffer (by simpa using hbits) i (by simpa using hi)
          simpa [stored_slots] using step

end fixed_size

section variable_size

variable {α β : Type}

theorem acc_size_loop_eq (values : List (List α)) (bits : List Bool) (acc : Nat) :
    acc_size_loop values bits acc
      = acc + ((valid_values values bits).map List.length).sum := by
  induction values generalizing bits acc with
  | nil => simp [acc_size_loop, valid_values]
  | cons v values ih =>
    cases bits with
    | nil => simp [acc_size_loop, valid_values]
    | cons b bits =>
      cases b
      · simp [acc_size_loop, valid_values, ih]
      · simp [acc_size_loop, valid_values, ih, Nat.add_assoc]

theorem copy_at_length (value buffer : List α) (iter : Nat) :
    (copy_at value buffer iter).length = buffer.length := by
  induction value generalizing buffer iter with
  | nil => rfl
  | cons x value ih => simp [copy_at, ih]

theorem copy_at_append (value d tail : List α) (hfits : value.length ≤ tail.length) :
    copy_at value (d ++ tail) d.length = (d ++ value) ++ tail.drop value.length := by
  induction value generalizing d tail with
  | nil => simp [copy_at]
  | cons x value ih =>
    cases tail with
    | nil => simp at hfits
    | cons t tail =>
      have step := ih (d ++ [x]) tail (by simpa using hfits)
      simp only [List.length_append, List.length_singleton, List.append_assoc,
        List.singleton_append] at step
      simp only [copy_at, set_append_length, step, List.length_cons, List.drop_succ_cons,
        List.append_assoc, List.cons_append]

theorem fill_loop_eq (values : List (List α)) (bits : List Bool) (pre : List Int) (last : Int)
    (d tail : List α) (hbits : values.length = bits.length)
    (htail : tail.length = ((valid_values values bits).map List.length).sum) :
    fill_loop values bits pre.length (pre ++ last :: List.replicate values.length 0)
        (d ++ tail) d.length
      = (pre ++ offsets_from last values bits, d ++ (valid_values values bits).flatten) := by
  induction values generalizing bits pre last d tail with
  | nil =>
    cases bits with
    | nil =>
      have : tail = [] := by simpa [valid_values] using htail
      simp [fill_loop, offsets_from, valid_values, this]
    | cons b bits => simp at hbits
  | cons v values ih =>
    cases bits with
    | nil => simp at hbits
    | cons b bits =>
      have hbits1 : values.length = bits.length := by simpa using hbits
      cases b with
      | false =>
        have step := ih bits (pre ++ [last]) last d tail hbits1
          (by simpa [valid_values] using htail)
        simp only [List.length_append, List.length_singleton, List.append_assoc,
          List.singleton_append] at step
        have hset : (pre ++ last :: (0 : Int) :: List.replicate values.length 0).set
            (pre.length + 1) last = pre ++ last :: last :: List.replicate values.length 0 := by
          simp
        simp only [fill_loop, List.length_cons, List.replicate_succ, getD_append_length,
          Bool.false_eq_true, if_false, hset, step]
        simp [offsets_from, valid_values]
      | true =>
        have hsum : tail.length
            = v.length + ((valid_values values bits).map List.length).sum := by
          simpa [valid_values] using htail
        have step := ih bits (pre ++ [last]) (last + (v.length : Int)) (d ++ v)
          (tail.drop v.length) hbits1 (by simp [hsum])
        simp only [List.length_append, List.length_singleton, List.append_assoc,
          List.singleton_append] at step
        have hset : (pre ++ last :: (0 : Int) :: List.replicate values.length 0).set
            (pre.length + 1) (last + (v.length : Int))
              = pre ++ last :: (last + (v.length : Int)) :: List.replicate values.length 0 := by
          simp
        have hcopy := copy_at_append v d tail (by omega)
        simp only [List.append_assoc] at hcopy
        simp only [fill_loop, List.length_cons, List.replicate_succ, getD_append_length,
          if_true, hset, hcopy, step]
        simp [offsets_from, valid_values]

theorem offsets_from_length (start : Int) (values : List (List α)) (bits : List Bool)
    (hbits : values.length = bits.length) :
    (offsets_from start values bits).length = values.length + 1 := by
  induction values generalizing start bits with
  | nil => cases bits <;> simp [offsets_from]
  | cons v values ih =>
    cases bits with
    | nil => simp at hbits
    | cons b bits => simp [offsets_from, ih _ bits (by simpa using hbits)]

theorem offsets_from_head (start : Int) (values : List (List α)) (bits : List Bool) :
    (offsets_from start values bits).getD 0 0 = start := by
  cases values with
  | nil => simp [offsets_from]
  | cons v values => cases bits <;> simp [offsets_from]

theorem offsets_from_step (start : Int) (values : List (List α)) (bits : List Bool)
    (hbits : values.length = bits.length) (i : Nat) (hi : i < values.length) :
    (offsets_from start values bits).getD (i + 1) 0
      = (offsets_from start values bits).getD i 0
        + (if bits.getD i false then ((values.getD i []).length : Int) else 0) := by
  induction values generalizing start bits i with
  | nil => simp at hi
  | cons v values ih =>
    cases bits with
    | nil => simp at hbits
    | cons b bits =>
      have hbits1 : values.length = bits.length := by simpa using hbits
      cases i with
      | zero =>
        have hhead := offsets_from_head (if b then start + (v.length : Int) else start)
          values bits
        cases b <;> simp_all [offsets_from]
      | succ i =>
        have step := ih (if b then start + (v.length : Int) else start) bits hbits1 i
          (by simpa using hi)
        simpa [offsets_from] using step

theorem to_size_type_natCast (n : Nat) : to_size_type (n : Int) = n := by
  simp [to_size_type]

theorem value_cons (x : Int) (offsets : List Int) (data : List α) (i : Nat) :
    variable_size_binary_array.value (x :: offsets) data 0 (i + 1)
      = variable_size_binary_array.value offsets data 0 i := by
  simp [variable_size_binary_array.value, variable_size_binary_array.offset, to_size_type,
    ← Nat.add_assoc]

theorem value_offsets_from (values : List (List α)) (bits : List Bool) (d : List α)
    (hbits : values.length = bits.length) (i : Nat) (hi : i < values.length)
    (hvalid : bits.getD i false = true) :
    variable_size_binary_array.value (offsets_from (d.length : Int) values bits)
        (d ++ (valid_values values bits).flatten) 0 i
      = values.getD i [] := by
  induction values generalizing bits d i with
  | nil => simp at hi
  | cons v values ih =>
    cases bits with
    | nil => simp at hbits
    | cons b bits =>
      have hbits1 : values.length = bits.length := by simpa using hbits
      cases i with
      | zero =>
        have hb : b = true := by simpa using hvalid
        subst hb
        have hhead := offsets_from_head ((d.length : Int) + (v.length : Int)) values bits
        have hend : to_size_type ((d.length : Int) + (v.length : Int)) = d.length + v.length := by
          rw [← Nat.cast_add, to_size_type_natCast]
        have hzero : to_size_type 0 = 0 := by simp [to_size_type]
        simp only [List.getD_eq_getElem?_getD] at hhead
        simp [variable_size_binary_array.value, variable_size_binary_array.offset,
          offsets_from, valid_values, hzero, hhead, hend, to_size_type_natCast]
      | succ i =>
        have hd : (if b then (d.length : Int) + (v.length : Int) else (d.length : Int))
            = (((d ++ if b then v else []).length : Nat) : Int) := by
          cases b <;> simp
        have hdata : d ++ (valid_values (v :: values) (b :: bits)).flatten
            = (d ++ if b then v else []) ++ (valid_values values bits).flatten := by
          cases b <;> simp [valid_values]
        have step := ih bits (d ++ if b then v else []) hbits1 i (by simpa using hi)
          (by simpa using hvalid)
        rw [hdata]
        simp only [offsets_from, value_cons, hd, List.getD_cons_succ]
        exact step

theorem variable_size_binary_buffers [Inhabited α] (type_id : data_type)
    (values : List (List α)) (bitmap : bool_range β) (offset : Int)
    (hsize : values.length = bitmap.size) :
    (make_array_data_for_variable_size_binary_layout type_id values bitmap offset).buffers
      = [.int64 (offsets_from 0 values bitmap.bools),
         .elems 1 (valid_values values bitmap.bools).flatten] := by
  have hbits : values.length = bitmap.bools.length := by
    rw [bool_range_bools_length]; exact hsize
  have hfill := fill_loop_eq values bitmap.bools [] 0 []
    (List.replicate (acc_size_loop values bitmap.bools 0) default) hbits
    (by simp [acc_size_loop_eq])
  simp only [List.nil_append, List.length_nil] at hfill
  have hcount : 8 * (values.length + 1) / 8 = values.length + 1 :=
    Nat.mul_div_cancel_left _ (by decide)
  simp only [make_array_data_for_variable_size_binary_layout, array_data.buffers, hcount,
    List.replicate_succ, List.set_cons_zero, hfill]

theorem valid_values_all_true (values : List α) :
    valid_values values (List.replicate values.length true) = values := by
  induction values with
  | nil => rfl
  | cons v values ih => simp [valid_values, List.replicate_succ, ih]

theorem variable_size_binary_value_eq [Inhabited α] (type_id : data_type)
    (values : List (List α)) (bitmap : bool_range β)
    (hsize : values.length = bitmap.size) (i : Nat) (hi : i < values.length)
    (hvalid : bitmap.bools.getD i false = true) :
    variable_size_binary_value
        (make_array_data_for_variable_size_binary_layout type_id values bitmap 0) i
      = values.getD i [] := by
  have hbits : values.length = bitmap.bools.length := by
    rw [bool_range_bools_length]; exact hsize
  have hbuf := variable_size_binary_buffers type_id values bitmap 0 hsize
  have hval := value_offsets_from values bitmap.bools [] hbits i hi hvalid
  have hoff : (make_array_data_for_variable_size_binary_layout type_id values bitmap 0).offset
      = 0 := rfl
  simp only [List.nil_append, List.length_nil, Nat.cast_zero] at hval
  simp only [variable_size_binary_value, hbuf, hoff]
  simpa [buffer_type.as_int64, buffer_type.as_elems] using hval

theorem variable_size_binary_values_eq [Inhabited α] (type_id : data_type)
    (values : List (List α)) :
    variable_size_binary_values
        (make_array_data_for_variable_size_binary_layout type_id values
          (bool_range.bitmap (List.replicate values.length true) : bool_range β) 0)
      = values := by
  have hlen : array_crtp_base.size
      (make_array_data_for_variable_size_binary_layout type_id values
        (bool_range.bitmap (List.replicate values.length true) : bool_range β) 0)
      = values.length := by
    simp [array_crtp_base.size, make_array_data_for_variable_size_binary_layout,
      array_data.length, array_data.offset, to_size_type]
  apply List.ext_getElem
  · simp [variable_size_binary_values, hlen]
  · intro i h1 h2
    have hval := variable_size_binary_value_eq (β := β) type_id values
      (bool_range.bitmap (List.replicate values.length true)) (by simp [bool_range.size])
      i h2 (by simp [bool_range.bools, List.getD_eq_getElem?_getD, List.getElem?_replicate, h2])
    simp only [variable_size_binary_values, List.getElem_map, List.getElem_range, hval]
    simp [List.getD_eq_getElem?_getD, List.getElem?_eq_getElem h2]

end variable_size

theorem number_loop_keys {K : Type} (m : List (K × Nat)) (i : Nat) :
    (number_loop m i).map Prod.fst = m.map Prod.fst := by
  induction m generalizing i with
  | nil => rfl
  | cons e m ih =>
    obtain ⟨k, n⟩ := e
    simp [number_loop, ih]

section dictionary

variable {K : Type} [DecidableEq K]

theorem emplace_keys_nodup (ord : unordered_map_order K) (m : List (K × Nat)) (key : K)
    (value : Nat) (hm : (m.map Prod.fst).Nodup) :
    ((unordered_map_emplace ord m key value).map Prod.fst).Nodup := by
  unfold unordered_map_emplace
  split
  · exact hm
  · next hkey =>
    have hperm := (ord.place_perm m (key, value)).map Prod.fst
    rw [hperm.nodup_iff]
    simpa using ⟨by simpa using hkey, hm⟩

theorem emplace_keys_mem (ord : unordered_map_order K) (m : List (K × Nat)) (key : K)
    (value : Nat) (x : K) :
    x ∈ (unordered_map_emplace ord m key value).map Prod.fst
      ↔ x = key ∨ x ∈ m.map Prod.fst := by
  unfold unordered_map_emplace
  split
  · next hkey =>
    constructor
    · exact Or.inr
    · rintro (rfl | h)
      · exact hkey
      · exact h
  · have hperm := (ord.place_perm m (key, value)).map Prod.fst
    rw [hperm.mem_iff]
    simp

theorem emplace_loop_nodup (ord : unordered_map_order K) (range : List K)
    (m : List (K × Nat)) (hm : (m.map Prod.fst).Nodup) :
    ((emplace_loop ord range m).map Prod.fst).Nodup := by
  induction range generalizing m with
  | nil => simpa [emplace_loop] using hm
  | cons v range ih =>
    simpa [emplace_loop] using ih _ (emplace_keys_nodup ord m v 0 hm)

theorem emplace_loop_mem (ord : unordered_map_order K) (range : List K)
    (m : List (K × Nat)) (x : K) :
    x ∈ (emplace_loop ord range m).map Prod.fst ↔ x ∈ m.map Prod.fst ∨ x ∈ range := by
  induction range generalizing m with
  | nil => simp [emplace_loop]
  | cons v range ih =>
    rw [emplace_loop, ih, emplace_keys_mem]
    simp only [List.mem_cons]
    tauto

theorem number_loop_find (m : List (K × Nat)) (i : Nat) (key : K)
    (hkey : key ∈ m.map Prod.fst) :
    (number_loop m i).find? (fun e => decide (e.1 = key))
      = some (key, i + (m.map Prod.fst).indexOf key) := by
  induction m generalizing i with
  | nil => simp at hkey
  | cons e m ih =>
    obtain ⟨k, n⟩ := e
    by_cases hk : k = key
    · subst hk
      simp [number_loop]
    · have hmem : key ∈ m.map Prod.fst := by
        simp only [List.map_cons, List.mem_cons] at hkey
        rcases hkey with h | h
        · exact absurd h.symm hk
        · exact h
      simp only [number_loop, List.find?_cons, hk, decide_False, List.map_cons]
      rw [ih (i + 1) hmem, List.indexOf_cons_ne _ hk]
      simp [Nat.succ_eq_add_one]
      omega

theorem index_loop_eq (ord : unordered_map_order K) (range : List K) (m : List (K × Nat))
    (out : List Nat) (hrange : ∀ v ∈ range, v ∈ m.map Prod.fst) :
    index_loop ord range (number_loop m 0) out
      = (number_loop m 0, out ++ range.map (fun v => (m.map Prod.fst).indexOf v)) := by
  induction range generalizing out with
  | nil => simp [index_loop]
  | cons v range ih =>
    have hv : v ∈ m.map Prod.fst := hrange v (List.mem_cons_self _ _)
    have hfind := number_loop_find m 0 v hv
    simp only [index_loop, unordered_map_subscript, hfind, Nat.zero_add]
    rw [ih _ (fun w hw => hrange w (List.mem_cons_of_mem _ hw))]
    simp

theorem ranges_to_vec_and_indexes_eq (ord : unordered_map_order K) (range : List K) :
    ranges_to_vec_and_indexes ord range
      = { values := (emplace_loop ord range []).map Prod.fst,
          indexes := range.map
            (fun v => ((emplace_loop ord range []).map Prod.fst).indexOf v) } := by
  have hloop := index_loop_eq ord range (emplace_loop ord range []) []
    (fun v hv => (emplace_loop_mem ord range [] v).2 (Or.inr hv))
  simp only [ranges_to_vec_and_indexes, hloop, number_loop_keys, List.nil_append]

theorem unique_values_nodup (ord : unordered_map_order K) (range : List K) :
    (ranges_to_vec_and_indexes ord range).values.Nodup := by
  rw [ranges_to_vec_and_indexes_eq]
  exact emplace_loop_nodup ord range [] (by simp)

theorem unique_values_mem (ord : unordered_map_order K) (range : List K) (x : K) :
    x ∈ (ranges_to_vec_and_indexes ord range).values ↔ x ∈ range := by
  rw [ranges_to_vec_and_indexes_eq]
  simpa using emplace_loop_mem ord range [] x

theorem unique_values_length (ord : unordered_map_order K) (range : List K) :
    (ranges_to_vec_and_indexes ord range).values.length = range.dedup.length := by
  rw [← List.card_toFinset, ← List.toFinset_card_of_nodup (unique_values_nodup ord range)]
  congr 1
  exact List.toFinset.ext (unique_values_mem ord range)

end dictionary

section records

variable {α β : Type} [Inhabited α] [DecidableEq α]

theorem copy_at_all (xs : List Nat) :
    copy_at xs (List.replicate (xs.length * 8 / 1 / 8) 0) 0 = xs := by
  have hcount : xs.length * 8 / 1 / 8 = xs.length := by
    rw [Nat.div_one, Nat.mul_div_cancel _ (by decide : 0 < 8)]
  have hcopy := copy_at_append xs [] (List.replicate xs.length 0) (by simp)
  simpa [hcount] using hcopy

theorem dictionary_indexes_buffer (ord : unordered_map_order (List α)) (type_id : data_type)
    (values : List (List α)) (bitmap : bool_range β) (offset : Int) :
    (make_array_data_for_dictionary_encoded_layout ord type_id values bitmap offset).buffers
      = [.uint 64 (ranges_to_vec_and_indexes ord values).indexes] := by
  simp only [make_array_data_for_dictionary_encoded_layout, array_data.buffers, copy_at_all]

theorem dictionary_record_eq (ord : unordered_map_order (List α)) (type_id : data_type)
    (values : List (List α)) (bitmap : bool_range β) (offset : Int) :
    (make_array_data_for_dictionary_encoded_layout ord type_id values bitmap offset).dictionary
      = some (make_array_data_for_variable_size_binary_layout type_id
          (ranges_to_vec_and_indexes ord values).values
          (bool_range.bitmap
            (List.replicate (ranges_to_vec_and_indexes ord values).values.length true) :
              bool_range β) 0) := rfl

theorem dictionary_values_eq (ord : unordered_map_order (List α)) (type_id : data_type)
    (values : List (List α)) (bitmap : bool_range β) (offset : Int) :
    dictionary_values
        (make_array_data_for_dictionary_encoded_layout ord type_id values bitmap offset)
      = (ranges_to_vec_and_indexes ord values).values := by
  simp only [dictionary_values, dictionary_record_eq, variable_size_binary_values_eq]

theorem valid_values_subset {γ : Type} (values : List γ) (bits : List Bool) (x : γ)
    (hx : x ∈ valid_values values bits) : x ∈ values := by
  induction values generalizing bits with
  | nil => simp [valid_values] at hx
  | cons v values ih =>
    cases bits with
    | nil => simp [valid_values] at hx
    | cons b bits =>
      cases b
      · exact List.mem_cons_of_mem _ (ih bits (by simpa [valid_values] using hx))
      · simp only [valid_values, if_true, List.mem_cons] at hx
        rcases hx with rfl | h
        · exact List.mem_cons_self _ _
        · exact List.mem_cons_of_mem _ (ih bits h)

end records

/-! ## Properties of the built records -/

section claims

variable {α β : Type}

/-- C1: the records built by `make_array_data_for_fixed_size_layout`,
`make_array_data_for_variable_size_binary_layout` and
`make_array_data_for_dictionary_encoded_layout` from `n` values have length
`n`, and `build` on a range of ranges yields an array whose `size()` is the
number of inner ranges. -/
theorem built_record_length [Inhabited α] [DecidableEq α] (type_id : data_type)
    (sizeofT : Nat) (fresh : Nat → α) (ord : unordered_map_order (List α))
    (scalars : List α) (values : List (List α)) (bitmap : bool_range β) (offset : Int)
    (big : Bool) :
    (make_array_data_for_fixed_size_layout type_id sizeofT fresh scalars bitmap offset).length
        = scalars.length
      ∧ (make_array_data_for_variable_size_binary_layout type_id values bitmap offset).length
        = values.length
      ∧ (make_array_data_for_dictionary_encoded_layout ord type_id values bitmap offset).length
        = values.length
      ∧ array_crtp_base.size (build big type_id sizeofT fresh values) = values.length := by
  refine ⟨rfl, rfl, ?_, ?_⟩
  · simp [make_array_data_for_dictionary_encoded_layout, array_data.length,
      ranges_to_vec_and_indexes_eq]
  · simp [array_crtp_base.size, build, array_data.length, array_data.offset, to_size_type]

/-- C2: buffer 0 of the record built by
`make_array_data_for_variable_size_binary_layout` from `n` values and a
bitmap of the same length holds `n + 1` 64-bit offsets, the first is `0`,
and offset `i + 1` is offset `i` plus the length of value `i` under a set
bit and equals offset `i` under a cleared bit. -/
theorem variable_size_binary_offsets [Inhabited α] (type_id : data_type)
    (values : List (List α)) (bitmap : bool_range β) (offset : Int)
    (hsize : values.length = bitmap.size) :
    ∃ offsets : List Int,
      (make_array_data_for_variable_size_binary_layout type_id values bitmap offset).buffers[0]?
          = some (.int64 offsets)
        ∧ offsets.length = values.length + 1
        ∧ offsets[0]? = some 0
        ∧ ∀ i (hi : i < values.length),
            (bitmap.bools.getD i false = true →
              offsets.getD (i + 1) 0 = offsets.getD i 0 + (values[i].length : Int))
            ∧ (bitmap.bools.getD i false = false →
              offsets.getD (i + 1) 0 = offsets.getD i 0) := by
  have hbits : values.length = bitmap.bools.length := by
    rw [bool_range_bools_length]; exact hsize
  refine ⟨offsets_from 0 values bitmap.bools, ?_, offsets_from_length 0 values _ hbits, ?_, ?_⟩
  · simp [variable_size_binary_buffers type_id values bitmap offset hsize]
  · have hhead := offsets_from_head (0 : Int) values bitmap.bools
    have hlen := offsets_from_length (0 : Int) values bitmap.bools hbits
    rw [List.getD_eq_getElem?_getD, List.getElem?_eq_getElem (by omega)] at hhead
    rw [List.getElem?_eq_getElem (by omega)]
    simpa using hhead
  · intro i hi
    have hstep := offsets_from_step (0 : Int) values bitmap.bools hbits i hi
    have hget : values.getD i [] = values[i] := by
      simp [List.getD_eq_getElem?_getD, List.getElem?_eq_getElem hi]
    constructor
    · intro hbit
      rw [hbit, hget] at hstep
      simpa using hstep
    · intro hbit
      rw [hbit] at hstep
      simpa using hstep

/-- Witness of C2 on the values `[1, 2]`, `[3, 4, 5]`, both valid. -/
theorem variable_size_binary_offsets_witness :
    [[1, 2], [3, 4, 5]].length = (bool_range.bitmap [true, true] : bool_range Bool).size
      ∧ ∃ offsets : List Int,
        (make_array_data_for_variable_size_binary_layout data_type.STRING
            [[1, 2], [3, 4, 5]] (bool_range.bitmap [true, true] : bool_range Bool)
            0).buffers[0]?
          = some (.int64 offsets)
        ∧ offsets.length = [[1, 2], [3, 4, 5]].length + 1
        ∧ offsets[0]? = some 0
        ∧ ∀ i (hi : i < [[1, 2], [3, 4, 5]].length),
            ((bool_range.bitmap [true, true] : bool_range Bool).bools.getD i false = true →
              offsets.getD (i + 1) 0
                = offsets.getD i 0 + (([[1, 2], [3, 4, 5]] : List (List Nat))[i].length : Int))
            ∧ ((bool_range.bitmap [true, true] : bool_range Bool).bools.getD i false = false →
              offsets.getD (i + 1) 0 = offsets.getD i 0) :=
  ⟨by decide, variable_size_binary_offsets data_type.STRING [[1, 2], [3, 4, 5]]
    (bool_range.bitmap [true, true] : bool_range Bool) 0 (by decide)⟩

/-- C3: buffer 1 of the record built by
`make_array_data_for_variable_size_binary_layout` is the concatenation, in
input order, of the values under a set bit, values under a cleared bit
contribute nothing, and its size in bytes is the sum of the lengths of the
values under a set bit, which is the size `acc_size` that the first loop
computes and to which the buffer is resized before the copy. -/
theorem variable_size_binary_data [Inhabited α] (type_id : data_type)
    (values : List (List α)) (bitmap : bool_range β) (offset : Int)
    (hsize : values.length = bitmap.size) :
    ∃ buffer : buffer_type α,
      (make_array_data_for_variable_size_binary_layout type_id values bitmap offset).buffers[1]?
          = some buffer
        ∧ buffer.as_elems = (valid_values values bitmap.bools).flatten
        ∧ buffer.size = ((valid_values values bitmap.bools).map List.length).sum
        ∧ buffer.size = acc_size_loop values bitmap.bools 0 := by
  refine ⟨.elems 1 (valid_values values bitmap.bools).flatten, ?_, rfl, ?_, ?_⟩
  · simp [variable_size_binary_buffers type_id values bitmap offset hsize]
  · simp [buffer_type.size, List.length_flatten]
  · simp [buffer_type.size, List.length_flatten, acc_size_loop_eq]

/-- Witness of C3 on the values `[1, 2]`, `[9]`, `[3, 4, 5]` with the middle
one invalid. -/
theorem variable_size_binary_data_witness :
    [[1, 2], [9], [3, 4, 5]].length
        = (bool_range.range id [true, false, true] : bool_range Bool).size
      ∧ ∃ buffer : buffer_type Nat,
        (make_array_data_for_variable_size_binary_layout data_type.STRING
            [[1, 2], [9], [3, 4, 5]] (bool_range.range id [true, false, true]) 0).buffers[1]?
          = some buffer
        ∧ buffer.as_elems
          = (valid_values [[1, 2], [9], [3, 4, 5]]
              (bool_range.range id [true, false, true]).bools).flatten
        ∧ buffer.size
          = ((valid_values [[1, 2], [9], [3, 4, 5]]
              (bool_range.range id [true, false, true]).bools).map List.length).sum
        ∧ buffer.size
          = acc_size_loop [[1, 2], [9], [3, 4, 5]]
              (bool_range.range id [true, false, true]).bools 0 :=
  ⟨by decide, variable_size_binary_data data_type.STRING [[1, 2], [9], [3, 4, 5]]
    (bool_range.range id [true, false, true]) 0 (by decide)⟩

/-- C4: round trip of the variable-size binary layout. In the record built
with slice offset 0, the view `data[offsets[i] .. offsets[i+1])` that
`variable_size_binary_array::value(i)` forms equals `values[i]` at every
position `i` whose bit is set. -/
theorem variable_size_binary_round_trip [Inhabited α] (type_id : data_type)
    (values : List (List α)) (bitmap : bool_range β)
    (hsize : values.length = bitmap.size) (i : Nat) (hi : i < values.length)
    (hvalid : bitmap.bools.getD i false = true) :
    variable_size_binary_value
        (make_array_data_for_variable_size_binary_layout type_id values bitmap 0) i
      = values[i] := by
  rw [variable_size_binary_value_eq type_id values bitmap hsize i hi hvalid]
  simp [List.getD_eq_getElem?_getD, List.getElem?_eq_getElem hi]

/-- Witness of C4: position 2 of the values `[1, 2]`, `[9]`, `[3, 4, 5]`
with the middle one invalid. -/
theorem variable_size_binary_round_trip_witness :
    ([[1, 2], [9], [3, 4, 5]].length
        = (bool_range.range id [true, false, true] : bool_range Bool).size
      ∧ 2 < [[1, 2], [9], [3, 4, 5]].length
      ∧ (bool_range.range id [true, false, true] : bool_range Bool).bools.getD 2 false = true)
      ∧ variable_size_binary_value
          (make_array_data_for_variable_size_binary_layout data_type.STRING
            [[1, 2], [9], [3, 4, 5]] (bool_range.range id [true, false, true]) 0) 2
        = [3, 4, 5] :=
  ⟨by decide, variable_size_binary_round_trip data_type.STRING [[1, 2], [9], [3, 4, 5]]
    (bool_range.range id [true, false, true]) (by decide) 2 (by decide) (by decide)⟩

/-- C5: buffer 0 of the record built by `make_array_data_for_fixed_size_layout`
from `n` values of a type of `sizeofT` bytes has `n * sizeofT` bytes; slot
`i` holds `values[i]` under a set bit, and under a cleared bit nothing is
stored: the slot keeps what the new buffer held. -/
theorem fixed_size_buffer_slots (type_id : data_type) (sizeofT : Nat) (fresh : Nat → α)
    (values : List α) (bitmap : bool_range β) (offset : Int)
    (hsize : values.length = bitmap.size) (hT : 0 < sizeofT) :
    ∃ buffer : buffer_type α,
      (make_array_data_for_fixed_size_layout type_id sizeofT fresh values bitmap offset).buffers
          = [buffer]
        ∧ buffer.size = values.length * sizeofT
        ∧ ∀ i (hi : i < values.length),
            (bitmap.bools.getD i false = true → buffer.as_elems[i]? = some values[i])
            ∧ (bitmap.bools.getD i false = false → buffer.as_elems[i]? = some (fresh i)) := by
  have hbits : values.length = bitmap.bools.length := by
    rw [bool_range_bools_length]; exact hsize
  have hcount : values.length * sizeofT / 1 / sizeofT = values.length := by
    rw [Nat.div_one, Nat.mul_div_cancel _ hT]
  have hloop := fixed_size_loop_eq values bitmap.bools []
    ((List.range values.length).map fresh) (by simp)
  simp only [List.nil_append, List.length_nil] at hloop
  refine ⟨.elems sizeofT (stored_slots values bitmap.bools
    ((List.range values.length).map fresh)), ?_, ?_, ?_⟩
  · simp only [make_array_data_for_fixed_size_layout, array_data.buffers, hcount, hloop]
  · simp [buffer_type.size, stored_slots_length, Nat.mul_comm]
  · intro i hi
    have hslot := stored_slots_getElem? values bitmap.bools
      ((List.range values.length).map fresh) hbits i hi
    simp only [buffer_type.as_elems]
    constructor
    · intro hbit
      rw [hslot, hbit]
      simp [hi, List.getElem?_eq_getElem hi]
    · intro hbit
      rw [hslot, hbit]
      simp [hi, List.getElem?_eq_getElem]

/-- Witness of C5 on the values `10, 20, 30, 40` with the third invalid. -/
theorem fixed_size_buffer_slots_witness :
    ([10, 20, 30, 40].length
        = (bool_range.range id [true, true, false, true] : bool_range Bool).size ∧ 0 < 8)
      ∧ ∃ buffer : buffer_type Nat,
        (make_array_data_for_fixed_size_layout (data_type.OTHER 0) 8 (fun _ => 7)
            [10, 20, 30, 40] (bool_range.range id [true, true, false, true]) 0).buffers
          = [buffer]
        ∧ buffer.size = [10, 20, 30, 40].length * 8
        ∧ ∀ i (hi : i < [10, 20, 30, 40].length),
            ((bool_range.range id [true, true, false, true] : bool_range Bool).bools.getD i false
                = true → buffer.as_elems[i]? = some ([10, 20, 30, 40] : List Nat)[i])
            ∧ ((bool_range.range id [true, true, false, true] : bool_range Bool).bools.getD i false
                = false → buffer.as_elems[i]? = some ((fun _ => 7) i)) :=
  ⟨by decide, fixed_size_buffer_slots (data_type.OTHER 0) 8 (fun _ => 7) [10, 20, 30, 40]
    (bool_range.range id [true, true, false, true]) 0 (by decide) (by decide)⟩

/-- C6: `make_array_data_bitmap` mirrors its input. For a range of
bool-convertible elements the result has as many bits as the range has
elements and bit `i` is set exactly when element `i` is truthy; an input
that is a bitmap already comes back unchanged. -/
theorem make_array_data_bitmap_mirrors (truthy : β → Bool) (xs : List β)
    (bits : bitmap_type) :
    (make_array_data_bitmap (bool_range.range truthy xs)).length = xs.length
      ∧ (∀ i (hi : i < xs.length),
          (make_array_data_bitmap (bool_range.range truthy xs))[i]? = some true
            ↔ truthy xs[i] = true)
      ∧ make_array_data_bitmap (bool_range.bitmap bits : bool_range β) = bits := by
  refine ⟨?_, ?_, rfl⟩
  · simp [make_array_data_bitmap_eq, bool_range.bools]
  · intro i hi
    simp [make_array_data_bitmap_eq, bool_range.bools, List.getElem?_eq_getElem hi]

/-- C7: dictionary round trip. `ranges_to_vec_and_indexes` records one index
for each input element, and the unique value at index `indexes[i]` is
`values[i]`, at every input position `i`. -/
theorem dictionary_round_trip [DecidableEq α] (ord : unordered_map_order α)
    (values : List α) :
    (ranges_to_vec_and_indexes ord values).indexes.length = values.length
      ∧ ∀ i (hi : i < values.length),
          ∃ index, (ranges_to_vec_and_indexes ord values).indexes[i]? = some index
            ∧ (ranges_to_vec_and_indexes ord values).values[index]? = some values[i] := by
  rw [ranges_to_vec_and_indexes_eq]
  refine ⟨by simp, ?_⟩
  intro i hi
  refine ⟨((emplace_loop ord values []).map Prod.fst).indexOf values[i], ?_, ?_⟩
  · simp [List.getElem?_eq_getElem hi]
  · apply List.getElem?_indexOf
    exact (emplace_loop_mem ord values [] values[i]).2 (Or.inr (List.getElem_mem hi))

/-- C8: the dictionary of the record built by
`make_array_data_for_dictionary_encoded_layout` is the variable-size binary
record of its own entries with slice offset 0 and an all-valid bitmap; the
entries are pairwise distinct, they are, as a set, the input values, and
the length of the record is the number of distinct input values. -/
theorem dictionary_record_unique_values [Inhabited α] [DecidableEq α]
    (ord : unordered_map_order (List α)) (type_id : data_type) (values : List (List α))
    (bitmap : bool_range β) (offset : Int) :
    ∃ dictionary entries,
      (make_array_data_for_dictionary_encoded_layout ord type_id values bitmap offset).dictionary
          = some dictionary
        ∧ variable_size_binary_values dictionary = entries
        ∧ dictionary = make_array_data_for_variable_size_binary_layout type_id entries
            (bool_range.bitmap (List.replicate entries.length true) : bool_range β) 0
        ∧ dictionary.bitmap = List.replicate entries.length true
        ∧ entries.Nodup
        ∧ (∀ x, x ∈ entries ↔ x ∈ values)
        ∧ dictionary.length = values.dedup.length := by
  refine ⟨_, (ranges_to_vec_and_indexes ord values).values,
    dictionary_record_eq ord type_id values bitmap offset,
    variable_size_binary_values_eq type_id _, rfl, rfl, unique_values_nodup ord values,
    unique_values_mem ord values, ?_⟩
  have hlen := unique_values_length ord values
  simp only [make_array_data_for_variable_size_binary_layout, array_data.length]
  exact_mod_cast hlen

/-- C9 as amended: the dictionary built by
`make_array_data_for_dictionary_encoded_layout` holds exactly the distinct
values of the input range, each once, whatever the bitmap: the values at
positions with a set bit are among them, and so are those under a cleared
bit. -/
theorem dictionary_holds_all_input_values [Inhabited α] [DecidableEq α]
    (ord : unordered_map_order (List α)) (type_id : data_type) (values : List (List α))
    (bitmap : bool_range β) (offset : Int) :
    (dictionary_values
        (make_array_data_for_dictionary_encoded_layout ord type_id values bitmap offset)).Nodup
      ∧ (∀ x, x ∈ dictionary_values
            (make_array_data_for_dictionary_encoded_layout ord type_id values bitmap offset)
          ↔ x ∈ values)
      ∧ (∀ x, x ∈ valid_values values bitmap.bools →
          x ∈ dictionary_values
            (make_array_data_for_dictionary_encoded_layout ord type_id values bitmap offset)) := by
  rw [dictionary_values_eq]
  refine ⟨unique_values_nodup ord values, unique_values_mem ord values, ?_⟩
  intro x hx
  exact (unique_values_mem ord values x).2 (valid_values_subset values _ x hx)

/-- C9 as stated fails: built from the values `[1]`, `[2]` with only the
first valid, the dictionary holds `[2]` although `[2]` occurs at no valid
position. -/
theorem dictionary_holds_invalid_value :
    [2] ∈ dictionary_values
        (make_array_data_for_dictionary_encoded_layout (front_order (List Nat))
          data_type.STRING [[1], [2]] (bool_range.bitmap [true, false] : bool_range Bool) 0)
      ∧ [2] ∉ valid_values [[1], [2]]
          (bool_range.bitmap [true, false] : bool_range Bool).bools := by
  decide

/-- C10: the outer record built by
`make_array_data_for_dictionary_encoded_layout` from `n` values has a single
buffer, of `n` unsigned 64-bit indices, one for each input element whatever
its bit, and its bitmap is the input bitmap bit for bit. -/
theorem dictionary_outer_record [Inhabited α] [DecidableEq α]
    (ord : unordered_map_order (List α)) (type_id : data_type) (values : List (List α))
    (bitmap : bool_range β) (offset : Int) :
    ∃ indexes : List Nat,
      (make_array_data_for_dictionary_encoded_layout ord type_id values bitmap offset).buffers
          = [.uint 64 indexes]
        ∧ indexes = (ranges_to_vec_and_indexes ord values).indexes
        ∧ indexes.length = values.length
        ∧ (make_array_data_for_dictionary_encoded_layout ord type_id values bitmap offset).bitmap
          = bitmap.bools := by
  refine ⟨_, dictionary_indexes_buffer ord type_id values bitmap offset, rfl, ?_, ?_⟩
  · simp [ranges_to_vec_and_indexes_eq]
  · simp [make_array_data_for_dictionary_encoded_layout, array_data.bitmap,
      make_array_data_bitmap_eq]

end claims

/-! ## Reading arrays -/

section list_arrays

variable {α : Type}

theorem le_bytes_length (width x : Nat) : (le_bytes width x).length = width := by
  induction width generalizing x with
  | zero => rfl
  | succ width ih => simp [le_bytes, ih]

theorem le_value_le_bytes (width x : Nat) :
    le_value (le_bytes width x) = x % 256 ^ width := by
  induction width generalizing x with
  | zero => simp [le_bytes, le_value, Nat.mod_one]
  | succ width ih =>
    simp only [le_bytes, le_value, ih]
    rw [pow_succ', Nat.mod_mul]

theorem flatMap_le_bytes_drop (width : Nat) (xs : List Nat) (i : Nat) :
    (xs.flatMap (le_bytes width)).drop (i * width) = (xs.drop i).flatMap (le_bytes width) := by
  induction i generalizing xs with
  | zero => simp
  | succ i ih =>
    cases xs with
    | nil => simp
    | cons x xs =>
      have hsplit : (i + 1) * width = (le_bytes width x).length + i * width := by
        rw [le_bytes_length]; ring
      simp only [List.flatMap_cons, List.drop_succ_cons, hsplit]
      rw [← List.drop_drop, List.drop_left, ih]

theorem read_aligned (width : Nat) (xs : List Nat) (i : Nat) (hi : i < xs.length) :
    le_value (((xs.flatMap (le_bytes width)).drop (i * width)).take width)
      = xs[i] % 256 ^ width := by
  rw [flatMap_le_bytes_drop, List.drop_eq_getElem_cons hi, List.flatMap_cons]
  have htake : ((le_bytes width xs[i]) ++ (List.drop (i + 1) xs).flatMap (le_bytes width)).take
      width = le_bytes width xs[i] := by
    have := List.take_left (le_bytes width xs[i])
      ((List.drop (i + 1) xs).flatMap (le_bytes width))
    rwa [le_bytes_length] at this
  rw [htake, le_value_le_bytes]

theorem offset_bits_eq (BIG : Bool) :
    (if BIG then 64 else 32) = 8 * flat_array_offset_size BIG := by
  cases BIG <;> rfl

theorem p_list_offsets_aligned (BIG : Bool) (storage : array_data α) (xs : List Nat) (i : Nat)
    (hoffset : storage.offset = 0)
    (hbuffer : storage.buffers[0]? = some (.uint (8 * flat_array_offset_size BIG) xs))
    (hi : i < xs.length) (hfit : xs[i] < 2 ^ (8 * flat_array_offset_size BIG)) :
    list_array_impl.p_list_offsets BIG storage i = xs[i] := by
  have hwidth : 8 * flat_array_offset_size BIG / 8 = flat_array_offset_size BIG :=
    Nat.mul_div_cancel_left _ (by decide)
  have hpow : 256 ^ flat_array_offset_size BIG = 2 ^ (8 * flat_array_offset_size BIG) := by
    rw [pow_mul]; rfl
  simp only [list_array_impl.p_list_offsets, hbuffer, hoffset, Option.map_some',
    Option.getD_some, buffer_type.data, hwidth, Int.toNat_zero, Nat.zero_add]
  rw [read_aligned _ xs i hi, hpow, Nat.mod_eq_of_lt hfit]

theorem list_offsets_length (v : List (List α)) (acc : Nat) :
    (list_offsets v acc).length = v.length + 1 := by
  induction v generalizing acc with
  | nil => rfl
  | cons inner rest ih => simp [list_offsets, ih]

theorem list_offsets_getElem? (v : List (List α)) (acc i : Nat) (hi : i ≤ v.length) :
    (list_offsets v acc)[i]? = some (acc + (v.take i).flatten.length) := by
  induction v generalizing acc i with
  | nil =>
    have : i = 0 := by simpa using hi
    subst this
    simp [list_offsets]
  | cons inner rest ih =>
    cases i with
    | zero => simp [list_offsets]
    | succ i =>
      have step := ih (acc + inner.length) i (by simpa using hi)
      simp only [list_offsets, List.getElem?_cons_succ, step, List.take_succ_cons,
        List.flatten_cons, List.length_append]
      simp [Nat.add_assoc]

theorem take_flatten_length_le (v : List (List α)) (i : Nat) :
    (v.take i).flatten.length ≤ v.flatten.length := by
  induction v generalizing i with
  | nil => simp
  | cons inner rest ih =>
    cases i with
    | zero => simp
    | succ i =>
      have := ih i
      simp only [List.take_succ_cons, List.flatten_cons, List.length_append]
      omega

theorem take_succ_flatten_length (v : List (List α)) (i : Nat) (hi : i < v.length) :
    (v.take (i + 1)).flatten.length = (v.take i).flatten.length + v[i].length := by
  induction v generalizing i with
  | nil => simp at hi
  | cons inner rest ih =>
    cases i with
    | zero => simp
    | succ i =>
      have := ih i (by simpa using hi)
      simp only [List.take_succ_cons, List.flatten_cons, List.length_append,
        List.getElem_cons_succ] at this ⊢
      omega

theorem flatten_getElem?_prefix (v : List (List α)) (i j : Nat) (hi : i < v.length)
    (hj : j < v[i].length) :
    v.flatten[(v.take i).flatten.length + j]? = some v[i][j] := by
  induction v generalizing i with
  | nil => simp at hi
  | cons inner rest ih =>
    cases i with
    | zero =>
      simp only [List.take_zero, List.flatten_nil, List.length_nil, Nat.zero_add,
        List.flatten_cons, List.getElem_cons_zero] at hj ⊢
      rw [List.getElem?_append_left hj, List.getElem?_eq_getElem hj]
    | succ i =>
      have step := ih i (by simpa using hi) (by simpa using hj)
      simp only [List.take_succ_cons, List.flatten_cons, List.length_append,
        List.getElem_cons_succ]
      rw [Nat.add_assoc, List.getElem?_append_right (Nat.le_add_right _ _),
        Nat.add_sub_cancel_left]
      exact step

theorem stored_slots_all_true (values buffer : List α) (hbuffer : buffer.length = values.length) :
    stored_slots values (List.replicate values.length true) buffer = values := by
  induction values generalizing buffer with
  | nil =>
    have : buffer = [] := by simpa using hbuffer
    simp [stored_slots, this]
  | cons value values ih =>
    cases buffer with
    | nil => simp at hbuffer
    | cons slot buffer =>
      simp [stored_slots, List.replicate_succ, ih buffer (by simpa using hbuffer)]

theorem fixed_size_all_valid (type_id : data_type) (sizeofT : Nat) (fresh : Nat → α)
    (values : List α) (hT : 0 < sizeofT) :
    make_array_data_for_fixed_size_layout type_id sizeofT fresh values
        (bool_range.bitmap (List.replicate values.length true) : bool_range Bool) 0
      = .mk type_id (values.length : Int) 0 (List.replicate values.length true)
          [.elems sizeofT values] [] none := by
  have hcount : values.length * sizeofT / 1 / sizeofT = values.length := by
    rw [Nat.div_one, Nat.mul_div_cancel _ hT]
  have hloop := fixed_size_loop_eq values (List.replicate values.length true) []
    ((List.range values.length).map fresh) (by simp)
  simp only [List.nil_append, List.length_nil] at hloop
  simp only [make_array_data_for_fixed_size_layout, hcount, bool_range.bools, hloop,
    make_array_data_bitmap]
  rw [stored_slots_all_true values _ (by simp)]

theorem build_p_list_offsets (big : Bool) (type_id : data_type) (sizeofT : Nat)
    (fresh : Nat → α) (v : List (List α)) (i : Nat) (hi : i ≤ v.length)
    (hfit : v.flatten.length < 2 ^ (8 * flat_array_offset_size big)) :
    list_array_impl.p_list_offsets big (build big type_id sizeofT fresh v) i
      = (v.take i).flatten.length := by
  have hlen : i < (list_offsets v 0).length := by
    rw [list_offsets_length]; omega
  have hget : (list_offsets v 0)[i] = (v.take i).flatten.length := by
    have h := list_offsets_getElem? v 0 i hi
    rw [List.getElem?_eq_getElem hlen] at h
    simpa using h
  have hread := p_list_offsets_aligned big (build big type_id sizeofT fresh v)
    (list_offsets v 0) i rfl
    (by simp [build, array_data.buffers, offset_bits_eq]) hlen
    (by rw [hget]; exact lt_of_le_of_lt (take_flatten_length_le v i) hfit)
  rw [hread, hget]

theorem to_size_type_zero : to_size_type 0 = 0 := by simp [to_size_type]

theorem has_value_all_true (type_id : data_type) (n : Nat) (buffers : List (buffer_type α))
    (children : List (array_data α)) (dictionary : Option (array_data α)) (j : Nat)
    (hj : j < n) :
    array_crtp_base.has_value
        (.mk type_id (n : Int) 0 (List.replicate n true) buffers children dictionary) j
      = true := by
  simp only [array_crtp_base.has_value, array_crtp_base.make_bitmap, array_data.bitmap,
    array_data.length, array_data.offset, to_size_type_natCast, to_size_type_zero,
    Nat.add_zero, List.take_replicate, Nat.min_self, List.getD_eq_getElem?_getD,
    List.getElem?_replicate, hj, if_true, Option.getD_some]

end list_arrays

/-! ## Properties of list arrays -/

section list_claims

variable {α : Type}

/-- C11: list round trip. For the array `arr` that `build` returns for a
range of ranges `v` and every `i` below the number of inner ranges, `arr[i]`
is valid, `arr[i].value().size()` is the length of `v[i]`, and
`arr[i].value()[j]` is the valid element `v[i][j]` for every `j` below that
length. The offsets must fit the offset type: the flattened length lies
below `2 ^ 32`, or `2 ^ 64` for a big list. -/
theorem build_list_round_trip (big : Bool) (type_id : data_type) (sizeofT : Nat)
    (fresh : Nat → α) (v : List (List α)) (hT : 0 < sizeofT)
    (hfit : v.flatten.length < 2 ^ (8 * flat_array_offset_size big))
    (i : Nat) (hi : i < v.length) :
    (list_array_get big (fun child => child) (build big type_id sizeofT fresh v) i).has_value
        = true
      ∧ (list_array_get big (fun child => child)
          (build big type_id sizeofT fresh v) i).value.size = v[i].length
      ∧ ∀ j (hj : j < v[i].length),
          (list_array_get big (fun child => child)
              (build big type_id sizeofT fresh v) i).value.get fixed_size_array_element j
            = some { value := v[i][j], has_value := true } := by
  have hbegin := build_p_list_offsets big type_id sizeofT fresh v i (Nat.le_of_lt hi) hfit
  have hend := build_p_list_offsets big type_id sizeofT fresh v (i + 1) hi hfit
  rw [take_succ_flatten_length v i hi] at hend
  refine ⟨?_, ?_, ?_⟩
  · simp only [list_array_get, build]
    exact has_value_all_true _ v.length _ _ _ i hi
  · simp [list_array_get, list_array_impl.value, list_value2.size,
      list_array_impl.offset_begin, list_array_impl.offset_end, hbegin, hend]
  · intro j hj
    have hflat := flatten_getElem?_prefix v i j hi hj
    have hlt : (v.take i).flatten.length + j < v.flatten.length := by
      have h1 := take_succ_flatten_length v i hi
      have h2 := take_flatten_length_le v (i + 1)
      omega
    have hchild : (build big type_id sizeofT fresh v).child_data
        = [.mk type_id (v.flatten.length : Int) 0 (List.replicate v.flatten.length true)
            [.elems sizeofT v.flatten] [] none] := by
      simp only [build, array_data.child_data, fixed_size_all_valid type_id sizeofT fresh _ hT]
    simp only [list_array_get, list_array_impl.value, list_value2.get,
      list_array_impl.p_flat_array, list_array_impl.offset_begin, hbegin, hchild,
      List.getElem?_cons_zero, Option.map_some', Option.some_bind, fixed_size_array_element,
      array_data.buffers, array_data.offset, buffer_type.as_elems, Option.getD_some]
    rw [to_size_type_zero, Nat.add_zero, hflat,
      has_value_all_true _ v.flatten.length _ _ _ _ hlt]
    rfl

/-- Witness of C11: element 1 of the array built from `[1, 2, 3]`, `[4, 5]`. -/
theorem build_list_round_trip_witness :
    (0 < 4 ∧ [[1, 2, 3], [4, 5]].flatten.length < 2 ^ (8 * flat_array_offset_size false)
        ∧ 1 < [[1, 2, 3], [4, 5]].length)
      ∧ ((list_array_get false (fun child => child)
            (build false (data_type.OTHER 0) 4 (fun _ => 0) [[1, 2, 3], [4, 5]]) 1).has_value
          = true
        ∧ (list_array_get false (fun child => child)
            (build false (data_type.OTHER 0) 4 (fun _ => 0) [[1, 2, 3], [4, 5]]) 1).value.size
          = ([[1, 2, 3], [4, 5]] : List (List Nat))[1].length
        ∧ ∀ j (hj : j < ([[1, 2, 3], [4, 5]] : List (List Nat))[1].length),
            (list_array_get false (fun child => child)
                (build false (data_type.OTHER 0) 4 (fun _ => 0) [[1, 2, 3], [4, 5]])
                1).value.get fixed_size_array_element j
              = some { value := ([[1, 2, 3], [4, 5]] : List (List Nat))[1][j],
                       has_value := true }) :=
  ⟨by decide, build_list_round_trip false (data_type.OTHER 0) 4 (fun _ => 0)
    [[1, 2, 3], [4, 5]] (by decide) (by decide) 1 (by decide)⟩

/-- C12: the list record built from a range `v` of `n` inner ranges has
`n + 1` offsets in buffer 0, the first is `0` and offset `i + 1` is offset
`i` plus the length of `v[i]`; its child 0 holds the concatenation of all
inner ranges, and the length of the child is the last offset. -/
theorem build_list_record (big : Bool) (type_id : data_type) (sizeofT : Nat)
    (fresh : Nat → α) (v : List (List α)) (hT : 0 < sizeofT) :
    ∃ (offsets : List Nat) (child : array_data α),
      (build big type_id sizeofT fresh v).buffers
          = [.uint (8 * flat_array_offset_size big) offsets]
        ∧ offsets.length = v.length + 1
        ∧ offsets[0]? = some 0
        ∧ (∀ i (hi : i < v.length),
            offsets.getD (i + 1) 0 = offsets.getD i 0 + v[i].length)
        ∧ (build big type_id sizeofT fresh v).child_data = [child]
        ∧ child.buffers = [.elems sizeofT v.flatten]
        ∧ child.length = (offsets.getD v.length 0 : Nat) := by
  refine ⟨list_offsets v 0,
    .mk type_id (v.flatten.length : Int) 0 (List.replicate v.flatten.length true)
      [.elems sizeofT v.flatten] [] none,
    ?_, list_offsets_length v 0, ?_, ?_, ?_, ?_, ?_⟩
  · simp [build, array_data.buffers, offset_bits_eq]
  · simpa using list_offsets_getElem? v 0 0 (Nat.zero_le _)
  · intro i hi
    have h0 := list_offsets_getElem? v 0 i (Nat.le_of_lt hi)
    have h1 := list_offsets_getElem? v 0 (i + 1) hi
    rw [take_succ_flatten_length v i hi] at h1
    simp only [List.getD_eq_getElem?_getD, h0, h1, Option.getD_some, Nat.zero_add]
  · simp only [build, array_data.child_data, fixed_size_all_valid type_id sizeofT fresh _ hT]
  · rfl
  · have hlast := list_offsets_getElem? v 0 v.length (Nat.le_refl _)
    simp only [List.getD_eq_getElem?_getD, hlast, Option.getD_some, Nat.zero_add,
      List.take_length, array_data.length]

/-- Witness of C12 on the ranges `[1, 2, 3]`, `[4, 5]`. -/
theorem build_list_record_witness :
    0 < 4
      ∧ ∃ (offsets : List Nat) (child : array_data Nat),
        (build false (data_type.OTHER 0) 4 (fun _ => 0) [[1, 2, 3], [4, 5]]).buffers
            = [.uint (8 * flat_array_offset_size false) offsets]
          ∧ offsets.length = [[1, 2, 3], [4, 5]].length + 1
          ∧ offsets[0]? = some 0
          ∧ (∀ i (hi : i < [[1, 2, 3], [4, 5]].length),
              offsets.getD (i + 1) 0
                = offsets.getD i 0 + ([[1, 2, 3], [4, 5]] : List (List Nat))[i].length)
          ∧ (build false (data_type.OTHER 0) 4 (fun _ => 0) [[1, 2, 3], [4, 5]]).child_data
            = [child]
          ∧ child.buffers = [.elems 4 [[1, 2, 3], [4, 5]].flatten]
          ∧ child.length = (offsets.getD [[1, 2, 3], [4, 5]].length 0 : Nat) :=
  ⟨by decide, build_list_record false (data_type.OTHER 0) 4 (fun _ => 0)
    [[1, 2, 3], [4, 5]] (by decide)⟩

/-- C13: for a list array over a record with slice offset 0 whose buffer 0
holds `size() + 1` non-decreasing offsets of the offset type and whose child
0 is the flattened values, and every `i < size()`, `value(i)` is the view
made of the flattened child of the array itself, which is the array that
`array_factory` makes of child 0 of the record and which the view shares
with the member `p_flat_array`, of `offsets[i]` and of `offsets[i + 1]`, and
`list_size(i)` is `offsets[i + 1] - offsets[i]`. -/
theorem list_array_value_view {A : Type} (BIG : Bool) (array_factory : array_data α → A)
    (storage child : array_data α) (offsets : List Nat) (i : Nat)
    (hoffset : storage.offset = 0)
    (hbuffer : storage.buffers[0]? = some (.uint (8 * flat_array_offset_size BIG) offsets))
    (hchild : storage.child_data[0]? = some child)
    (hcount : offsets.length = array_crtp_base.size storage + 1)
    (hfit : ∀ x ∈ offsets, x < 2 ^ (8 * flat_array_offset_size BIG))
    (hsorted : offsets.Pairwise (· ≤ ·))
    (hi : i < array_crtp_base.size storage) :
    (list_array_impl.value BIG array_factory storage i).p_flat_array
        = some (array_factory child)
      ∧ (list_array_impl.value BIG array_factory storage i).p_flat_array
        = list_array_impl.p_flat_array array_factory storage
      ∧ (list_array_impl.value BIG array_factory storage i).flat_begin = offsets.getD i 0
      ∧ (list_array_impl.value BIG array_factory storage i).flat_end = offsets.getD (i + 1) 0
      ∧ list_array_impl.list_size BIG storage i
        = offsets.getD (i + 1) 0 - offsets.getD i 0 := by
  have h0 : i < offsets.length := by omega
  have h1 : i + 1 < offsets.length := by omega
  have hbegin := p_list_offsets_aligned BIG storage offsets i hoffset hbuffer h0
    (hfit _ (List.getElem_mem h0))
  have hend := p_list_offsets_aligned BIG storage offsets (i + 1) hoffset hbuffer h1
    (hfit _ (List.getElem_mem h1))
  have hle : offsets[i] ≤ offsets[i + 1] :=
    List.pairwise_iff_getElem.1 hsorted i (i + 1) h0 h1 (Nat.lt_succ_self i)
  have hlt : offsets[i + 1] < 2 ^ (8 * flat_array_offset_size BIG) :=
    hfit _ (List.getElem_mem h1)
  have hget0 : offsets.getD i 0 = offsets[i] := by
    simp [List.getD_eq_getElem?_getD, List.getElem?_eq_getElem h0]
  have hget1 : offsets.getD (i + 1) 0 = offsets[i + 1] := by
    simp [List.getD_eq_getElem?_getD, List.getElem?_eq_getElem h1]
  refine ⟨?_, rfl, ?_, ?_, ?_⟩
  · simp only [list_array_impl.value, list_array_impl.p_flat_array, hchild, Option.map_some']
  · simp only [list_array_impl.value, list_array_impl.offset_begin, hbegin, hget0]
  · simp only [list_array_impl.value, list_array_impl.offset_end, hend, hget1]
  · simp only [list_array_impl.list_size, list_array_impl.offset_begin,
      list_array_impl.offset_end, hbegin, hend, hget0, hget1]
    have hsub : offsets[i + 1] + 2 ^ (8 * flat_array_offset_size BIG) - offsets[i]
        = (offsets[i + 1] - offsets[i]) + 2 ^ (8 * flat_array_offset_size BIG) := by omega
    rw [hsub, Nat.add_mod_right, Nat.mod_eq_of_lt (by omega)]

/-- Witness of C13: element 1 of the list record of `[1, 2, 3]`, `[4, 5]`. -/
theorem list_array_value_view_witness :
    (list_example.offset = 0
        ∧ list_example.buffers[0]? = some (.uint (8 * flat_array_offset_size false) [0, 3, 5])
        ∧ list_example.child_data[0]? = some flat_example
        ∧ [0, 3, 5].length = array_crtp_base.size list_example + 1
        ∧ (∀ x ∈ [0, 3, 5], x < 2 ^ (8 * flat_array_offset_size false))
        ∧ [0, 3, 5].Pairwise (· ≤ ·)
        ∧ 1 < array_crtp_base.size list_example)
      ∧ ((list_array_impl.value false (fun child => child) list_example 1).p_flat_array
          = some flat_example
        ∧ (list_array_impl.value false (fun child => child) list_example 1).p_flat_array
          = list_array_impl.p_flat_array (fun child => child) list_example
        ∧ (list_array_impl.value false (fun child => child) list_example 1).flat_begin
          = [0, 3, 5].getD 1 0
        ∧ (list_array_impl.value false (fun child => child) list_example 1).flat_end
          = [0, 3, 5].getD (1 + 1) 0
        ∧ list_array_impl.list_size false list_example 1
          = [0, 3, 5].getD (1 + 1) 0 - [0, 3, 5].getD 1 0) :=
  ⟨⟨rfl, rfl, rfl, by decide, by decide, by decide, by decide⟩,
    list_array_value_view false (fun child => child) list_example flat_example [0, 3, 5] 1
      rfl rfl rfl (by decide) (by decide) (by decide) (by decide)⟩

/-- C14 fails on the code: over the record of the offsets `0, 3, 5, 6` with
slice offset 1, element 0 should span the offsets `3` and `5` of logical
element 1; `p_list_offsets` is shifted by one byte instead of one offset,
and the view spans `50331648` and `83886080`. -/
theorem list_array_slice_misread :
    sliced_list_example.offset = 1
      ∧ (sliced_list_example.buffers[0]?.map buffer_type.as_uint) = some [0, 3, 5, 6]
      ∧ (list_array_impl.value false (fun child => child) sliced_list_example 0).flat_begin
        = 50331648
      ∧ (list_array_impl.value false (fun child => child) sliced_list_example 0).flat_end
        = 83886080 := by
  decide

end list_claims

/-! ## Properties of arrays bound to a sliced record -/

section array_claims

variable {α : Type}

theorem size_of_slice (storage : array_data α) (k n : Nat) (hk : storage.offset = (k : Int))
    (hn : storage.length = (n : Int)) (hle : k ≤ n) :
    array_crtp_base.size storage = n - k := by
  have hcast : ((n : Int) - (k : Int)) = ((n - k : Nat) : Int) := by omega
  rw [array_crtp_base.size, hk, hn, hcast, to_size_type_natCast]

/-- C15: for an array bound to a record with slice offset `k` (and length
`n ≥ k`, the bitmap holding at least `n` bits), `has_value(i)` is bit `k + i`
of the bitmap of the record for every `i < size()`, and the range `bitmap()`
has `size()` bits, bit `j` of it being bit `k + j` of the bitmap of the
record. -/
theorem validity_slicing (storage : array_data α) (k n : Nat)
    (hk : storage.offset = (k : Int)) (hn : storage.length = (n : Int)) (hle : k ≤ n)
    (hbitmap : n ≤ storage.bitmap.length) :
    (∀ i, i < array_crtp_base.size storage →
        array_crtp_base.has_value storage i = storage.bitmap.getD (k + i) false)
      ∧ (array_crtp_base.bitmap storage).length = array_crtp_base.size storage
      ∧ ∀ j, j < array_crtp_base.size storage →
          (array_crtp_base.bitmap storage)[j]? = storage.bitmap[k + j]? := by
  have hsize := size_of_slice storage k n hk hn hle
  have hbegin : (array_crtp_base.bitmap_begin storage).toNat = k := by
    simp [array_crtp_base.bitmap_begin, hk]
  have hcount : (array_crtp_base.bitmap_end storage
      - array_crtp_base.bitmap_begin storage).toNat = n - k := by
    simp [array_crtp_base.bitmap_end, hsize]
  refine ⟨?_, ?_, ?_⟩
  · intro i hi
    rw [hsize] at hi
    simp only [array_crtp_base.has_value, array_crtp_base.make_bitmap, hk, hn,
      to_size_type_natCast, List.getD_eq_getElem?_getD]
    rw [List.getElem?_take_of_lt (by omega), Nat.add_comm]
  · simp only [array_crtp_base.bitmap, subrange, array_crtp_base.make_bitmap, hbegin, hcount,
      hn, to_size_type_natCast, List.length_take, List.length_drop, hsize]
    omega
  · intro j hj
    rw [hsize] at hj
    simp only [array_crtp_base.bitmap, subrange, array_crtp_base.make_bitmap, hbegin, hcount,
      hn, to_size_type_natCast]
    rw [List.getElem?_take_of_lt hj, List.getElem?_drop, List.getElem?_take_of_lt (by omega)]

/-- Witness of C15 on a record of length 4 with slice offset 1. -/
theorem validity_slicing_witness :
    ((array_data.mk data_type.NA 4 1 [true, false, true, true] [] [] none :
          array_data Nat).offset = ((1 : Nat) : Int)
        ∧ (array_data.mk data_type.NA 4 1 [true, false, true, true] [] [] none :
          array_data Nat).length = ((4 : Nat) : Int)
        ∧ 1 ≤ 4
        ∧ 4 ≤ (array_data.mk data_type.NA 4 1 [true, false, true, true] [] [] none :
          array_data Nat).bitmap.length)
      ∧ ((∀ i, i < array_crtp_base.size
            (array_data.mk data_type.NA 4 1 [true, false, true, true] [] [] none :
              array_data Nat) →
          array_crtp_base.has_value
              (array_data.mk data_type.NA 4 1 [true, false, true, true] [] [] none :
                array_data Nat) i
            = (array_data.mk data_type.NA 4 1 [true, false, true, true] [] [] none :
                array_data Nat).bitmap.getD (1 + i) false)
        ∧ (array_crtp_base.bitmap
            (array_data.mk data_type.NA 4 1 [true, false, true, true] [] [] none :
              array_data Nat)).length
          = array_crtp_base.size
            (array_data.mk data_type.NA 4 1 [true, false, true, true] [] [] none :
              array_data Nat)
        ∧ ∀ j, j < array_crtp_base.size
            (array_data.mk data_type.NA 4 1 [true, false, true, true] [] [] none :
              array_data Nat) →
          (array_crtp_base.bitmap
              (array_data.mk data_type.NA 4 1 [true, false, true, true] [] [] none :
                array_data Nat))[j]?
            = (array_data.mk data_type.NA 4 1 [true, false, true, true] [] [] none :
                array_data Nat).bitmap[1 + j]?) :=
  ⟨⟨rfl, rfl, by decide, by decide⟩,
    validity_slicing (array_data.mk data_type.NA 4 1 [true, false, true, true] [] [] none)
      1 4 rfl rfl (by decide) (by decide)⟩

/-- C16 as amended: for an array bound to a record with slice offset `k` and
length `n`, `0 ≤ k ≤ n`, `size()` is `n - k`; it is `n` when `k` is `0`. -/
theorem size_is_length_minus_offset (storage : array_data α) (k n : Nat)
    (hk : storage.offset = (k : Int)) (hn : storage.length = (n : Int)) (hle : k ≤ n) :
    array_crtp_base.size storage = n - k
      ∧ (k = 0 → array_crtp_base.size storage = n) := by
  have hsize := size_of_slice storage k n hk hn hle
  refine ⟨hsize, ?_⟩
  intro hzero
  rw [hsize, hzero, Nat.sub_zero]

/-- Witness of C16 as amended on the list record with slice offset 1 and
length 2. -/
theorem size_is_length_minus_offset_witness :
    (sliced_list_example.offset = ((1 : Nat) : Int)
        ∧ sliced_list_example.length = ((2 : Nat) : Int) ∧ 1 ≤ 2)
      ∧ (array_crtp_base.size sliced_list_example = 2 - 1
        ∧ (1 = 0 → array_crtp_base.size sliced_list_example = 2)) :=
  ⟨⟨rfl, rfl, by decide⟩,
    size_is_length_minus_offset sliced_list_example 1 2 rfl rfl (by decide)⟩

/-- C16 as stated fails: the record with slice offset 1 and length 2 has
`size()` equal to 1, not to its length 2. -/
theorem size_is_not_length :
    sliced_list_example.offset = 1 ∧ sliced_list_example.length = 2
      ∧ array_crtp_base.size sliced_list_example ≠ 2 := by
  decide

/-- C17: for a variable-size binary array over a record with slice offset
`k`, offsets buffer `offsets` and data buffer `data`, `value(i)` is the view
of `data` from `offsets[k + i]` up to `offsets[k + i + 1]`: when the two
offsets `b ≤ e` lie inside the data buffer it has `e - b` elements and its
element `j` is `data[b + j]`. -/
theorem variable_size_binary_value_slice (offsets : List Int) (data : List α)
    (k i b e : Nat) (hb : offsets[k + i]? = some (b : Int))
    (he : offsets[k + i + 1]? = some (e : Int)) :
    variable_size_binary_array.value offsets data (k : Int) i = (data.drop b).take (e - b)
      ∧ (b ≤ e → e ≤ data.length →
          (variable_size_binary_array.value offsets data (k : Int) i).length = e - b
            ∧ ∀ j, j < e - b →
                (variable_size_binary_array.value offsets data (k : Int) i)[j]?
                  = data[b + j]?) := by
  have hvalue : variable_size_binary_array.value offsets data (k : Int) i
      = (data.drop b).take (e - b) := by
    simp only [variable_size_binary_array.value, variable_size_binary_array.offset,
      to_size_type_natCast, List.getD_eq_getElem?_getD, hb, Nat.add_assoc k i 1 ▸ he,
      Option.getD_some]
  refine ⟨hvalue, ?_⟩
  intro hbe hdata
  rw [hvalue]
  refine ⟨?_, ?_⟩
  · simp only [List.length_take, List.length_drop]
    omega
  · intro j hj
    rw [List.getElem?_take_of_lt hj, List.getElem?_drop]

/-- Witness of C17: element 0 of a record with slice offset 1 over the
offsets `0, 2, 5` and the data `10, 20, 30, 40, 50`. -/
theorem variable_size_binary_value_slice_witness :
    (([0, 2, 5] : List Int)[1 + 0]? = some ((2 : Nat) : Int)
        ∧ ([0, 2, 5] : List Int)[1 + 0 + 1]? = some ((5 : Nat) : Int))
      ∧ (variable_size_binary_array.value [0, 2, 5] [10, 20, 30, 40, 50] ((1 : Nat) : Int) 0
          = (([10, 20, 30, 40, 50] : List Nat).drop 2).take (5 - 2)
        ∧ (2 ≤ 5 → 5 ≤ ([10, 20, 30, 40, 50] : List Nat).length →
            (variable_size_binary_array.value [0, 2, 5] [10, 20, 30, 40, 50]
                ((1 : Nat) : Int) 0).length = 5 - 2
              ∧ ∀ j, j < 5 - 2 →
                  (variable_size_binary_array.value [0, 2, 5] [10, 20, 30, 40, 50]
                      ((1 : Nat) : Int) 0)[j]?
                    = ([10, 20, 30, 40, 50] : List Nat)[2 + j]?)) :=
  ⟨⟨rfl, rfl⟩,
    variable_size_binary_value_slice [0, 2, 5] [10, 20, 30, 40, 50] 1 0 2 5 rfl rfl⟩

end array_claims

/-! ## Properties of struct arrays -/

section struct_claims

variable {α A E : Type}

theorem make_children_loop_eq (array_factory : array_data α → A)
    (children : List (array_data α)) (pre : List (Option A)) :
    struct_array.make_children_loop array_factory children pre.length
        (pre ++ List.replicate children.length none)
      = pre ++ children.map (fun child => some (array_factory child)) := by
  induction children generalizing pre with
  | nil => simp [struct_array.make_children_loop]
  | cons child rest ih =>
    have step := ih (pre ++ [some (array_factory child)])
    simp only [List.length_append, List.length_singleton, List.append_assoc,
      List.singleton_append] at step
    simp only [struct_array.make_children_loop, List.length_cons, List.replicate_succ,
      set_append_length, List.map_cons, step]

theorem make_children_eq (array_factory : array_data α → A) (storage : array_data α) :
    struct_array.make_children array_factory storage
      = storage.child_data.map (fun child => some (array_factory child)) := by
  simpa [struct_array.make_children] using
    make_children_loop_eq array_factory storage.child_data []

/-- C18: for a struct array over a record with `m` children, `make_children`
yields `m` child arrays in field order, child `j` being `array_factory`
applied to child record `j`, and `raw_child(j)` returns it; `value(i)` pairs
that list of children with the index `i`, so that field `j` of element `i` is
the element at index `i` of child `j`. -/
theorem struct_array_children (array_factory : array_data α → A)
    (array_element : A → Nat → E) (storage : array_data α) :
    (struct_array.make_children array_factory storage).length = storage.child_data.length
      ∧ (∀ j (hj : j < storage.child_data.length),
          struct_array.raw_child (struct_array.make_children array_factory storage) j
            = some (array_factory storage.child_data[j]))
      ∧ ∀ i,
          (struct_array.value (struct_array.make_children array_factory storage) i).children
              = struct_array.make_children array_factory storage
            ∧ (struct_array.value (struct_array.make_children array_factory storage) i).index
              = i
            ∧ ∀ j (hj : j < storage.child_data.length),
                (struct_array.value (struct_array.make_children array_factory storage)
                    i).field array_element j
                  = some (array_element (array_factory storage.child_data[j]) i) := by
  have hchild : ∀ j (hj : j < storage.child_data.length),
      struct_array.raw_child (struct_array.make_children array_factory storage) j
        = some (array_factory storage.child_data[j]) := by
    intro j hj
    simp [struct_array.raw_child, make_children_eq, List.getElem?_eq_getElem hj]
  refine ⟨by simp [make_children_eq], hchild, ?_⟩
  intro i
  refine ⟨rfl, rfl, ?_⟩
  intro j hj
  simp only [struct_value.field, struct_array.value, hchild j hj, Option.map_some']

/-- C19: field independence. In a struct array with at least two fields,
changing the validity bit of field 0 at index `i` leaves child 1 of the
array, hence the validity and the value of field 1 at index `i`, and the
validity of the struct itself at index `i` unchanged. -/
theorem struct_field_independence (array_factory : array_data α → A)
    (array_element : A → Nat → E) (storage field0 field1 : array_data α)
    (fields : List (array_data α)) (i : Nat) (bit : Bool)
    (hfields : storage.child_data = field0 :: field1 :: fields) :
    (storage.set_child 0 (field0.set_validity i bit)).child_data[1]? = some field1
      ∧ struct_array.raw_child
        (struct_array.make_children array_factory
          (storage.set_child 0 (field0.set_validity i bit))) 1
        = struct_array.raw_child (struct_array.make_children array_factory storage) 1
      ∧ (struct_array.value
          (struct_array.make_children array_factory
            (storage.set_child 0 (field0.set_validity i bit))) i).field array_element 1
        = some (array_element (array_factory field1) i)
      ∧ (struct_array.value (struct_array.make_children array_factory storage)
          i).field array_element 1
        = some (array_element (array_factory field1) i)
      ∧ array_crtp_base.has_value (storage.set_child 0 (field0.set_validity i bit)) i
        = array_crtp_base.has_value storage i := by
  have hset : (storage.set_child 0 (field0.set_validity i bit)).child_data
      = field0.set_validity i bit :: field1 :: fields := by
    show storage.child_data.set 0 (field0.set_validity i bit) = _
    rw [hfields]
    rfl
  refine ⟨?_, ?_, ?_, ?_, rfl⟩
  · rw [hset]
    simp
  · simp [struct_array.raw_child, make_children_eq, hset, hfields]
  · simp [struct_value.field, struct_array.value, struct_array.raw_child, make_children_eq,
      hset]
  · simp [struct_value.field, struct_array.value, struct_array.raw_child, make_children_eq,
      hfields]

/-- Witness of C19: in the struct record of `(15, 2)`, `(35, 4)` the bit of
field 0 at index 0 is cleared, which does change the validity of field 0
there. -/
theorem struct_field_independence_witness :
    (struct_example.child_data = field0_example :: field1_example :: []
        ∧ array_crtp_base.has_value field0_example 0 = true
        ∧ array_crtp_base.has_value (field0_example.set_validity 0 false) 0 = false)
      ∧ ((struct_example.set_child 0 (field0_example.set_validity 0 false)).child_data[1]?
          = some field1_example
        ∧ struct_array.raw_child
            (struct_array.make_children (fun child => child)
              (struct_example.set_child 0 (field0_example.set_validity 0 false))) 1
          = struct_array.raw_child
            (struct_array.make_children (fun child => child) struct_example) 1
        ∧ (struct_array.value
            (struct_array.make_children (fun child => child)
              (struct_example.set_child 0 (field0_example.set_validity 0 false)))
            0).field fixed_size_array_element 1
          = some (fixed_size_array_element field1_example 0)
        ∧ (struct_array.value
            (struct_array.make_children (fun child => child) struct_example)
            0).field fixed_size_array_element 1
          = some (fixed_size_array_element field1_example 0)
        ∧ array_crtp_base.has_value
            (struct_example.set_child 0 (field0_example.set_validity 0 false)) 0
          = array_crtp_base.has_value struct_example 0) :=
  ⟨⟨rfl, by decide, by decide⟩,
    struct_field_independence (fun child => child) fixed_size_array_element struct_example
      field0_example field1_example [] 0 false rfl⟩

end struct_claims

/-! ## Properties of run-end encoded arrays -/

section run_end_claims

theorem wrap_unsigned_natCast (bits n : Nat) (hn : n < 2 ^ bits) :
    wrap_unsigned bits (n : Int) = n := by
  have hmod : ((n : Int) % 2 ^ bits) = ((n % 2 ^ bits : Nat) : Int) := by
    push_cast
    rfl
  rw [wrap_unsigned, hmod, Int.toNat_ofNat, Nat.mod_eq_of_lt hn]

/-- C20: for accumulated lengths `acc` of 16, 32 or 64 bits, non-decreasing
at the run index `k` as the record invariant demands, `get_run_length(k)` is
`acc[0]` for `k = 0` and `acc[k] - acc[k - 1]` otherwise. -/
theorem get_run_length_eq (width : acc_length_width) (acc : List Nat) (k : Nat)
    (hk : k < acc.length) (hfit : ∀ x ∈ acc, x < 2 ^ width.bits)
    (hmono : acc.getD (k - 1) 0 ≤ acc.getD k 0) :
    (k = 0 → run_end_encoded_array.get_run_length width acc k = acc.getD 0 0)
      ∧ (0 < k → run_end_encoded_array.get_run_length width acc k
          = acc.getD k 0 - acc.getD (k - 1) 0) := by
  have hget : acc.getD k 0 = acc[k] := by
    simp [List.getD_eq_getElem?_getD, List.getElem?_eq_getElem hk]
  have hbits : width.bits ≤ 64 := by cases width <;> decide
  have hlt : acc.getD k 0 < 2 ^ width.bits := by
    rw [hget]; exact hfit _ (List.getElem_mem hk)
  have hlt64 : acc.getD k 0 < 2 ^ 64 :=
    lt_of_lt_of_le hlt (Nat.pow_le_pow_right (by decide) hbits)
  constructor
  · intro hzero
    subst hzero
    simp only [run_end_encoded_array.get_run_length, if_true]
    exact wrap_unsigned_natCast 64 _ hlt64
  · intro hpos
    have hne : k ≠ 0 := Nat.pos_iff_ne_zero.1 hpos
    have hdiff : ((acc.getD k 0 : Nat) : Int) - ((acc.getD (k - 1) 0 : Nat) : Int)
        = ((acc.getD k 0 - acc.getD (k - 1) 0 : Nat) : Int) := by omega
    have hsub64 : acc.getD k 0 - acc.getD (k - 1) 0 < 2 ^ 64 := by omega
    simp only [run_end_encoded_array.get_run_length, hne, if_false, hdiff]
    cases width with
    | uint16 => exact wrap_unsigned_natCast 64 _ hsub64
    | uint32 =>
      have hsub : acc.getD k 0 - acc.getD (k - 1) 0 < 2 ^ 32 := by
        have : acc.getD k 0 < 2 ^ 32 := hlt
        omega
      simp only [wrap_unsigned_natCast 32 _ hsub, wrap_unsigned_natCast 64 _ hsub64]
    | uint64 =>
      simp only [wrap_unsigned_natCast 64 _ hsub64]

/-- Witness of C20: run 2 of the 16-bit accumulated lengths `3, 5, 9`. -/
theorem get_run_length_eq_witness :
    (2 < [3, 5, 9].length ∧ (∀ x ∈ [3, 5, 9], x < 2 ^ acc_length_width.uint16.bits)
        ∧ [3, 5, 9].getD (2 - 1) 0 ≤ [3, 5, 9].getD 2 0)
      ∧ ((2 = 0 → run_end_encoded_array.get_run_length acc_length_width.uint16 [3, 5, 9] 2
            = [3, 5, 9].getD 0 0)
        ∧ (0 < 2 → run_end_encoded_array.get_run_length acc_length_width.uint16 [3, 5, 9] 2
            = [3, 5, 9].getD 2 0 - [3, 5, 9].getD (2 - 1) 0)) :=
  ⟨⟨by decide, by decide, by decide⟩,
    get_run_length_eq acc_length_width.uint16 [3, 5, 9] 2 (by decide) (by decide)
      (by decide)⟩

end run_end_claims

/-! ## Random access into run-end encoded arrays -/

section run_end_access

theorem upper_bound_loop_spec (xs : List Nat) (value : Nat)
    (hmono : ∀ a b, a ≤ b → b < xs.length → xs.getD a 0 ≤ xs.getD b 0) :
    ∀ fuel first count, count ≤ fuel → first + count ≤ xs.length →
      (∀ j, j < first → xs.getD j 0 ≤ value) →
      (∀ j, first + count ≤ j → j < xs.length → value < xs.getD j 0) →
      (∀ j, j < upper_bound_loop xs value fuel first count → xs.getD j 0 ≤ value)
        ∧ (∀ j, upper_bound_loop xs value fuel first count ≤ j → j < xs.length →
            value < xs.getD j 0) := by
  intro fuel
  induction fuel with
  | zero =>
    intro first count hfuel _ hlow hhigh
    have hcount : count = 0 := by omega
    subst hcount
    exact ⟨hlow, by simpa [upper_bound_loop] using hhigh⟩
  | succ fuel ih =>
    intro first count hfuel hlen hlow hhigh
    by_cases hcount : count = 0
    · subst hcount
      simp only [upper_bound_loop, if_true]
      exact ⟨hlow, by simpa using hhigh⟩
    · by_cases hlt : value < xs.getD (first + count / 2) 0
      · simp only [upper_bound_loop, hcount, if_false, hlt, not_true_eq_false]
        apply ih first (count / 2) (by omega) (by omega) hlow
        intro j hj hjlen
        exact lt_of_lt_of_le hlt (hmono _ _ hj hjlen)
      · simp only [upper_bound_loop, hcount, if_false, hlt, not_false_eq_true, if_true]
        apply ih (first + count / 2 + 1) (count - (count / 2 + 1)) (by omega) (by omega)
        · intro j hj
          exact le_trans (hmono j (first + count / 2) (by omega) (by omega))
            (Nat.le_of_not_lt hlt)
        · intro j hj hjlen
          exact hhigh j (by omega) hjlen

theorem getD_mono_of_pairwise (xs : List Nat) (hsorted : xs.Pairwise (· < ·)) :
    ∀ a b, a ≤ b → b < xs.length → xs.getD a 0 ≤ xs.getD b 0 := by
  intro a b hab hb
  have ha : a < xs.length := lt_of_le_of_lt hab hb
  simp only [List.getD_eq_getElem?_getD, List.getElem?_eq_getElem ha,
    List.getElem?_eq_getElem hb, Option.getD_some]
  rcases Nat.eq_or_lt_of_le hab with heq | hlt
  · subst heq
    exact Nat.le_refl _
  · exact Nat.le_of_lt (List.pairwise_iff_getElem.1 hsorted a b ha hb hlt)

theorem upper_bound_spec (xs : List Nat) (value : Nat) (hsorted : xs.Pairwise (· < ·)) :
    (∀ j, j < upper_bound xs value → xs.getD j 0 ≤ value)
      ∧ (∀ j, upper_bound xs value ≤ j → j < xs.length → value < xs.getD j 0) :=
  upper_bound_loop_spec xs value (getD_mono_of_pairwise xs hsorted) xs.length 0 xs.length
    (Nat.le_refl _) (by omega) (by intro j hj; omega) (by intro j hj hlen; omega)

theorem upper_bound_le_length (xs : List Nat) (value : Nat) :
    ∀ fuel first count, first + count ≤ xs.length →
      upper_bound_loop xs value fuel first count ≤ xs.length := by
  intro fuel
  induction fuel with
  | zero => intro first count h; simp only [upper_bound_loop]; omega
  | succ fuel ih =>
    intro first count h
    simp only [upper_bound_loop]
    split
    · omega
    · split
      · exact ih _ _ (by omega)
      · exact ih _ _ (by omega)

/-- C21: for a run-end encoded array whose accumulated lengths are strictly
increasing with last value `size()` and every `i < size()`, `operator[](i)`
returns the element of the encoded values at `k`, the smallest run index
with `acc_lengths[k] > i`; the non-const `operator[]` returns the same
element as the const one. -/
theorem run_end_subscript {α A E : Type} (array_element : A → Nat → E)
    (m_proxy : array_data α) (acc_lengths : List Nat) (p_encoded_values_array : A) (i : Nat)
    (hsorted : acc_lengths.Pairwise (· < ·))
    (hlast : acc_lengths.getLast? = some (run_end_encoded_array.size m_proxy))
    (hi : i < run_end_encoded_array.size m_proxy) :
    ∃ k, k < acc_lengths.length
      ∧ i < acc_lengths.getD k 0
      ∧ (∀ j, j < k → acc_lengths.getD j 0 ≤ i)
      ∧ run_end_encoded_array.subscript_const array_element acc_lengths
          p_encoded_values_array i = array_element p_encoded_values_array k
      ∧ run_end_encoded_array.subscript array_element acc_lengths p_encoded_values_array i
        = run_end_encoded_array.subscript_const array_element acc_lengths
            p_encoded_values_array i := by
  obtain ⟨hlow, hhigh⟩ := upper_bound_spec acc_lengths i hsorted
  have hle : upper_bound acc_lengths i ≤ acc_lengths.length :=
    upper_bound_le_length acc_lengths i acc_lengths.length 0 acc_lengths.length (by omega)
  have hlastD : acc_lengths.getD (acc_lengths.length - 1) 0
      = run_end_encoded_array.size m_proxy := by
    rw [List.getLast?_eq_getElem?] at hlast
    simp [List.getD_eq_getElem?_getD, hlast]
  have hpos : 0 < acc_lengths.length := by
    cases acc_lengths with
    | nil => simp at hlast
    | cons x xs => simp
  have hk : upper_bound acc_lengths i < acc_lengths.length := by
    rcases Nat.eq_or_lt_of_le hle with heq | hlt
    · have := hlow (acc_lengths.length - 1) (by omega)
      rw [hlastD] at this
      omega
    · exact hlt
  exact ⟨upper_bound acc_lengths i, hk, hhigh _ (Nat.le_refl _) hk, hlow, rfl, rfl⟩

/-- Witness of C21: index 4 of the array with accumulated lengths `3, 5, 9`
and length 9. -/
theorem run_end_subscript_witness :
    ([3, 5, 9].Pairwise (· < ·)
        ∧ [3, 5, 9].getLast?
          = some (run_end_encoded_array.size
              (array_data.mk data_type.RUN_ENCODED 9 0 [] [] [] none : array_data Nat))
        ∧ 4 < run_end_encoded_array.size
            (array_data.mk data_type.RUN_ENCODED 9 0 [] [] [] none : array_data Nat))
      ∧ ∃ k, k < [3, 5, 9].length
        ∧ 4 < [3, 5, 9].getD k 0
        ∧ (∀ j, j < k → [3, 5, 9].getD j 0 ≤ 4)
        ∧ run_end_encoded_array.subscript_const (fun (values : List Nat) k => values.getD k 0)
            [3, 5, 9] [10, 20, 30] 4
          = (fun (values : List Nat) k => values.getD k 0) [10, 20, 30] k
        ∧ run_end_encoded_array.subscript (fun (values : List Nat) k => values.getD k 0)
            [3, 5, 9] [10, 20, 30] 4
          = run_end_encoded_array.subscript_const
              (fun (values : List Nat) k => values.getD k 0) [3, 5, 9] [10, 20, 30] 4 :=
  ⟨⟨by decide, by decide, by decide⟩,
    run_end_subscript (fun (values : List Nat) k => values.getD k 0)
      (array_data.mk data_type.RUN_ENCODED 9 0 [] [] [] none : array_data Nat)
      [3, 5, 9] [10, 20, 30] 4 (by decide) (by decide) (by decide)⟩

end run_end_access

/-! ## Properties of typed arrays -/

section typed_arrays

variable {α E : Type}

/-- C22: `a.at(i)` fails with an out-of-range error exactly when
`i >= a.size()`, and for `i < a.size()` it returns the element that the
unchecked `a[i]` returns. -/
theorem typed_array_at (L : layout_type α E) (a : typed_array_impl α) (i : Nat) :
    ((∃ what, typed_array_impl.at L a i = .error (.out_of_range what))
        ↔ i ≥ typed_array_impl.size L a)
      ∧ ((∃ e, typed_array_impl.at L a i = .error e) ↔ i ≥ typed_array_impl.size L a)
      ∧ (i < typed_array_impl.size L a →
          typed_array_impl.at L a i = .ok (typed_array_impl.subscript L a i)) := by
  by_cases h : i ≥ typed_array_impl.size L a
  · simp [typed_array_impl.at, h, Nat.not_lt.2 h]
  · simp [typed_array_impl.at, h, Nat.lt_of_not_ge h, typed_array_impl.subscript]

theorem std_equal_iff [BEq E] (xs ys : List E) :
    std_equal xs ys = true
      ↔ xs.length = ys.length ∧ ∀ i, i < xs.length → (xs[i]? == ys[i]?) = true := by
  induction xs generalizing ys with
  | nil =>
    cases ys with
    | nil => simp [std_equal]
    | cons y ys => simp [std_equal]
  | cons x xs ih =>
    cases ys with
    | nil => simp [std_equal]
    | cons y ys =>
      simp only [std_equal, List.length_cons, Nat.add_right_cancel_iff]
      constructor
      · intro h
        by_cases hxy : (x == y) = true
        · rw [if_pos hxy] at h
          obtain ⟨hlen, helems⟩ := (ih ys).1 h
          refine ⟨hlen, ?_⟩
          intro i hi
          cases i with
          | zero => simpa using hxy
          | succ i => simpa using helems i (by omega)
        · rw [if_neg hxy] at h
          exact absurd h (by simp)
      · rintro ⟨hlen, helems⟩
        have hxy : (x == y) = true := by simpa using helems 0 (by omega)
        rw [if_pos hxy]
        refine (ih ys).2 ⟨hlen, ?_⟩
        intro i hi
        simpa using helems (i + 1) (by omega)

theorem equal_loop_eq_std_equal [BEq E] (xs ys : List E) (hlen : xs.length = ys.length) :
    equal_loop xs ys = std_equal xs ys := by
  induction xs generalizing ys with
  | nil =>
    cases ys with
    | nil => rfl
    | cons y ys => simp at hlen
  | cons x xs ih =>
    cases ys with
    | nil => simp at hlen
    | cons y ys =>
      simp only [equal_loop, std_equal, ih ys (by simpa using hlen)]
      cases x == y <;> simp

theorem elements_getElem? (L : layout_type α E) (a : typed_array_impl α) (i : Nat)
    (hi : i < typed_array_impl.size L a) :
    (typed_array_impl.elements L a)[i]? = some (typed_array_impl.subscript L a i) := by
  simp [typed_array_impl.elements, List.getElem?_map, List.getElem?_range hi]

theorem typed_array_eq_iff [BEq E] (old_libcpp : Bool) (L : layout_type α E)
    (a b : typed_array_impl α) :
    typed_array_impl.eq old_libcpp L a b = true
      ↔ typed_array_impl.size L a = typed_array_impl.size L b
        ∧ ∀ i, i < typed_array_impl.size L a →
            (typed_array_impl.subscript L a i == typed_array_impl.subscript L b i) = true := by
  have hstd : std_equal (typed_array_impl.elements L a) (typed_array_impl.elements L b) = true
      ↔ typed_array_impl.size L a = typed_array_impl.size L b
        ∧ ∀ i, i < typed_array_impl.size L a →
            (typed_array_impl.subscript L a i == typed_array_impl.subscript L b i) = true := by
    rw [std_equal_iff]
    have hlen : ∀ c : typed_array_impl α,
        (typed_array_impl.elements L c).length = typed_array_impl.size L c := by
      intro c; simp [typed_array_impl.elements]
    rw [hlen a, hlen b]
    constructor
    · rintro ⟨hsize, helems⟩
      refine ⟨hsize, ?_⟩
      intro i hi
      have := helems i hi
      rw [elements_getElem? L a i hi, elements_getElem? L b i (hsize ▸ hi)] at this
      simpa using this
    · rintro ⟨hsize, helems⟩
      refine ⟨hsize, ?_⟩
      intro i hi
      rw [elements_getElem? L a i hi, elements_getElem? L b i (hsize ▸ hi)]
      simpa using helems i hi
  cases old_libcpp with
  | false => simpa [typed_array_impl.eq] using hstd
  | true =>
    by_cases hsize : typed_array_impl.size L a = typed_array_impl.size L b
    · have hlen : (typed_array_impl.elements L a).length
          = (typed_array_impl.elements L b).length := by
        simp [typed_array_impl.elements, hsize]
      simp only [typed_array_impl.eq, if_true, hsize, ne_eq, not_true_eq_false, if_false,
        equal_loop_eq_std_equal _ _ hlen]
      rw [hstd]
      simp [hsize]
    · simp [typed_array_impl.eq, hsize]

/-- C23: for two typed arrays `a` and `b` of the same layout, `a == b` holds
exactly when `a.size() == b.size()` and `a[i] == b[i]` for every
`i < a.size()`, in either branch of the preprocessor condition; arrays of
different sizes are unequal. -/
theorem typed_array_equality [BEq E] (old_libcpp : Bool) (L : layout_type α E)
    (a b : typed_array_impl α) :
    (typed_array_impl.eq old_libcpp L a b = true
        ↔ typed_array_impl.size L a = typed_array_impl.size L b
          ∧ ∀ i, i < typed_array_impl.size L a →
              (typed_array_impl.subscript L a i == typed_array_impl.subscript L b i) = true)
      ∧ (typed_array_impl.size L a ≠ typed_array_impl.size L b →
          typed_array_impl.eq old_libcpp L a b = false) := by
  refine ⟨typed_array_eq_iff old_libcpp L a b, ?_⟩
  intro hsize
  cases h : typed_array_impl.eq old_libcpp L a b with
  | false => rfl
  | true => exact absurd ((typed_array_eq_iff old_libcpp L a b).1 h).1 hsize

end typed_arrays

/-! ## Properties of the dispatching construction functions -/

theorem indexes_point_at_values {K : Type} [DecidableEq K] (ord : unordered_map_order K)
    (values : List K) (i : Nat) (hi : i < values.length) :
    ∃ index, (ranges_to_vec_and_indexes ord values).indexes[i]? = some index
      ∧ (ranges_to_vec_and_indexes ord values).values[index]? = some values[i] := by
  rw [ranges_to_vec_and_indexes_eq]
  refine ⟨((emplace_loop ord values []).map Prod.fst).indexOf values[i], ?_, ?_⟩
  · simp [List.getElem?_eq_getElem hi]
  · apply List.getElem?_indexOf
    exact (emplace_loop_mem ord values [] values[i]).2 (Or.inr (List.getElem_mem hi))

section dispatch

variable {α : Type} [Inhabited α] [DecidableEq α]

end dispatch

/-! ## Ranges of nullables -/

section nullables

variable {α β : Type}

theorem fixed_size_loop_view_eq (xs : List (nullable α)) (i : Nat) (buffer : List α) :
    fixed_size_loop_view (xs.map nullable.checked_value) (xs.map nullable.has_value) i buffer
      = some (fixed_size_loop (xs.map nullable.value) (xs.map nullable.has_value) i buffer) := by
  induction xs generalizing i buffer with
  | nil => rfl
  | cons x xs ih =>
    cases hx : x.has_value
    · simp [fixed_size_loop_view, fixed_size_loop, hx, ih]
    · simp [fixed_size_loop_view, fixed_size_loop, nullable.checked_value, hx, ih]

theorem acc_size_loop_view_eq (xs : List (nullable (List α))) (acc : Nat) :
    acc_size_loop_view (xs.map nullable.checked_value) (xs.map nullable.has_value) acc
      = some (acc_size_loop (xs.map nullable.value) (xs.map nullable.has_value) acc) := by
  induction xs generalizing acc with
  | nil => rfl
  | cons x xs ih =>
    cases hx : x.has_value
    · simp [acc_size_loop_view, acc_size_loop, hx, ih]
    · simp [acc_size_loop_view, acc_size_loop, nullable.checked_value, hx, ih]

theorem fill_loop_view_eq (xs : List (nullable (List α))) (i : Nat) (offsets : List Int)
    (data : List α) (iter : Nat) :
    fill_loop_view (xs.map nullable.checked_value) (xs.map nullable.has_value) i offsets data
        iter
      = some (fill_loop (xs.map nullable.value) (xs.map nullable.has_value) i offsets data
          iter) := by
  induction xs generalizing i offsets data iter with
  | nil => rfl
  | cons x xs ih =>
    cases hx : x.has_value
    · simp [fill_loop_view, fill_loop, hx, ih]
    · simp [fill_loop_view, fill_loop, nullable.checked_value, hx, ih]

theorem fixed_size_view_eq (type_id : data_type) (sizeofT : Nat) (fresh : Nat → α)
    (xs : List (nullable α)) (offset : Int) :
    make_array_data_for_fixed_size_layout_view type_id sizeofT fresh
        (xs.map nullable.checked_value) (bool_range.range nullable.has_value xs) offset
      = some (make_array_data_for_fixed_size_layout type_id sizeofT fresh
          (xs.map nullable.value) (bool_range.range nullable.has_value xs) offset) := by
  simp only [make_array_data_for_fixed_size_layout_view, make_array_data_for_fixed_size_layout,
    bool_range.bools, fixed_size_loop_view_eq, List.length_map]

theorem variable_size_binary_view_eq [Inhabited α] (type_id : data_type)
    (xs : List (nullable (List α))) (offset : Int) :
    make_array_data_for_variable_size_binary_layout_view type_id
        (xs.map nullable.checked_value) (bool_range.range nullable.has_value xs) offset
      = some (make_array_data_for_variable_size_binary_layout type_id
          (xs.map nullable.value) (bool_range.range nullable.has_value xs) offset) := by
  simp only [make_array_data_for_variable_size_binary_layout_view,
    make_array_data_for_variable_size_binary_layout, bool_range.bools, acc_size_loop_view_eq,
    fill_loop_view_eq, List.length_map]

theorem fixed_size_slot_eq (type_id : data_type) (sizeofT : Nat) (fresh : Nat → α)
    (values : List α) (bitmap : bool_range β) (offset : Int)
    (hsize : values.length = bitmap.size) (hT : 0 < sizeofT) (i : Nat)
    (hi : i < values.length) (hbit : bitmap.bools.getD i false = true) :
    (((make_array_data_for_fixed_size_layout type_id sizeofT fresh values bitmap
        offset).buffers[0]?.map buffer_type.as_elems).getD [])[i]? = some values[i] := by
  have hbits : values.length = bitmap.bools.length := by
    rw [bool_range_bools_length]; exact hsize
  have hcount : values.length * sizeofT / 1 / sizeofT = values.length := by
    rw [Nat.div_one, Nat.mul_div_cancel _ hT]
  have hloop := fixed_size_loop_eq values bitmap.bools []
    ((List.range values.length).map fresh) (by simp)
  simp only [List.nil_append, List.length_nil] at hloop
  have hslot := stored_slots_getElem? values bitmap.bools
    ((List.range values.length).map fresh) hbits i hi
  simp only [make_array_data_for_fixed_size_layout, array_data.buffers, hcount, hloop,
    List.getElem?_cons_zero, Option.map_some', Option.getD_some, buffer_type.as_elems]
  rw [hslot, hbit]
  simp [hi, List.getElem?_eq_getElem hi]

/-- C25: for a range of nullables, `make_default_array_data` for the
fixed-size and the variable-size binary layout returns a record although
some elements are null: the value of a null element is never taken. The
record has the length of the range, its bitmap bit `i` is
`xs[i].has_value()`, and the value stored at every valid position `i` is
`xs[i].value()`. -/
theorem nullables_record [Inhabited α] [DecidableEq α] (type_id : data_type) (sizeofT : Nat)
    (fresh : Nat → α) (xs : List (nullable α)) (ys : List (nullable (List α)))
    (hT : 0 < sizeofT) :
    (∃ r, make_default_array_data_nullables (.fixed_size_layout type_id sizeofT fresh) xs
          = some r
        ∧ r.length = xs.length
        ∧ r.bitmap = xs.map nullable.has_value
        ∧ ∀ i (hi : i < xs.length), xs[i].has_value = true →
            ((r.buffers[0]?.map buffer_type.as_elems).getD [])[i]? = some xs[i].value)
      ∧ (∃ r, make_default_array_data_nullables (.variable_size_binary_layout type_id) ys
          = some r
        ∧ r.length = ys.length
        ∧ r.bitmap = ys.map nullable.has_value
        ∧ ∀ i (hi : i < ys.length), ys[i].has_value = true →
            variable_size_binary_value r i = ys[i].value) := by
  refine ⟨⟨_, fixed_size_view_eq type_id sizeofT fresh xs 0, ?_, ?_, ?_⟩,
    ⟨_, variable_size_binary_view_eq type_id ys 0, ?_, ?_, ?_⟩⟩
  · simp [make_array_data_for_fixed_size_layout, array_data.length]
  · simp [make_array_data_for_fixed_size_layout, array_data.bitmap, make_array_data_bitmap_eq,
      bool_range.bools]
  · intro i hi hvalid
    have hslot := fixed_size_slot_eq type_id sizeofT fresh (xs.map nullable.value)
      (bool_range.range nullable.has_value xs) 0 (by simp [bool_range.size]) hT i
      (by simpa using hi)
      (by simp [bool_range.bools, List.getD_eq_getElem?_getD, List.getElem?_eq_getElem hi,
        hvalid])
    simpa using hslot
  · simp [make_array_data_for_variable_size_binary_layout, array_data.length]
  · simp [make_array_data_for_variable_size_binary_layout, array_data.bitmap,
      make_array_data_bitmap_eq, bool_range.bools]
  · intro i hi hvalid
    have hval := variable_size_binary_value_eq type_id (ys.map nullable.value)
      (bool_range.range nullable.has_value ys) (by simp [bool_range.size]) i
      (by simpa using hi)
      (by simp [bool_range.bools, List.getD_eq_getElem?_getD, List.getElem?_eq_getElem hi,
        hvalid])
    rw [hval]
    simp [List.getD_eq_getElem?_getD, List.getElem?_eq_getElem hi]

/-- Witness of C25 on the scalars `1, null, 3` and the sequences `[1, 2]`,
`null`. -/
theorem nullables_record_witness :
    0 < 4
      ∧ ((∃ r, make_default_array_data_nullables
              (.fixed_size_layout (data_type.OTHER 0) 4 (fun _ => 0))
              ([⟨1, true⟩, ⟨0, false⟩, ⟨3, true⟩] : List (nullable Nat)) = some r
          ∧ r.length = ([⟨1, true⟩, ⟨0, false⟩, ⟨3, true⟩] : List (nullable Nat)).length
          ∧ r.bitmap
            = ([⟨1, true⟩, ⟨0, false⟩, ⟨3, true⟩] : List (nullable Nat)).map nullable.has_value
          ∧ ∀ i (hi : i < ([⟨1, true⟩, ⟨0, false⟩, ⟨3, true⟩] : List (nullable Nat)).length),
              ([⟨1, true⟩, ⟨0, false⟩, ⟨3, true⟩] : List (nullable Nat))[i].has_value = true →
              ((r.buffers[0]?.map buffer_type.as_elems).getD [])[i]?
                = some ([⟨1, true⟩, ⟨0, false⟩, ⟨3, true⟩] : List (nullable Nat))[i].value)
        ∧ (∃ r, make_default_array_data_nullables
              (.variable_size_binary_layout (data_type.OTHER 0))
              ([⟨[1, 2], true⟩, ⟨[], false⟩] : List (nullable (List Nat))) = some r
          ∧ r.length = ([⟨[1, 2], true⟩, ⟨[], false⟩] : List (nullable (List Nat))).length
          ∧ r.bitmap
            = ([⟨[1, 2], true⟩, ⟨[], false⟩] : List (nullable (List Nat))).map
                nullable.has_value
          ∧ ∀ i (hi : i < ([⟨[1, 2], true⟩, ⟨[], false⟩] : List (nullable (List Nat))).length),
              ([⟨[1, 2], true⟩, ⟨[], false⟩] : List (nullable (List Nat)))[i].has_value = true →
              variable_size_binary_value r i
                = ([⟨[1, 2], true⟩, ⟨[], false⟩] : List (nullable (List Nat)))[i].value)) :=
  ⟨by decide, nullables_record (data_type.OTHER 0) 4 (fun _ => 0)
    [⟨1, true⟩, ⟨0, false⟩, ⟨3, true⟩] [⟨[1, 2], true⟩, ⟨[], false⟩] (by decide)⟩

end nullables

/-! ## Invariants of the built records -/

section invariants

variable {α β : Type}

/-- C27 as amended: under the precondition that the construction functions
assert (`size == std::ranges::size(bitmap)` and
`std::cmp_greater_equal(size, offset)`), the record that
`make_array_data_for_fixed_size_layout` builds from `n` values has length `n`,
a buffer 0 of exactly `n` element slots and the offset argument as offset,
which is at most the length; the record that
`make_array_data_for_variable_size_binary_layout` builds has exactly
`length + 1` offsets. So `offset + length` stays within the slots (and
`offset + length + 1` within the offsets) exactly when the offset argument is
not positive. -/
theorem offset_plus_length_within_slots [Inhabited α] (type_id : data_type) (sizeofT : Nat)
    (fresh : Nat → α) (values : List α) (seqs : List (List α))
    (bitmap seq_bitmap : bool_range β) (offset seq_offset : Int) (hT : 0 < sizeofT)
    (hpre : factory_precondition values.length bitmap offset)
    (hseq : factory_precondition seqs.length seq_bitmap seq_offset) :
    (∃ slots,
        (make_array_data_for_fixed_size_layout type_id sizeofT fresh values bitmap
            offset).buffers = [.elems sizeofT slots]
        ∧ slots.length = values.length
        ∧ (make_array_data_for_fixed_size_layout type_id sizeofT fresh values bitmap
            offset).length = values.length
        ∧ (make_array_data_for_fixed_size_layout type_id sizeofT fresh values bitmap
            offset).offset = offset
        ∧ offset ≤ values.length
        ∧ ((make_array_data_for_fixed_size_layout type_id sizeofT fresh values bitmap
              offset).offset
            + (make_array_data_for_fixed_size_layout type_id sizeofT fresh values bitmap
              offset).length ≤ slots.length ↔ offset ≤ 0))
      ∧ (∃ offsets data,
        (make_array_data_for_variable_size_binary_layout type_id seqs seq_bitmap
            seq_offset).buffers = [.int64 offsets, .elems 1 data]
        ∧ offsets.length = seqs.length + 1
        ∧ (make_array_data_for_variable_size_binary_layout type_id seqs seq_bitmap
            seq_offset).length = seqs.length
        ∧ (make_array_data_for_variable_size_binary_layout type_id seqs seq_bitmap
            seq_offset).offset = seq_offset
        ∧ seq_offset ≤ seqs.length
        ∧ ((make_array_data_for_variable_size_binary_layout type_id seqs seq_bitmap
              seq_offset).offset
            + (make_array_data_for_variable_size_binary_layout type_id seqs seq_bitmap
              seq_offset).length + 1 ≤ offsets.length ↔ seq_offset ≤ 0)) := by
  obtain ⟨hsize, hoffset⟩ := hpre
  obtain ⟨hseq_size, hseq_offset⟩ := hseq
  constructor
  · have hcount : values.length * sizeofT / 1 / sizeofT = values.length := by
      rw [Nat.div_one, Nat.mul_div_cancel _ hT]
    have hloop := fixed_size_loop_eq values bitmap.bools []
      ((List.range values.length).map fresh) (by simp)
    simp only [List.nil_append, List.length_nil] at hloop
    refine ⟨stored_slots values bitmap.bools ((List.range values.length).map fresh), ?_, ?_,
      rfl, rfl, hoffset, ?_⟩
    · simp only [make_array_data_for_fixed_size_layout, array_data.buffers, hcount, hloop]
    · simp [stored_slots_length]
    · simp only [make_array_data_for_fixed_size_layout, array_data.offset, array_data.length,
        stored_slots_length, List.length_map, List.length_range]
      omega
  · have hbits : seqs.length = seq_bitmap.bools.length := by
      rw [bool_range_bools_length]; exact hseq_size
    refine ⟨_, _, variable_size_binary_buffers type_id seqs seq_bitmap seq_offset hseq_size,
      offsets_from_length 0 seqs seq_bitmap.bools hbits, rfl, rfl, hseq_offset, ?_⟩
    simp only [make_array_data_for_variable_size_binary_layout, array_data.offset,
      array_data.length, offsets_from_length 0 seqs seq_bitmap.bools hbits]
    push_cast
    omega

/-- Witness of C27 as amended on the values `1, 2` and the sequences `[1]`,
`[2]`, both with offset 1. -/
theorem offset_plus_length_within_slots_witness :
    0 < 4
      ∧ factory_precondition ([1, 2] : List Nat).length
          (bool_range.bitmap [true, true] : bool_range Bool) 1
      ∧ factory_precondition ([[1], [2]] : List (List Nat)).length
          (bool_range.bitmap [true, true] : bool_range Bool) 1
      ∧ ((∃ slots,
          (make_array_data_for_fixed_size_layout (data_type.OTHER 0) 4 (fun _ => (0 : Nat))
              [1, 2] (bool_range.bitmap [true, true] : bool_range Bool) 1).buffers
            = [.elems 4 slots]
          ∧ slots.length = ([1, 2] : List Nat).length
          ∧ (make_array_data_for_fixed_size_layout (data_type.OTHER 0) 4 (fun _ => (0 : Nat))
              [1, 2] (bool_range.bitmap [true, true] : bool_range Bool) 1).length
            = ([1, 2] : List Nat).length
          ∧ (make_array_data_for_fixed_size_layout (data_type.OTHER 0) 4 (fun _ => (0 : Nat))
              [1, 2] (bool_range.bitmap [true, true] : bool_range Bool) 1).offset = 1
          ∧ (1 : Int) ≤ ([1, 2] : List Nat).length
          ∧ ((make_array_data_for_fixed_size_layout (data_type.OTHER 0) 4
                (fun _ => (0 : Nat)) [1, 2]
                (bool_range.bitmap [true, true] : bool_range Bool) 1).offset
              + (make_array_data_for_fixed_size_layout (data_type.OTHER 0) 4
                (fun _ => (0 : Nat)) [1, 2]
                (bool_range.bitmap [true, true] : bool_range Bool) 1).length
              ≤ slots.length ↔ (1 : Int) ≤ 0))
        ∧ (∃ offsets data,
          (make_array_data_for_variable_size_binary_layout (data_type.OTHER 0)
              ([[1], [2]] : List (List Nat))
              (bool_range.bitmap [true, true] : bool_range Bool) 1).buffers
            = [.int64 offsets, .elems 1 data]
          ∧ offsets.length = ([[1], [2]] : List (List Nat)).length + 1
          ∧ (make_array_data_for_variable_size_binary_layout (data_type.OTHER 0)
              ([[1], [2]] : List (List Nat))
              (bool_range.bitmap [true, true] : bool_range Bool) 1).length
            = ([[1], [2]] : List (List Nat)).length
          ∧ (make_array_data_for_variable_size_binary_layout (data_type.OTHER 0)
              ([[1], [2]] : List (List Nat))
              (bool_range.bitmap [true, true] : bool_range Bool) 1).offset = 1
          ∧ (1 : Int) ≤ ([[1], [2]] : List (List Nat)).length
          ∧ ((make_array_data_for_variable_size_binary_layout (data_type.OTHER 0)
                ([[1], [2]] : List (List Nat))
                (bool_range.bitmap [true, true] : bool_range Bool) 1).offset
              + (make_array_data_for_variable_size_binary_layout (data_type.OTHER 0)
                ([[1], [2]] : List (List Nat))
                (bool_range.bitmap [true, true] : bool_range Bool) 1).length + 1
              ≤ offsets.length ↔ (1 : Int) ≤ 0))) :=
  ⟨by decide, ⟨rfl, by decide⟩, ⟨rfl, by decide⟩,
    offset_plus_length_within_slots (data_type.OTHER 0) 4 (fun _ => (0 : Nat)) [1, 2]
      [[1], [2]] (bool_range.bitmap [true, true] : bool_range Bool)
      (bool_range.bitmap [true, true] : bool_range Bool) 1 1 (by decide) ⟨rfl, by decide⟩
      ⟨rfl, by decide⟩⟩

/-- Counterexample to C27 as stated: two values with the bitmap `true, true`
and the offset argument 1 satisfy the precondition (`0 ≤ 1 ≤ 2`), and the
record built has offset 1, length 2 and two element slots in buffer 0, so
`offset + length = 3` exceeds the slots; for the variable-size binary layout
`offset + length + 1 = 4` exceeds the three offsets. -/
theorem offset_plus_length_exceeds_slots :
    factory_precondition ([1, 2] : List Nat).length
        (bool_range.bitmap [true, true] : bool_range Bool) 1
      ∧ (0 : Int) ≤ 1 ∧ (1 : Int) ≤ ([1, 2] : List Nat).length
      ∧ (make_array_data_for_fixed_size_layout (data_type.OTHER 0) 4 (fun _ => (0 : Nat))
          [1, 2] (bool_range.bitmap [true, true] : bool_range Bool) 1).buffers
        = [.elems 4 [1, 2]]
      ∧ ¬ ((make_array_data_for_fixed_size_layout (data_type.OTHER 0) 4 (fun _ => (0 : Nat))
            [1, 2] (bool_range.bitmap [true, true] : bool_range Bool) 1).offset
          + (make_array_data_for_fixed_size_layout (data_type.OTHER 0) 4 (fun _ => (0 : Nat))
            [1, 2] (bool_range.bitmap [true, true] : bool_range Bool) 1).length
          ≤ (([1, 2] : List Nat).length : Int))
      ∧ factory_precondition ([[1], [2]] : List (List Nat)).length
          (bool_range.bitmap [true, true] : bool_range Bool) 1
      ∧ (make_array_data_for_variable_size_binary_layout (data_type.OTHER 0)
          ([[1], [2]] : List (List Nat))
          (bool_range.bitmap [true, true] : bool_range Bool) 1).buffers
        = [.int64 [0, 1, 2], .elems 1 [1, 2]]
      ∧ ¬ ((make_array_data_for_variable_size_binary_layout (data_type.OTHER 0)
            ([[1], [2]] : List (List Nat))
            (bool_range.bitmap [true, true] : bool_range Bool) 1).offset
          + (make_array_data_for_variable_size_binary_layout (data_type.OTHER 0)
            ([[1], [2]] : List (List Nat))
            (bool_range.bitmap [true, true] : bool_range Bool) 1).length + 1
          ≤ (([0, 1, 2] : List Int).length : Int)) := by
  refine ⟨⟨rfl, by decide⟩, by decide, by decide, by decide, by decide, ⟨rfl, by decide⟩,
    by decide, by decide⟩

end invariants

/-! ## The list layout, the empty variable-size binary record and the type tags -/

/-- C28: `make_default_array_data` for a list layout returns, for every value
range of `n` elements, the record of `make_array_data_for_null_layout(n)`:
its tag is `NA`, not `LIST` or `LARGE_LIST`, and it has no buffer, so there is
no buffer 0 of `n + 1` offsets; the second half of the claim holds: the
record of `make_array_data_for_list_layout` is tagged `LIST` when the offset
type has 32 bits and `LARGE_LIST` otherwise. -/
theorem default_list_record_is_null_record :
    (∀ (offset_bits : Nat) (values : List (List Nat)) (bitmap : bool_range Bool)
        (offset : Int),
        make_default_array_data (arrow_layout.list_layout offset_bits : arrow_layout Nat)
            values bitmap offset
          = some (make_array_data_for_null_layout values.length)
        ∧ (make_array_data_for_null_layout values.length : array_data Nat).type
          = data_type.NA
        ∧ (make_array_data_for_null_layout values.length : array_data Nat).buffers = [])
      ∧ (make_default_array_data (arrow_layout.list_layout 32 : arrow_layout Nat)
            ([[1, 2], [3]] : List (List Nat))
            (bool_range.bitmap [true, true] : bool_range Bool) 0).map
          (fun r => (r.type, r.length, r.buffers.length))
        = some (data_type.NA, 2, 0)
      ∧ (∀ offset_bits : Nat,
        (make_array_data_for_list_layout offset_bits : array_data Nat).type
          = if offset_bits = 32 then data_type.LIST else data_type.LARGE_LIST) := by
  refine ⟨fun _ _ _ _ => ⟨rfl, rfl, rfl⟩, by decide, fun _ => rfl⟩

/-- C29: the record of `make_array_data_for_variable_size_binary_layout<T>()`
without arguments has length 0, an empty buffer 0 and a buffer 1 of eight
zero bytes, whereas the record built from an empty range and an empty bitmap
with offset 0 has a buffer 0 of eight bytes (the one offset 0) and an empty
buffer 1: the two buffers are in the opposite order. -/
theorem empty_variable_size_binary_buffers_swapped :
    (make_array_data_for_variable_size_binary_layout_empty data_type.STRING
        : array_data Nat).length = 0
      ∧ (make_array_data_for_variable_size_binary_layout_empty data_type.STRING
          : array_data Nat).buffers.map buffer_type.size = [0, 8]
      ∧ (make_array_data_for_variable_size_binary_layout data_type.STRING
          ([] : List (List Nat)) (bool_range.bitmap [] : bool_range Bool) 0).buffers.map
          buffer_type.size = [8, 0]
      ∧ (make_array_data_for_variable_size_binary_layout_empty data_type.STRING
          : array_data Nat).buffers.map buffer_type.data = [[], [0, 0, 0, 0, 0, 0, 0, 0]]
      ∧ (make_array_data_for_variable_size_binary_layout data_type.STRING
          ([] : List (List Nat)) (bool_range.bitmap [] : bool_range Bool) 0).buffers.map
          buffer_type.data = [[0, 0, 0, 0, 0, 0, 0, 0], []]
      ∧ (make_array_data_for_variable_size_binary_layout data_type.STRING
          ([] : List (List Nat)) (bool_range.bitmap [] : bool_range Bool) 0).buffers
        = [.int64 [0], .elems 1 []] := by
  refine ⟨rfl, by decide, by decide, by decide, by decide, by decide⟩

/-- C30: `arrow_traits<std::string>::type_id` and
`arrow_traits<std::vector<byte_t>>::type_id` are both the tag `STRING`: the
mapping does not give byte sequences the tag `BINARY`; both value types have
the variable-size binary layout as default layout. -/
theorem byte_vector_type_id_is_string :
    arrow_traits.type_id arrow_value_type.string = data_type.STRING
      ∧ arrow_traits.type_id arrow_value_type.byte_vector = data_type.STRING
      ∧ arrow_traits.type_id arrow_value_type.byte_vector ≠ data_type.BINARY
      ∧ arrow_traits.default_layout arrow_value_type.string
        = default_layout_kind.variable_size_binary_layout
      ∧ arrow_traits.default_layout arrow_value_type.byte_vector
        = default_layout_kind.variable_size_binary_layout := by
  refine ⟨rfl, rfl, by decide, rfl, rfl⟩

/-! ## Checks and bounds of the construction functions -/

/-- C31: `check_all_elements_have_same_size` returns `true` exactly when the
range is empty or the size of every element equals the size of the first
element. -/
theorem check_all_elements_have_same_size_iff {V : Type} (size : V → Nat)
    (values : List V) :
    check_all_elements_have_same_size size values = true
      ↔ values = [] ∨ ∀ front ∈ values.head?, ∀ value ∈ values, size value = size front := by
  cases values with
  | nil => simp [check_all_elements_have_same_size]
  | cons front rest =>
    simp only [check_all_elements_have_same_size, List.all_eq_true, beq_iff_eq,
      List.head?_cons, Option.mem_def, Option.some.injEq, forall_eq', false_or,
      reduceCtorEq]

/-- C35: every index that `ranges_to_vec_and_indexes` records is smaller than
the number of unique values, so the unique value at a recorded index exists
(and is the input value of that position); for an empty input both outputs
are empty. -/
theorem recorded_indexes_in_bounds {V : Type} [DecidableEq V] (ord : unordered_map_order V)
    (range : List V) :
    (∀ index ∈ (ranges_to_vec_and_indexes ord range).indexes,
        index < (ranges_to_vec_and_indexes ord range).values.length)
      ∧ (ranges_to_vec_and_indexes ord range).indexes.length = range.length
      ∧ (∀ i (hi : i < range.length),
          (ranges_to_vec_and_indexes ord range).values[
              (ranges_to_vec_and_indexes ord range).indexes.getD i 0]?
            = some range[i])
      ∧ (ranges_to_vec_and_indexes ord ([] : List V)).values = []
      ∧ (ranges_to_vec_and_indexes ord ([] : List V)).indexes = [] := by
  have hmem : ∀ v ∈ range, v ∈ (emplace_loop ord range []).map Prod.fst :=
    fun v hv => (emplace_loop_mem ord range [] v).2 (Or.inr hv)
  rw [ranges_to_vec_and_indexes_eq]
  refine ⟨?_, by simp, ?_, rfl, rfl⟩
  · intro index hindex
    simp only [List.mem_map] at hindex
    obtain ⟨v, hv, rfl⟩ := hindex
    exact List.indexOf_lt_length.2 (hmem v hv)
  · intro i hi
    have hv := hmem range[i] (List.getElem_mem hi)
    simp only [List.getD_eq_getElem?_getD, List.getElem?_map, List.getElem?_eq_getElem hi,
      Option.map_some', Option.getD_some]
    simpa using List.getElem?_indexOf hv

/-- C39: the two branches of the preprocessor condition in `operator==` of
typed arrays, the size test followed by the element loop and `std::equal`
over the two full ranges, return the same boolean for every two typed
arrays. -/
theorem equality_branches_agree {α E : Type} [BEq E] (L : layout_type α E)
    (ta1 ta2 : typed_array_impl α) :
    typed_array_impl.eq true L ta1 ta2 = typed_array_impl.eq false L ta1 ta2 := by
  rw [Bool.eq_iff_iff, typed_array_eq_iff true L ta1 ta2, typed_array_eq_iff false L ta1 ta2]

/-! ## Offsets and invalid positions of the variable-size binary record -/

section offsets_invariants

variable {α β : Type}

theorem offsets_from_ge (start : Int) (values : List (List α)) (bits : List Bool) :
    ∀ x ∈ offsets_from start values bits, start ≤ x := by
  induction values generalizing start bits with
  | nil =>
    intro x hx
    simp only [offsets_from, List.mem_singleton] at hx
    omega
  | cons v values ih =>
    cases bits with
    | nil =>
      intro x hx
      simp only [offsets_from, List.mem_singleton] at hx
      omega
    | cons b bits =>
      intro x hx
      simp only [offsets_from, List.mem_cons] at hx
      rcases hx with rfl | hx
      · exact le_refl _
      · have hnext := ih _ bits x hx
        cases b
        · simpa using hnext
        · simp only [if_true] at hnext
          omega

theorem offsets_from_sorted (start : Int) (values : List (List α)) (bits : List Bool) :
    (offsets_from start values bits).Pairwise (· ≤ ·) := by
  induction values generalizing start bits with
  | nil => simp [offsets_from]
  | cons v values ih =>
    cases bits with
    | nil => simp [offsets_from]
    | cons b bits =>
      simp only [offsets_from, List.pairwise_cons]
      refine ⟨?_, ih _ bits⟩
      intro x hx
      have hnext := offsets_from_ge _ values bits x hx
      cases b
      · simpa using hnext
      · simp only [if_true] at hnext
        omega

theorem offsets_from_ne_nil (start : Int) (values : List (List α)) (bits : List Bool) :
    offsets_from start values bits ≠ [] := by
  cases values with
  | nil => simp [offsets_from]
  | cons v values => cases bits <;> simp [offsets_from]

theorem offsets_from_getLast (start : Int) (values : List (List α)) (bits : List Bool) :
    (offsets_from start values bits).getLast?
      = some (start + ((valid_values values bits).flatten.length : Int)) := by
  induction values generalizing start bits with
  | nil => simp [offsets_from, valid_values]
  | cons v values ih =>
    cases bits with
    | nil => simp [offsets_from, valid_values]
    | cons b bits =>
      have hne := offsets_from_ne_nil (if b then start + (v.length : Int) else start) values bits
      obtain ⟨x, rest, hrest⟩ := List.exists_cons_of_ne_nil hne
      have hlast := ih (if b then start + (v.length : Int) else start) bits
      rw [offsets_from, hrest, List.getLast?_cons_cons, ← hrest, hlast]
      cases b
      · simp [valid_values]
      · simp only [valid_values, if_true, List.flatten_cons, List.length_append, Nat.cast_add,
          Option.some.injEq]
        omega

theorem valid_values_congr {γ : Type} (values other : List γ) (bits : List Bool)
    (hlen : values.length = bits.length) (hother : other.length = bits.length)
    (hagree : ∀ i, bits.getD i false = true → values[i]? = other[i]?) :
    valid_values values bits = valid_values other bits := by
  induction bits generalizing values other with
  | nil =>
    have h1 : values = [] := by simpa using hlen
    have h2 : other = [] := by simpa using hother
    rw [h1, h2]
  | cons b bits ih =>
    cases values with
    | nil => simp at hlen
    | cons v values =>
      cases other with
      | nil => simp at hother
      | cons w other =>
        have htail := ih values other (by simpa using hlen) (by simpa using hother)
          (fun i hi => by simpa using hagree (i + 1) (by simpa using hi))
        cases b
        · simpa [valid_values] using htail
        · have hhead : v = w := by simpa using hagree 0 (by simp)
          simp [valid_values, htail, hhead]

theorem offsets_from_congr (start : Int) (values other : List (List α)) (bits : List Bool)
    (hlen : values.length = bits.length) (hother : other.length = bits.length)
    (hagree : ∀ i, bits.getD i false = true → values[i]? = other[i]?) :
    offsets_from start values bits = offsets_from start other bits := by
  induction bits generalizing start values other with
  | nil =>
    have h1 : values = [] := by simpa using hlen
    have h2 : other = [] := by simpa using hother
    rw [h1, h2]
  | cons b bits ih =>
    cases values with
    | nil => simp at hlen
    | cons v values =>
      cases other with
      | nil => simp at hother
      | cons w other =>
        have htail := fun start => ih start values other (by simpa using hlen)
          (by simpa using hother)
          (fun i hi => by simpa using hagree (i + 1) (by simpa using hi))
        cases b
        · simp [offsets_from, htail]
        · have hhead : v = w := by simpa using hagree 0 (by simp)
          simp [offsets_from, htail, hhead]

theorem variable_size_binary_record_eq [Inhabited α] (type_id : data_type)
    (values : List (List α)) (bitmap : bool_range β) (offset : Int)
    (hsize : values.length = bitmap.size) :
    make_array_data_for_variable_size_binary_layout type_id values bitmap offset
      = .mk type_id (values.length : Int) offset (make_array_data_bitmap bitmap)
          [.int64 (offsets_from 0 values bitmap.bools),
           .elems 1 (valid_values values bitmap.bools).flatten] [] none := by
  have hbuffers := variable_size_binary_buffers type_id values bitmap offset hsize
  simp only [make_array_data_for_variable_size_binary_layout, array_data.buffers] at hbuffers
  simp only [make_array_data_for_variable_size_binary_layout, hbuffers]

/-- C36: for a value range and a bitmap of the same size, the offsets that
`make_array_data_for_variable_size_binary_layout` writes to buffer 0 are
non-decreasing and non-negative, and the last offset is the size in bytes of
the data buffer (buffer 1), the size `acc_size` to which the first loop has
the buffer resized, so every span from `offsets[i]` to `offsets[i + 1]` lies
inside the data buffer. -/
theorem offsets_sorted_within_data [Inhabited α] (type_id : data_type)
    (values : List (List α)) (bitmap : bool_range β) (offset : Int)
    (hsize : values.length = bitmap.size) :
    ∃ (offsets : List Int) (data : buffer_type α),
      (make_array_data_for_variable_size_binary_layout type_id values bitmap offset).buffers
          = [.int64 offsets, data]
        ∧ offsets.Pairwise (· ≤ ·)
        ∧ (∀ x ∈ offsets, 0 ≤ x)
        ∧ offsets.getLast? = some (data.size : Int)
        ∧ data.size = acc_size_loop values bitmap.bools 0
        ∧ ∀ i, i < values.length →
            0 ≤ offsets.getD i 0 ∧ offsets.getD i 0 ≤ offsets.getD (i + 1) 0
              ∧ offsets.getD (i + 1) 0 ≤ (data.size : Int) := by
  have hbits : values.length = bitmap.bools.length := by
    rw [bool_range_bools_length]; exact hsize
  have hsorted := offsets_from_sorted (0 : Int) values bitmap.bools
  have hge := offsets_from_ge (0 : Int) values bitmap.bools
  have hlast := offsets_from_getLast (0 : Int) values bitmap.bools
  have hlen := offsets_from_length (0 : Int) values bitmap.bools hbits
  have hdata : (buffer_type.elems 1 (valid_values values bitmap.bools).flatten
      : buffer_type α).size = (valid_values values bitmap.bools).flatten.length := by
    simp [buffer_type.size]
  refine ⟨offsets_from 0 values bitmap.bools,
    .elems 1 (valid_values values bitmap.bools).flatten,
    variable_size_binary_buffers type_id values bitmap offset hsize, hsorted, hge, ?_, ?_, ?_⟩
  · rw [hlast, hdata, Int.zero_add]
  · rw [hdata, acc_size_loop_eq, Nat.zero_add, List.length_flatten]
  · intro i hi
    have hi0 : i < (offsets_from 0 values bitmap.bools).length := by omega
    have hi1 : i + 1 < (offsets_from 0 values bitmap.bools).length := by omega
    have hstep := List.pairwise_iff_getElem.1 hsorted i (i + 1) hi0 hi1 (Nat.lt_succ_self i)
    have hend : (offsets_from 0 values bitmap.bools)[i + 1]
        ≤ ((valid_values values bitmap.bools).flatten.length : Int) := by
      rw [List.getLast?_eq_getElem?, hlen, Nat.add_sub_cancel,
        List.getElem?_eq_getElem (by omega), Option.some.injEq, Int.zero_add] at hlast
      rcases Nat.eq_or_lt_of_le (Nat.succ_le_of_lt hi) with heq | hlt
      · have hidx : (offsets_from 0 values bitmap.bools)[i + 1]
            = (offsets_from 0 values bitmap.bools)[values.length] := by
          congr 1
        rw [hidx, hlast]
      · have hle := List.pairwise_iff_getElem.1 hsorted (i + 1) values.length hi1
          (by omega) hlt
        rw [hlast] at hle
        exact hle
    simp only [List.getD_eq_getElem?_getD, List.getElem?_eq_getElem hi0,
      List.getElem?_eq_getElem hi1, Option.getD_some, hdata]
    exact ⟨hge _ (List.getElem_mem hi0), hstep, hend⟩

/-- Witness of C36 on the values `[1, 2]`, `[3]`, `[]` under the bitmap
`true, false, true`. -/
theorem offsets_sorted_within_data_witness :
    ([[1, 2], [3], []] : List (List Nat)).length
        = (bool_range.bitmap [true, false, true] : bool_range Bool).size
      ∧ ∃ (offsets : List Int) (data : buffer_type Nat),
        (make_array_data_for_variable_size_binary_layout (data_type.OTHER 0)
            ([[1, 2], [3], []] : List (List Nat))
            (bool_range.bitmap [true, false, true] : bool_range Bool) 0).buffers
          = [.int64 offsets, data]
        ∧ offsets.Pairwise (· ≤ ·)
        ∧ (∀ x ∈ offsets, 0 ≤ x)
        ∧ offsets.getLast? = some (data.size : Int)
        ∧ data.size = acc_size_loop ([[1, 2], [3], []] : List (List Nat))
            (bool_range.bitmap [true, false, true] : bool_range Bool).bools 0
        ∧ ∀ i, i < ([[1, 2], [3], []] : List (List Nat)).length →
            0 ≤ offsets.getD i 0 ∧ offsets.getD i 0 ≤ offsets.getD (i + 1) 0
              ∧ offsets.getD (i + 1) 0 ≤ (data.size : Int) :=
  ⟨rfl, offsets_sorted_within_data (data_type.OTHER 0) [[1, 2], [3], []]
    (bool_range.bitmap [true, false, true] : bool_range Bool) 0 rfl⟩

/-- C38: for a bitmap and two value ranges of the bitmap's size that agree at
every position whose bit is set, `make_array_data_for_variable_size_binary_layout`
returns the same record: the same length, offsets buffer, data buffer and
bitmap (and the same tag and offset). -/
theorem invalid_values_do_not_matter [Inhabited α] (type_id : data_type)
    (values other : List (List α)) (bitmap : bool_range β) (offset : Int)
    (hsize : values.length = bitmap.size) (hother : other.length = bitmap.size)
    (hagree : ∀ i, bitmap.bools.getD i false = true → values[i]? = other[i]?) :
    make_array_data_for_variable_size_binary_layout type_id values bitmap offset
        = make_array_data_for_variable_size_binary_layout type_id other bitmap offset
      ∧ (make_array_data_for_variable_size_binary_layout type_id values bitmap offset).length
        = (make_array_data_for_variable_size_binary_layout type_id other bitmap offset).length
      ∧ (make_array_data_for_variable_size_binary_layout type_id values bitmap offset).buffers
        = (make_array_data_for_variable_size_binary_layout type_id other bitmap offset).buffers
      ∧ (make_array_data_for_variable_size_binary_layout type_id values bitmap offset).bitmap
        = (make_array_data_for_variable_size_binary_layout type_id other bitmap offset).bitmap
      := by
  have hbits : values.length = bitmap.bools.length := by
    rw [bool_range_bools_length]; exact hsize
  have hbits_other : other.length = bitmap.bools.length := by
    rw [bool_range_bools_length]; exact hother
  have hrecord : make_array_data_for_variable_size_binary_layout type_id values bitmap offset
      = make_array_data_for_variable_size_binary_layout type_id other bitmap offset := by
    rw [variable_size_binary_record_eq type_id values bitmap offset hsize,
      variable_size_binary_record_eq type_id other bitmap offset hother,
      offsets_from_congr 0 values other bitmap.bools hbits hbits_other hagree,
      valid_values_congr values other bitmap.bools hbits hbits_other hagree,
      hsize, hother]
  exact ⟨hrecord, by rw [hrecord], by rw [hrecord], by rw [hrecord]⟩

/-- Witness of C38: the ranges `[1], [2, 3]` and `[1], [9]` under the bitmap
`true, false`. -/
theorem invalid_values_do_not_matter_witness :
    ([[1], [2, 3]] : List (List Nat)).length
        = (bool_range.bitmap [true, false] : bool_range Bool).size
      ∧ ([[1], [9]] : List (List Nat)).length
        = (bool_range.bitmap [true, false] : bool_range Bool).size
      ∧ (∀ i, (bool_range.bitmap [true, false] : bool_range Bool).bools.getD i false = true →
          ([[1], [2, 3]] : List (List Nat))[i]? = ([[1], [9]] : List (List Nat))[i]?)
      ∧ (make_array_data_for_variable_size_binary_layout (data_type.OTHER 0)
            ([[1], [2, 3]] : List (List Nat))
            (bool_range.bitmap [true, false] : bool_range Bool) 0
          = make_array_data_for_variable_size_binary_layout (data_type.OTHER 0)
            ([[1], [9]] : List (List Nat))
            (bool_range.bitmap [true, false] : bool_range Bool) 0
        ∧ (make_array_data_for_variable_size_binary_layout (data_type.OTHER 0)
            ([[1], [2, 3]] : List (List Nat))
            (bool_range.bitmap [true, false] : bool_range Bool) 0).length
          = (make_array_data_for_variable_size_binary_layout (data_type.OTHER 0)
            ([[1], [9]] : List (List Nat))
            (bool_range.bitmap [true, false] : bool_range Bool) 0).length
        ∧ (make_array_data_for_variable_size_binary_layout (data_type.OTHER 0)
            ([[1], [2, 3]] : List (List Nat))
            (bool_range.bitmap [true, false] : bool_range Bool) 0).buffers
          = (make_array_data_for_variable_size_binary_layout (data_type.OTHER 0)
            ([[1], [9]] : List (List Nat))
            (bool_range.bitmap [true, false] : bool_range Bool) 0).buffers
        ∧ (make_array_data_for_variable_size_binary_layout (data_type.OTHER 0)
            ([[1], [2, 3]] : List (List Nat))
            (bool_range.bitmap [true, false] : bool_range Bool) 0).bitmap
          = (make_array_data_for_variable_size_binary_layout (data_type.OTHER 0)
            ([[1], [9]] : List (List Nat))
            (bool_range.bitmap [true, false] : bool_range Bool) 0).bitmap) :=
  have hagree : ∀ i, (bool_range.bitmap [true, false] : bool_range Bool).bools.getD i false
      = true → ([[1], [2, 3]] : List (List Nat))[i]? = ([[1], [9]] : List (List Nat))[i]? := by
    intro i hi
    rcases i with _ | _ | i
    · rfl
    · simp [bool_range.bools] at hi
    · simp [bool_range.bools] at hi
  ⟨rfl, rfl, hagree, invalid_values_do_not_matter (data_type.OTHER 0) [[1], [2, 3]]
    [[1], [9]] (bool_range.bitmap [true, false] : bool_range Bool) 0 rfl rfl hagree⟩

end offsets_invariants

/-! ## Sums of run lengths -/

section run_length_sums

theorem get_run_length_sub (width : acc_length_width) (acc : List Nat) (k : Nat)
    (hk : k < acc.length) (hfit : ∀ x ∈ acc, x < 2 ^ width.bits)
    (hmono : acc.getD (k - 1) 0 ≤ acc.getD k 0) :
    run_end_encoded_array.get_run_length width acc k
      = if k = 0 then acc.getD 0 0 else acc.getD k 0 - acc.getD (k - 1) 0 := by
  have hget : acc.getD k 0 = acc[k] := by
    simp [List.getD_eq_getElem?_getD, List.getElem?_eq_getElem hk]
  have hbits : width.bits ≤ 64 := by cases width <;> decide
  have hlt : acc.getD k 0 < 2 ^ width.bits := by
    rw [hget]; exact hfit _ (List.getElem_mem hk)
  have hlt64 : acc.getD k 0 < 2 ^ 64 :=
    lt_of_lt_of_le hlt (Nat.pow_le_pow_right (by decide) hbits)
  by_cases hzero : k = 0
  · subst hzero
    simp only [run_end_encoded_array.get_run_length, if_true]
    exact wrap_unsigned_natCast 64 _ hlt64
  · have hdiff : ((acc.getD k 0 : Nat) : Int) - ((acc.getD (k - 1) 0 : Nat) : Int)
        = ((acc.getD k 0 - acc.getD (k - 1) 0 : Nat) : Int) := by omega
    have hsub64 : acc.getD k 0 - acc.getD (k - 1) 0 < 2 ^ 64 := by omega
    simp only [run_end_encoded_array.get_run_length, hzero, if_false, hdiff]
    cases width with
    | uint16 => exact wrap_unsigned_natCast 64 _ hsub64
    | uint32 =>
      have hsub : acc.getD k 0 - acc.getD (k - 1) 0 < 2 ^ 32 := by
        have : acc.getD k 0 < 2 ^ 32 := hlt
        omega
      simp only [wrap_unsigned_natCast 32 _ hsub, wrap_unsigned_natCast 64 _ hsub64]
    | uint64 =>
      simp only [wrap_unsigned_natCast 64 _ hsub64]

theorem run_length_sum (width : acc_length_width) (acc : List Nat)
    (hfit : ∀ x ∈ acc, x < 2 ^ width.bits) (hsorted : acc.Pairwise (· < ·)) (m : Nat)
    (hm : m < acc.length) :
    ((List.range (m + 1)).map (run_end_encoded_array.get_run_length width acc)).sum
      = acc.getD m 0 := by
  induction m with
  | zero =>
    have hfirst := get_run_length_sub width acc 0 hm hfit (Nat.le_refl _)
    rw [if_pos rfl] at hfirst
    simp only [List.range_succ, List.range_zero, List.nil_append, List.map_cons, List.map_nil,
      List.sum_cons, List.sum_nil, Nat.add_zero, hfirst]
  | succ m ih =>
    have hmono : acc.getD m 0 ≤ acc.getD (m + 1) 0 :=
      getD_mono_of_pairwise acc hsorted m (m + 1) (Nat.le_succ m) hm
    rw [List.range_succ, List.map_append, List.sum_append, ih (by omega)]
    simp only [List.map_cons, List.map_nil, List.sum_cons, List.sum_nil, Nat.add_zero,
      get_run_length_sub width acc (m + 1) hm hfit (by simpa using hmono),
      Nat.add_sub_cancel]
    simp only [Nat.succ_ne_zero, if_false]
    omega

/-- C37 as amended: for strictly increasing accumulated lengths `acc` that
fit their width and every `m` with `1 ≤ m ≤` the number of runs, the sum of
`get_run_length(k)` over `k < m` is `acc[m - 1]`; every run after the first
has a length of at least 1, the first run has the length `acc[0]`, which is
at least 1 exactly when `acc[0]` is not 0, and the lengths of all runs sum to
the last accumulated length. -/
theorem run_lengths_telescope (width : acc_length_width) (acc : List Nat) (m : Nat)
    (hfit : ∀ x ∈ acc, x < 2 ^ width.bits) (hsorted : acc.Pairwise (· < ·))
    (hm : 1 ≤ m) (hruns : m ≤ acc.length) :
    ((List.range m).map (run_end_encoded_array.get_run_length width acc)).sum
        = acc.getD (m - 1) 0
      ∧ (∀ k, 0 < k → k < acc.length →
          1 ≤ run_end_encoded_array.get_run_length width acc k)
      ∧ run_end_encoded_array.get_run_length width acc 0 = acc.getD 0 0
      ∧ (1 ≤ run_end_encoded_array.get_run_length width acc 0 ↔ acc.getD 0 0 ≠ 0)
      ∧ ((List.range acc.length).map (run_end_encoded_array.get_run_length width acc)).sum
        = acc.getD (acc.length - 1) 0 := by
  have hpos : 0 < acc.length := by omega
  have hfirst : run_end_encoded_array.get_run_length width acc 0 = acc.getD 0 0 := by
    simp [get_run_length_sub width acc 0 hpos hfit (Nat.le_refl _)]
  have hsum : ∀ n, 1 ≤ n → n ≤ acc.length →
      ((List.range n).map (run_end_encoded_array.get_run_length width acc)).sum
        = acc.getD (n - 1) 0 := by
    intro n hn hle
    obtain ⟨j, rfl⟩ : ∃ j, n = j + 1 := ⟨n - 1, by omega⟩
    simpa using run_length_sum width acc hfit hsorted j (by omega)
  refine ⟨hsum m hm hruns, ?_, hfirst, ?_, hsum acc.length hpos (Nat.le_refl _)⟩
  · intro k hk hlen
    have hk1 : k - 1 < acc.length := by omega
    have hlt := List.pairwise_iff_getElem.1 hsorted (k - 1) k hk1 hlen (by omega)
    have hgetk : acc.getD k 0 = acc[k] := by
      simp [List.getD_eq_getElem?_getD, List.getElem?_eq_getElem hlen]
    have hgetk1 : acc.getD (k - 1) 0 = acc[k - 1] := by
      simp [List.getD_eq_getElem?_getD, List.getElem?_eq_getElem hk1]
    rw [get_run_length_sub width acc k hlen hfit (by rw [hgetk, hgetk1]; omega),
      if_neg (by omega), hgetk, hgetk1]
    omega
  · rw [hfirst]
    omega

/-- Witness of C37 as amended: the first two runs of the 16-bit accumulated
lengths `3, 5, 9`. -/
theorem run_lengths_telescope_witness :
    (∀ x ∈ [3, 5, 9], x < 2 ^ acc_length_width.uint16.bits)
      ∧ [3, 5, 9].Pairwise (· < ·) ∧ 1 ≤ 2 ∧ 2 ≤ [3, 5, 9].length
      ∧ (((List.range 2).map
            (run_end_encoded_array.get_run_length acc_length_width.uint16 [3, 5, 9])).sum
          = [3, 5, 9].getD (2 - 1) 0
        ∧ (∀ k, 0 < k → k < [3, 5, 9].length →
            1 ≤ run_end_encoded_array.get_run_length acc_length_width.uint16 [3, 5, 9] k)
        ∧ run_end_encoded_array.get_run_length acc_length_width.uint16 [3, 5, 9] 0
          = [3, 5, 9].getD 0 0
        ∧ (1 ≤ run_end_encoded_array.get_run_length acc_length_width.uint16 [3, 5, 9] 0
          ↔ [3, 5, 9].getD 0 0 ≠ 0)
        ∧ ((List.range [3, 5, 9].length).map
            (run_end_encoded_array.get_run_length acc_length_width.uint16 [3, 5, 9])).sum
          = [3, 5, 9].getD ([3, 5, 9].length - 1) 0) :=
  ⟨by decide, by decide, by decide, by decide,
    run_lengths_telescope acc_length_width.uint16 [3, 5, 9] 2 (by decide) (by decide)
      (by decide) (by decide)⟩

/-- Counterexample to C37 as stated: the 16-bit accumulated lengths `0, 2`
are strictly increasing, and `get_run_length(0)` is `0`: the first run has no
length of at least 1. -/
theorem first_run_length_zero :
    [0, 2].Pairwise (· < ·) ∧ (∀ x ∈ [0, 2], x < 2 ^ acc_length_width.uint16.bits)
      ∧ run_end_encoded_array.get_run_length acc_length_width.uint16 [0, 2] 0 = 0
      ∧ ¬ 1 ≤ run_end_encoded_array.get_run_length acc_length_width.uint16 [0, 2] 0 := by
  refine ⟨by decide, by decide, by decide, by decide⟩

end run_length_sums

/-! ## Copies of typed arrays -/

section deep_copy

variable {α E : Type}

theorem store_same (memory : object_memory α) (address : Nat)
    (object : typed_array_object α) : memory.store address object address = some object := by
  simp [object_memory.store]

theorem store_other (memory : object_memory α) (address p : Nat)
    (object : typed_array_object α) (hp : p ≠ address) :
    memory.store address object p = memory p := by
  simp [object_memory.store, hp]

theorem store_store (memory : object_memory α) (address : Nat)
    (first second : typed_array_object α) :
    (memory.store address first).store address second = memory.store address second := by
  funext p
  by_cases hp : p = address <;> simp [object_memory.store, hp]

theorem bound_record_own (memory : object_memory α) (address : Nat)
    (object : typed_array_object α) (hobject : memory address = some object)
    (hbound : object.m_layout = address) :
    typed_array_impl.bound_record memory address = some object.m_data := by
  simp [typed_array_impl.bound_record, hobject, hbound]

/-- C32: let the typed array at `a` have its layout bound to its own record,
and let the typed array at another address `b` be copy-constructed or
copy-assigned from it. Then `b` reads a record equal to that of `a`, so the
two have the same size and the same element at every index; and after any
change of the record that `b` owns, `b` reads the changed record while `a`
reads its record as before: every element and every validity bit of `a` is
unchanged. -/
theorem typed_array_deep_copy (L : layout_type α E) (memory after : object_memory α)
    (a b : Nat) (x : typed_array_object α) (data : array_data α) (hab : a ≠ b)
    (ha : memory a = some x) (hbound : x.m_layout = a)
    (hcopy : after = typed_array_impl.copy_constructor memory b a
      ∨ ((memory b).isSome = true ∧ after = typed_array_impl.copy_assignment memory b a)) :
    typed_array_impl.bound_record after b = some x.m_data
      ∧ typed_array_impl.bound_record after a = some x.m_data
      ∧ typed_array_impl.read_size L after b = typed_array_impl.read_size L after a
      ∧ (∀ i, typed_array_impl.read L after b i = typed_array_impl.read L after a i)
      ∧ typed_array_impl.bound_record (typed_array_impl.set_data after b data) b = some data
      ∧ typed_array_impl.bound_record (typed_array_impl.set_data after b data) a
        = some x.m_data
      ∧ (∀ i, typed_array_impl.read L (typed_array_impl.set_data after b data) a i
          = typed_array_impl.read L memory a i)
      ∧ (∀ i, (typed_array_impl.bound_record (typed_array_impl.set_data after b data) a).map
            (fun record => array_crtp_base.has_value record i)
          = (typed_array_impl.bound_record memory a).map
            (fun record => array_crtp_base.has_value record i)) := by
  have hafter : after = memory.store b { m_data := x.m_data, m_layout := b } := by
    rcases hcopy with h | ⟨hb, h⟩
    · rw [h, typed_array_impl.copy_constructor, ha]
    · obtain ⟨y, hy⟩ := Option.isSome_iff_exists.1 hb
      rw [h, typed_array_impl.copy_assignment, hy, ha]
      exact store_store _ _ _ _
  have hafter_b : after b = some { m_data := x.m_data, m_layout := b } := by
    rw [hafter]; exact store_same _ _ _
  have hafter_a : after a = some x := by
    rw [hafter, store_other _ _ _ _ hab]; exact ha
  have hset : typed_array_impl.set_data after b data
      = after.store b { m_data := data, m_layout := b } := by
    rw [typed_array_impl.set_data, hafter_b]
  have hset_b : typed_array_impl.set_data after b data b
      = some { m_data := data, m_layout := b } := by
    rw [hset]; exact store_same _ _ _
  have hset_a : typed_array_impl.set_data after b data a = some x := by
    rw [hset, store_other _ _ _ _ hab]; exact hafter_a
  have hrecord := bound_record_own memory a x ha hbound
  have hrecord_b := bound_record_own after b _ hafter_b rfl
  have hrecord_a := bound_record_own after a x hafter_a hbound
  have hchanged_b := bound_record_own _ b _ hset_b rfl
  have hchanged_a := bound_record_own _ a x hset_a hbound
  refine ⟨hrecord_b, hrecord_a, ?_, ?_, hchanged_b, hchanged_a, ?_, ?_⟩
  · simp only [typed_array_impl.read_size, hrecord_b, hrecord_a]
  · intro i
    simp only [typed_array_impl.read, hrecord_b, hrecord_a]
  · intro i
    simp only [typed_array_impl.read, hchanged_a, hrecord]
  · intro i
    rw [hchanged_a, hrecord]

/-- Witness of C32: in `example_memory` the typed array at address 2 is
copy-assigned from the one at address 1 and then given the record
`list_example`. -/
theorem typed_array_deep_copy_witness :
    1 ≠ 2 ∧ example_memory 1 = some { m_data := flat_example, m_layout := 1 }
      ∧ ({ m_data := flat_example, m_layout := 1 } : typed_array_object Nat).m_layout = 1
      ∧ (example_memory 2).isSome = true
      ∧ typed_array_impl.bound_record
          (typed_array_impl.copy_assignment example_memory 2 1) 2 = some flat_example
      ∧ typed_array_impl.bound_record
          (typed_array_impl.copy_assignment example_memory 2 1) 1 = some flat_example
      ∧ typed_array_impl.read_size example_layout
          (typed_array_impl.copy_assignment example_memory 2 1) 2
        = typed_array_impl.read_size example_layout
          (typed_array_impl.copy_assignment example_memory 2 1) 1
      ∧ (∀ i, typed_array_impl.read example_layout
            (typed_array_impl.copy_assignment example_memory 2 1) 2 i
          = typed_array_impl.read example_layout
            (typed_array_impl.copy_assignment example_memory 2 1) 1 i)
      ∧ typed_array_impl.bound_record (typed_array_impl.set_data
          (typed_array_impl.copy_assignment example_memory 2 1) 2 list_example) 2
        = some list_example
      ∧ typed_array_impl.bound_record (typed_array_impl.set_data
          (typed_array_impl.copy_assignment example_memory 2 1) 2 list_example) 1
        = some flat_example
      ∧ (∀ i, typed_array_impl.read example_layout (typed_array_impl.set_data
            (typed_array_impl.copy_assignment example_memory 2 1) 2 list_example) 1 i
          = typed_array_impl.read example_layout example_memory 1 i)
      ∧ (∀ i, (typed_array_impl.bound_record (typed_array_impl.set_data
            (typed_array_impl.copy_assignment example_memory 2 1) 2 list_example) 1).map
            (fun record => array_crtp_base.has_value record i)
          = (typed_array_impl.bound_record example_memory 1).map
            (fun record => array_crtp_base.has_value record i)) :=
  ⟨by decide, rfl, rfl, rfl,
    typed_array_deep_copy example_layout example_memory
      (typed_array_impl.copy_assignment example_memory 2 1) 1 2
      { m_data := flat_example, m_layout := 1 } list_example (by decide) rfl rfl
      (Or.inr ⟨rfl, rfl⟩)⟩

end deep_copy

/-! ## Assertions of the variable-size binary array -/

/-- C33: the assertions of `variable_size_binary_array::value` do fail on
well-formed records. For the record built from the one value `[7]` with offset
0, `value(0)` calls `offset(1)`, whose assertion `i < size() + offset()` is
`1 < 1`; the same happens at the last position of every record with slice
offset 0. For the record built from the two empty values `[]`, `[]`, the
assertion of `data` that the data buffer is not empty fails in `value(0)`.
Without the assertions `value` returns the values `[7]` and `[]`. -/
theorem value_assertions_fail :
    variable_size_binary_array.value_checked
        (make_array_data_for_variable_size_binary_layout data_type.STRING
          ([[7]] : List (List Nat)) (bool_range.bitmap [true] : bool_range Bool) 0) 0
      = .error (.failed "i < size() + get_arrow_proxy().offset()")
      ∧ variable_size_binary_value
        (make_array_data_for_variable_size_binary_layout data_type.STRING
          ([[7]] : List (List Nat)) (bool_range.bitmap [true] : bool_range Bool) 0) 0 = [7]
      ∧ (∀ (storage : array_data Nat) (i : Nat), storage.offset = 0 →
          i + 1 = array_crtp_base.size storage →
          variable_size_binary_array.offset_checked storage (i + 1)
              = .error (.failed "i < size() + get_arrow_proxy().offset()")
            ∧ ∃ e, variable_size_binary_array.value_checked storage i = .error e)
      ∧ variable_size_binary_array.value_checked
        (make_array_data_for_variable_size_binary_layout data_type.STRING
          ([[], []] : List (List Nat)) (bool_range.bitmap [true, true] : bool_range Bool) 0) 0
      = .error (.failed "get_arrow_proxy().buffers()[DATA_BUFFER_INDEX].size() == 0u")
      ∧ variable_size_binary_value
        (make_array_data_for_variable_size_binary_layout data_type.STRING
          ([[], []] : List (List Nat)) (bool_range.bitmap [true, true] : bool_range Bool) 0) 0
        = [] := by
  refine ⟨rfl, by decide, ?_, rfl, by decide⟩
  intro storage i hoffset hsize
  have hfail : variable_size_binary_array.offset_checked storage (i + 1)
      = .error (.failed "i < size() + get_arrow_proxy().offset()") := by
    simp [variable_size_binary_array.offset_checked, hoffset, to_size_type, ← hsize]
  refine ⟨hfail, ?_⟩
  simp only [variable_size_binary_array.value_checked, hfail]
  split
  · cases variable_size_binary_array.offset_checked storage i with
    | error e => exact ⟨e, rfl⟩
    | ok offset_begin =>
      simp only [Except.bind]
      split
      · exact ⟨_, rfl⟩
      · exact ⟨_, rfl⟩
  · exact ⟨_, rfl⟩

/-! ## The value iterators of a list array -/

theorem detail_traverse_eq {R : Type} (functor : Nat → R) (reads : Nat → List Nat)
    (last : detail.functor_index_iterator R) (fuel : Nat) :
    ∀ (it : detail.functor_index_iterator R) (log : List Nat),
      it.m_index ≤ last.m_index → last.m_index - it.m_index ≤ fuel →
      detail.functor_index_iterator.traverse functor reads fuel it last log
        = ((List.range' it.m_index (last.m_index - it.m_index)).map functor,
            log ++ (List.range' it.m_index (last.m_index - it.m_index)).flatMap reads) := by
  induction fuel with
  | zero =>
    intro it log hle hfuel
    have hzero : last.m_index - it.m_index = 0 := by omega
    simp [detail.functor_index_iterator.traverse, hzero]
  | succ fuel ih =>
    intro it log hle hfuel
    by_cases heq : it.m_index = last.m_index
    · simp [detail.functor_index_iterator.traverse, detail.functor_index_iterator.equal, heq]
    · have hlt : it.m_index < last.m_index := lt_of_le_of_ne hle heq
      have hcount : last.m_index - it.m_index = (last.m_index - (it.m_index + 1)) + 1 := by
        omega
      have hnext := ih
        (detail.functor_index_iterator.dereference functor reads it log).1.increment
        (detail.functor_index_iterator.dereference functor reads it log).2
        (by
          simp only [detail.functor_index_iterator.increment,
            detail.functor_index_iterator.dereference]
          omega)
        (by
          simp only [detail.functor_index_iterator.increment,
            detail.functor_index_iterator.dereference]
          omega)
      simp only [detail.functor_index_iterator.increment,
        detail.functor_index_iterator.dereference] at hnext
      simp only [detail.functor_index_iterator.traverse, detail.functor_index_iterator.equal,
        beq_iff_eq, heq, if_false, detail.functor_index_iterator.increment,
        detail.functor_index_iterator.dereference, Bool.false_eq_true, hnext]
      rw [hcount, List.range'_succ]
      simp [List.append_assoc]

/-- C34: constructing `value_end()` of a list array calls `value(size())`,
which reads `p_list_offsets` at `size()` and at `size() + 1`; so the
construction of the iterators and the run from `value_begin()` to
`value_end()` read position `size() + 1`, which lies outside an offsets
buffer of `size() + 1` entries. The run itself visits `value(0)` to
`value(size() - 1)` and reads only positions up to `size()`. For the list
record of `[1, 2, 3]`, `[4, 5]`, with the three offsets `0, 3, 5`, position 3
is read. -/
theorem value_end_reads_past_offsets :
    (∀ (BIG : Bool) (storage : array_data Nat),
        (list_array_impl.value_end BIG (fun child => child) storage []).2
            = [array_crtp_base.size storage, array_crtp_base.size storage + 1]
          ∧ (list_array_impl.value_traversal BIG (fun child => child) storage).2
            = [0, 1, array_crtp_base.size storage, array_crtp_base.size storage + 1]
              ++ (List.range (array_crtp_base.size storage)).flatMap
                list_array_impl.value_reads
          ∧ (list_array_impl.value_traversal BIG (fun child => child) storage).1
            = (List.range (array_crtp_base.size storage)).map
                (list_array_impl.value BIG (fun child => child) storage)
          ∧ array_crtp_base.size storage + 1
            ∈ (list_array_impl.value_traversal BIG (fun child => child) storage).2
          ∧ ∀ position ∈ (List.range (array_crtp_base.size storage)).flatMap
                list_array_impl.value_reads,
              position ≤ array_crtp_base.size storage)
      ∧ list_example.offset = 0
      ∧ array_crtp_base.size list_example = 2
      ∧ (list_example.buffers[0]?.map buffer_type.as_uint) = some [0, 3, 5]
      ∧ (list_array_impl.value_traversal false (fun child => child) list_example).2
        = [0, 1, 2, 3, 0, 1, 1, 2]
      ∧ (list_array_impl.value_end false (fun child => child) list_example []).1.m_index = 2
      ∧ (list_array_impl.value_end false (fun child => child)
          list_example []).1.m_value.flat_begin = 5 := by
  refine ⟨?_, rfl, by decide, rfl, by decide, by decide, by decide⟩
  intro BIG storage
  have htraversal := detail_traverse_eq
    (list_array_impl.value BIG (fun child => child) storage) list_array_impl.value_reads
    (list_array_impl.value_end BIG (fun child => child) storage
      (list_array_impl.value_begin BIG (fun child => child) storage []).2).1
    (array_crtp_base.size storage)
    (list_array_impl.value_begin BIG (fun child => child) storage []).1
    (list_array_impl.value_end BIG (fun child => child) storage
      (list_array_impl.value_begin BIG (fun child => child) storage []).2).2
    (by simp [list_array_impl.value_begin, detail.functor_index_iterator.construct])
    (by simp [list_array_impl.value_begin, list_array_impl.value_end,
      detail.functor_index_iterator.construct])
  have hreads : (list_array_impl.value_traversal BIG (fun child => child) storage).2
      = [0, 1, array_crtp_base.size storage, array_crtp_base.size storage + 1]
        ++ (List.range (array_crtp_base.size storage)).flatMap
          list_array_impl.value_reads := by
    rw [list_array_impl.value_traversal, htraversal]
    simp [list_array_impl.value_begin, list_array_impl.value_end,
      detail.functor_index_iterator.construct, list_array_impl.value_reads,
      List.range_eq_range']
  refine ⟨rfl, hreads, ?_, ?_, ?_⟩
  · rw [list_array_impl.value_traversal, htraversal]
    simp [list_array_impl.value_begin, list_array_impl.value_end,
      detail.functor_index_iterator.construct, List.range_eq_range']
  · rw [hreads]
    simp
  · intro position hposition
    simp only [List.mem_flatMap, List.mem_range, list_array_impl.value_reads, List.mem_cons,
      List.mem_singleton, List.not_mem_nil, or_false] at hposition
    obtain ⟨i, hi, rfl | rfl⟩ := hposition <;> omega

/-! ## The iterator over a functor -/

section functor_iterators

variable {R : Type}

theorem functor_traverse_eq (f : Nat → R) (last : Nat) (hlast : last < 2 ^ 64) (fuel : Nat) :
    ∀ i, i ≤ last → last - i ≤ fuel →
      functor_index_iterator.traverse fuel { m_functor := f, m_index := i }
          { m_functor := f, m_index := last }
        = (List.range' i (last - i)).map f := by
  induction fuel with
  | zero =>
    intro i hle hfuel
    have hzero : last - i = 0 := by omega
    simp [functor_index_iterator.traverse, hzero]
  | succ fuel ih =>
    intro i hle hfuel
    by_cases heq : i = last
    · simp [functor_index_iterator.traverse, functor_index_iterator.equal, heq]
    · have hlt : i < last := lt_of_le_of_ne hle heq
      have hcount : last - i = (last - (i + 1)) + 1 := by omega
      have hwrap : (i + 1) % 2 ^ 64 = i + 1 := Nat.mod_eq_of_lt (by omega)
      simp only [functor_index_iterator.traverse, functor_index_iterator.equal, beq_iff_eq,
        heq, if_false, functor_index_iterator.increment, functor_index_iterator.dereference,
        Bool.false_eq_true, hwrap, ih (i + 1) (by omega) (by omega)]
      rw [hcount, List.range'_succ]
      simp

/-- C40: an iterator constructed over the functor `f` at index `k` and
advanced by `n`, where `k + n` is an index (`n ≥ -k`, and `k + n` fits the
64 bits of the index), dereferences to `f(k + n)`; for two iterators at
indexes below `2 ^ 63`, the range of `difference_type`, `a.distance_to(b)` is
`index(b) - index(a)`; and the run from `value_cbegin()` to `value_cend()` of
a struct array ends, visits exactly `size()` positions, and its `j`-th
dereference is `value(j)`. -/
theorem functor_index_iterator_laws {A : Type} (f : Nat → R) (k : Nat) (n : Int)
    (a b : functor_index_iterator R) (m_children : List (Option A)) (size : Nat)
    (hk : k < 2 ^ 64) (hn : -(k : Int) ≤ n) (hkn : (k : Int) + n < 2 ^ 64)
    (ha : a.m_index < 2 ^ 63) (hb : b.m_index < 2 ^ 63) (hsize : size < 2 ^ 64) :
    ((functor_index_iterator.construct f k).advance n).dereference = f ((k : Int) + n).toNat
      ∧ ((functor_index_iterator.construct f k).advance n).m_index = ((k : Int) + n).toNat
      ∧ a.distance_to b = (b.m_index : Int) - (a.m_index : Int)
      ∧ (∀ fuel, size ≤ fuel →
          functor_index_iterator.traverse fuel (struct_array.value_cbegin m_children)
              (struct_array.value_cend m_children size)
            = (List.range size).map (struct_array.value m_children))
      ∧ (functor_index_iterator.traverse size (struct_array.value_cbegin m_children)
          (struct_array.value_cend m_children size)).length = size
      ∧ ∀ j, j < size →
          (functor_index_iterator.traverse size (struct_array.value_cbegin m_children)
            (struct_array.value_cend m_children size))[j]?
            = some (struct_array.value m_children j) := by
  have hindex : ((functor_index_iterator.construct f k).advance n).m_index
      = ((k : Int) + n).toNat := by
    simp only [functor_index_iterator.advance, functor_index_iterator.construct,
      wrap_unsigned]
    omega
  have hrun : ∀ fuel, size ≤ fuel →
      functor_index_iterator.traverse fuel (struct_array.value_cbegin m_children)
          (struct_array.value_cend m_children size)
        = (List.range size).map (struct_array.value m_children) := by
    intro fuel hfuel
    have hsize_mod : size % 2 ^ 64 = size := Nat.mod_eq_of_lt hsize
    have htraverse := functor_traverse_eq (struct_array.value m_children) size hsize fuel 0
      (Nat.zero_le _) (by omega)
    simp only [struct_array.value_cbegin, struct_array.value_cend,
      functor_index_iterator.construct, Nat.zero_mod, hsize_mod, htraverse, Nat.sub_zero,
      List.range_eq_range']
  refine ⟨?_, hindex, ?_, hrun, ?_, ?_⟩
  · simp only [functor_index_iterator.dereference, hindex]
    rfl
  · simp only [functor_index_iterator.distance_to, to_difference_type]
    split <;> split <;> omega
  · rw [hrun size (Nat.le_refl _)]
    simp
  · intro j hj
    rw [hrun size (Nat.le_refl _)]
    simp [List.getElem?_map, List.getElem?_range hj]

/-- Witness of C40: an iterator at index 5 advanced by `-3`, two iterators at
the indexes 2 and 7, and a struct array of size 2. -/
theorem functor_index_iterator_laws_witness :
    5 < 2 ^ 64 ∧ -((5 : Nat) : Int) ≤ -3 ∧ ((5 : Nat) : Int) + -3 < 2 ^ 64
      ∧ (functor_index_iterator.construct (fun i => 10 * i) 2).m_index < 2 ^ 63
      ∧ (functor_index_iterator.construct (fun i => 10 * i) 7).m_index < 2 ^ 63
      ∧ 2 < 2 ^ 64
      ∧ (((functor_index_iterator.construct (fun i => 10 * i) 5).advance (-3)).dereference
          = (fun i => 10 * i) (((5 : Nat) : Int) + -3).toNat
        ∧ ((functor_index_iterator.construct (fun i => 10 * i) 5).advance (-3)).m_index
          = (((5 : Nat) : Int) + -3).toNat
        ∧ (functor_index_iterator.construct (fun i => 10 * i) 2).distance_to
            (functor_index_iterator.construct (fun i => 10 * i) 7)
          = ((functor_index_iterator.construct (fun i => 10 * i) 7).m_index : Int)
            - ((functor_index_iterator.construct (fun i => 10 * i) 2).m_index : Int)
        ∧ (∀ fuel, 2 ≤ fuel →
            functor_index_iterator.traverse fuel
                (struct_array.value_cbegin
                  (struct_array.make_children (fun child => child) struct_example))
                (struct_array.value_cend
                  (struct_array.make_children (fun child => child) struct_example) 2)
              = (List.range 2).map (struct_array.value
                  (struct_array.make_children (fun child => child) struct_example)))
        ∧ (functor_index_iterator.traverse 2
            (struct_array.value_cbegin
              (struct_array.make_children (fun child => child) struct_example))
            (struct_array.value_cend
              (struct_array.make_children (fun child => child) struct_example) 2)).length = 2
        ∧ ∀ j, j < 2 →
            (functor_index_iterator.traverse 2
              (struct_array.value_cbegin
                (struct_array.make_children (fun child => child) struct_example))
              (struct_array.value_cend
                (struct_array.make_children (fun child => child) struct_example) 2))[j]?
              = some (struct_array.value
                  (struct_array.make_children (fun child => child) struct_example) j)) :=
  ⟨by decide, by decide, by decide, by decide, by decide, by decide,
    functor_index_iterator_laws (fun i => 10 * i) 5 (-3)
      (functor_index_iterator.construct (fun i => 10 * i) 2)
      (functor_index_iterator.construct (fun i => 10 * i) 7)
      (struct_array.make_children (fun child => child) struct_example) 2
      (by decide) (by decide) (by decide) (by decide) (by decide) (by decide)⟩

end functor_iterators

end sparrow
